import Mathlib

/-!
# AION-OS kernel resource layer: physical page allocator and process manager

A shallow embedding of `bootloader/kernel/memory/memory.{c,h}`,
`bootloader/kernel/process/process.c` and the part of
`bootloader/kernel/core/kernel.c` they call (`kernel_panic`).

Conventions of the embedding.

* `uint32_t` values are natural numbers; every place where the C code can wrap
  is written with an explicit `% 2 ^ 32` (`% 2 ^ 64` for `uint64_t`).
* The physical memory bitmap is the raw word array behind `memory_bitmap`:
  a function from word index to 32-bit word.
* Pointers to PCBs are indices into `process_table`; `NULL` is `none`.
* Functions that the sources call but do not define (`find_free_pages`,
  `move_page`, the predictor callbacks, ...) are fields of an oracle record.
  An oracle is supplied per call, so a sequence of calls may be answered by a
  policy that changes its mind between calls.
* Callbacks that only inform the predictor (`record_allocation`, `record_free`,
  `record_process_creation`, `record_process_exit`, `update_statistics`) and
  `kprintf` leave the modelled state alone and are not shown.
* `kernel_panic` ends in `while (1) hlt`: a call that reaches it never gives
  control back.  Operations therefore produce an `Outcome`: either they
  return a value in a new state, or the machine is halted.
-/

namespace AION

/-! ## Constants of `memory.h` -/

def PAGE_SIZE : Nat := 4096
def PAGE_SHIFT : Nat := 12
def KERNEL_SIZE : Nat := 0x400000
def MAX_MEMORY_ZONES : Nat := 16
def INVALID_PAGE : Nat := 0xFFFFFFFF

/-- The type value of a usable region in a multiboot memory map (multiboot specification). -/
def MULTIBOOT_MEMORY_AVAILABLE : Nat := 1

/-! ## Data model of `memory.h` -/

structure memory_zone_t where
  start_addr : Nat
  end_addr : Nat
  size : Nat
  free_pages : Nat
  used_pages : Nat
  flags : Nat
deriving DecidableEq, Repr

structure allocation_hint_t where
  preferred_zone : Nat
  alignment : Nat
  contiguous : Bool
  cache_line_aligned : Bool
deriving DecidableEq, Repr

/-- The enumerators of `compaction_strategy_t`, as the integers C gives them. -/
def COMPACT_AGGRESSIVE : Nat := 0
def COMPACT_LAZY : Nat := 1
def COMPACT_SMART : Nat := 2

/-- The record `fragmentation_info_t`; the float `fragmentation_ratio` is carried as its raw
bits. -/
structure fragmentation_info_t where
  total_fragments : Nat
  largest_free_block : Nat
  fragmentation_ratio : Nat
deriving DecidableEq, Repr

/-- The record `page_move_t` (fields `from`, `to`). -/
structure page_move_t where
  from_ : Nat
  to_ : Nat
deriving DecidableEq, Repr

/-- One entry of the multiboot memory map. -/
structure multiboot_memory_map_t where
  size : Nat
  addr : Nat
  len : Nat
  type : Nat
deriving DecidableEq, Repr

/-- The part of `multiboot_info_t` that `memory_init` reads; the memory map is the list of
entries met when walking from `mmap_addr` to `mmap_addr + mmap_length`. -/
structure multiboot_info_t where
  mem_upper : Nat
  mmap : List multiboot_memory_map_t
deriving DecidableEq, Repr

/-- Calls to functions outside `memory.c`, in the order they happen. -/
inductive MemEvent where
  | find_free_pages (num_pages : Nat) (result : Nat)
  | compact_memory (pages_moved : Nat)
  | move_page (from_ to_ : Nat) (moved : Bool)
  | kernel_panic
deriving DecidableEq, Repr

/-- The file-scope variables of `memory.c`. -/
structure MemState where
  memory_bitmap : Nat → Nat
  total_memory : Nat
  used_memory : Nat
  free_memory : Nat
  memory_zones : Nat → memory_zone_t
  num_memory_zones : Nat
  trace : List MemEvent

/-- Result of running a kernel operation: it returns `v` in state `s`, or the machine is
halted in state `s` (`kernel_panic` never returns). -/
inductive Outcome (σ α : Type) where
  | returned (s : σ) (v : α)
  | halted (s : σ)

/-- The functions `memory.c` calls without defining them, and the predictor callbacks.
The compaction helpers and `coalesce_free_blocks` work on the bitmap. -/
structure MemOracle where
  predict_allocation : Nat → allocation_hint_t
  find_free_pages : MemState → Nat → allocation_hint_t → Nat
  get_compaction_strategy : MemState → Nat
  compact_aggressive : (Nat → Nat) → (Nat → Nat) × Nat
  compact_lazy : (Nat → Nat) → (Nat → Nat) × Nat
  analyze_fragmentation : (Nat → Nat) → fragmentation_info_t
  predict_moves : fragmentation_info_t → List page_move_t
  move_page : (Nat → Nat) → Nat → Nat → (Nat → Nat) × Bool
  coalesce_free_blocks : (Nat → Nat) → Nat → Nat → (Nat → Nat)

/-! ## Bitmap operations (`memory.h`, lines 70-81) -/

/-- Store `v` in word `w` of the bitmap. -/
def write_word (bm : Nat → Nat) (w v : Nat) : Nat → Nat :=
  fun i => if i = w then v else bm i

/-- `memory_bitmap[page / 32] |= (1 << (page % 32))`. -/
def set_page_used (bm : Nat → Nat) (page : Nat) : Nat → Nat :=
  write_word bm (page / 32) (bm (page / 32) ||| (1 <<< (page % 32)))

/-- `memory_bitmap[page / 32] &= ~(1 << (page % 32))`, the complement taken on 32 bits. -/
def set_page_free (bm : Nat → Nat) (page : Nat) : Nat → Nat :=
  write_word bm (page / 32) (bm (page / 32) &&& (0xFFFFFFFF ^^^ (1 <<< (page % 32))))

/-- `!(memory_bitmap[page / 32] & (1 << (page % 32)))`. -/
def is_page_free (bm : Nat → Nat) (page : Nat) : Bool :=
  (bm (page / 32) &&& (1 <<< (page % 32))) == 0

/-- The loop `for (i = 0; i < num_pages; i++) set_page_used(start_page + i)`;
the argument is converted to `uint32_t`. -/
def mark_pages_used (bm : Nat → Nat) (start_page : Nat) : Nat → (Nat → Nat)
  | 0 => bm
  | i + 1 => set_page_used (mark_pages_used bm start_page i) ((start_page + i) % 2 ^ 32)

/-- The loop `for (i = 0; i < num_pages; i++) set_page_free(start_page + i)`. -/
def mark_pages_free (bm : Nat → Nat) (start_page : Nat) : Nat → (Nat → Nat)
  | 0 => bm
  | i + 1 => set_page_free (mark_pages_free bm start_page i) ((start_page + i) % 2 ^ 32)

/-! ## `kernel_panic` (`kernel.c`, lines 112-131) -/

/-- The state in which `kernel_panic` spins in `while (1) hlt`. -/
def kernel_panic (s : MemState) : MemState :=
  { s with trace := s.trace ++ [MemEvent.kernel_panic] }

/-! ## Compaction (`memory.c`, lines 126-170) -/

/-- The loop of `compact_smart`: every predicted move is handed to `move_page`, and the
moves that `move_page` reports as done are counted. -/
def compact_smart_loop (o : MemOracle) :
    List page_move_t → (Nat → Nat) × Nat × List MemEvent →
      (Nat → Nat) × Nat × List MemEvent
  | [], acc => acc
  | mv :: rest, (bm, pages_moved, ev) =>
    let r := o.move_page bm mv.from_ mv.to_
    compact_smart_loop o rest
      (r.1, (if r.2 then (pages_moved + 1) % 2 ^ 32 else pages_moved),
        ev ++ [MemEvent.move_page mv.from_ mv.to_ r.2])

def compact_smart (o : MemOracle) (s : MemState) : MemState × Nat :=
  let frag_info := o.analyze_fragmentation s.memory_bitmap
  let moves := o.predict_moves frag_info
  let r := compact_smart_loop o moves (s.memory_bitmap, 0, [])
  ({ s with memory_bitmap := r.1, trace := s.trace ++ r.2.2 }, r.2.1)

/-- The dispatch of `compact_memory`; the result is the new state and `pages_moved`
(`compact_memory` itself returns `pages_moved > 0`). -/
def compact_memory_moved (o : MemOracle) (s : MemState) : MemState × Nat :=
  let strategy := o.get_compaction_strategy s
  if strategy = COMPACT_AGGRESSIVE then
    let r := o.compact_aggressive s.memory_bitmap
    ({ s with memory_bitmap := r.1 }, r.2 % 2 ^ 32)
  else if strategy = COMPACT_LAZY then
    let r := o.compact_lazy s.memory_bitmap
    ({ s with memory_bitmap := r.1 }, r.2 % 2 ^ 32)
  else if strategy = COMPACT_SMART then
    compact_smart o s
  else
    (s, 0)

def compact_memory (o : MemOracle) (s : MemState) : MemState × Bool :=
  let r := compact_memory_moved o s
  ({ r.1 with trace := r.1.trace ++ [MemEvent.compact_memory r.2] }, decide (r.2 > 0))

/-! ## Allocation and release (`memory.c`, lines 47-98) -/

/-- The call `find_free_pages(num_pages, hint)`; the result is a `uint32_t`. -/
def find_free_pages (o : MemOracle) (s : MemState) (num_pages : Nat)
    (hint : allocation_hint_t) : MemState × Nat :=
  let r := o.find_free_pages s num_pages hint % 2 ^ 32
  ({ s with trace := s.trace ++ [MemEvent.find_free_pages num_pages r] }, r)

/-- Lines 65-77 of `pmm_alloc_pages`: mark the pages, update the statistics, return the
address `start_page * PAGE_SIZE` (a 32-bit product). -/
def pmm_alloc_commit (s : MemState) (num_pages start_page : Nat) : Outcome MemState Nat :=
  Outcome.returned
    { s with
      memory_bitmap := mark_pages_used s.memory_bitmap start_page num_pages
      used_memory := (s.used_memory + num_pages * PAGE_SIZE) % 2 ^ 32
      free_memory := (s.free_memory + 2 ^ 32 - (num_pages * PAGE_SIZE) % 2 ^ 32) % 2 ^ 32 }
    ((start_page * PAGE_SIZE) % 2 ^ 32)

def pmm_alloc_pages (o : MemOracle) (s : MemState) (num_pages : Nat) : Outcome MemState Nat :=
  let hint := o.predict_allocation num_pages
  let r1 := find_free_pages o s num_pages hint
  if r1.2 = INVALID_PAGE then
    let c := compact_memory o r1.1
    if c.2 then
      let r2 := find_free_pages o c.1 num_pages hint
      if r2.2 = INVALID_PAGE then
        Outcome.halted (kernel_panic r2.1)
      else
        pmm_alloc_commit r2.1 num_pages r2.2
    else
      Outcome.halted (kernel_panic c.1)
  else
    pmm_alloc_commit r1.1 num_pages r1.2

/-- `pmm_free_pages(addr, num_pages)`: `start_page = (uint32_t)addr / PAGE_SIZE`. -/
def pmm_free_pages (o : MemOracle) (s : MemState) (addr num_pages : Nat) : MemState :=
  let start_page := (addr % 2 ^ 32) / PAGE_SIZE
  let bm := mark_pages_free s.memory_bitmap start_page num_pages
  { s with
    memory_bitmap := o.coalesce_free_blocks bm start_page num_pages
    used_memory := (s.used_memory + 2 ^ 32 - (num_pages * PAGE_SIZE) % 2 ^ 32) % 2 ^ 32
    free_memory := (s.free_memory + num_pages * PAGE_SIZE) % 2 ^ 32 }

/-! ## Initialisation (`memory.c`, lines 19-44 and 101-123) -/

/-- The loop of `init_memory_zones` over the entries of the memory map: an available
entry fills `memory_zones[num_memory_zones++]`.  `memory_zones` is an array of
`MAX_MEMORY_ZONES` entries and the loop has no test against that bound: when
`num_memory_zones` has reached `MAX_MEMORY_ZONES` the write is outside the array and nothing
is defined from there on (`none`). -/
def init_memory_zones_loop :
    List multiboot_memory_map_t → (Nat → memory_zone_t) × Nat →
      Option ((Nat → memory_zone_t) × Nat)
  | [], acc => some acc
  | mmap :: rest, (zones, num) =>
    if mmap.type = MULTIBOOT_MEMORY_AVAILABLE then
      if num < MAX_MEMORY_ZONES then
        let zone : memory_zone_t :=
          { start_addr := mmap.addr
            end_addr := (mmap.addr + mmap.len) % 2 ^ 64
            size := mmap.len
            free_pages := (mmap.len / PAGE_SIZE) % 2 ^ 32
            used_pages := 0
            flags := (zones num).flags }
        init_memory_zones_loop rest
          ((fun i => if i = num then zone else zones i), (num + 1) % 2 ^ 32)
      else none
    else
      init_memory_zones_loop rest (zones, num)

/-- `init_memory_zones`; `none` when the loop writes past the end of `memory_zones`. -/
def init_memory_zones (s : MemState) (mboot_info : multiboot_info_t) : Option MemState :=
  match init_memory_zones_loop mboot_info.mmap (s.memory_zones, s.num_memory_zones) with
  | some r => some { s with memory_zones := r.1, num_memory_zones := r.2 }
  | none => none

/-- `memset(memory_bitmap, 0, bitmap_size)`: the first `bitmap_size` bytes are cleared; a
word holds four bytes, lowest byte first. -/
def memset_bitmap (bm : Nat → Nat) (bitmap_size : Nat) : Nat → Nat :=
  fun w =>
    let k := min 4 (bitmap_size - 4 * w)
    (bm w / 2 ^ (8 * k)) * 2 ^ (8 * k) % 2 ^ 32

/-- The variables of `memory.c` when the kernel is entered: the statics are zero and the
memory at `MEMORY_BITMAP_ADDR` holds whatever it held (`raw`). -/
def boot_state (raw : Nat → Nat) : MemState :=
  { memory_bitmap := raw
    total_memory := 0
    used_memory := 0
    free_memory := 0
    memory_zones := fun _ => ⟨0, 0, 0, 0, 0, 0⟩
    num_memory_zones := 0
    trace := [] }

/-- `memory_init`; `mark_memory_used`, which `memory.c` calls without defining it, is a
parameter acting on the bitmap.  `none` when `init_memory_zones` writes past the end of
`memory_zones`. -/
def memory_init (mark_memory_used : (Nat → Nat) → Nat → Nat → (Nat → Nat))
    (s : MemState) (mboot_info : multiboot_info_t) : Option MemState :=
  let total := (mboot_info.mem_upper * 1024) % 2 ^ 32
  let bitmap_size := total / (PAGE_SIZE * 32)
  let bm := memset_bitmap s.memory_bitmap bitmap_size
  let s1 : MemState :=
    { s with
      total_memory := total
      free_memory := total
      used_memory := 0
      memory_bitmap := mark_memory_used bm 0 KERNEL_SIZE }
  init_memory_zones s1 mboot_info

/-! ## Data model of the process manager

`process.h` is not among the sources.  The record fields below are the ones `process.c`
reads and writes; the constants `MAX_PROCESSES`, `PROCESS_NAME_MAX`, `DEFAULT_QUANTUM` and
`PROCESS_FLAG_SYSTEM` are parameters (`ProcConfig`). -/

/-- Modelled from the spec: the enumeration of process states declared in `process.h`, which is
not among the sources.  The states are those of the state machine of the specification
(Unused, Ready, Running, Blocked, Zombie); `PROCESS_STATE_UNUSED` is the zero value, the one
`memset(process_table, 0, ...)` leaves in every slot. -/
inductive process_state_t where
  | PROCESS_STATE_UNUSED
  | PROCESS_STATE_READY
  | PROCESS_STATE_RUNNING
  | PROCESS_STATE_BLOCKED
  | PROCESS_STATE_ZOMBIE
deriving DecidableEq, Repr

open process_state_t

/-- The fields of `proc->memory` used by `process.c`. -/
structure process_memory_t where
  page_directory : Nat
  heap_size : Nat
  stack_size : Nat
deriving DecidableEq, Repr

/-- The fields of `proc->context` used by `process.c`. -/
structure context_t where
  rsp : Nat
  rbp : Nat
  rip : Nat
  rflags : Nat
  cs : Nat
  ss : Nat
deriving DecidableEq, Repr

/-- The fields of `proc->stats` used by `process.c`. -/
structure process_stats_t where
  cpu_time : Nat
  start_time : Nat
  context_switches : Nat
deriving DecidableEq, Repr

/-- A process control block; `name` is the character array, `parent` a pointer to a PCB. -/
structure process_t where
  pid : Nat
  name : List Nat
  state : process_state_t
  priority : Nat
  quantum : Nat
  memory : process_memory_t
  stack : Nat
  context : context_t
  stats : process_stats_t
  flags : Nat
  exit_code : Int
  parent : Option Nat
deriving DecidableEq, Repr

/-- A PCB as `memset(process_table, 0, sizeof(process_table))` leaves it. -/
def process_t.zero : process_t :=
  { pid := 0, name := [], state := PROCESS_STATE_UNUSED, priority := 0, quantum := 0
    memory := ⟨0, 0, 0⟩, stack := 0, context := ⟨0, 0, 0, 0, 0, 0⟩
    stats := ⟨0, 0, 0⟩, flags := 0, exit_code := 0, parent := none }

/-- The constants of `process.h` that `process.c` uses. -/
structure ProcConfig where
  MAX_PROCESSES : Nat
  PROCESS_NAME_MAX : Nat
  DEFAULT_QUANTUM : Nat
  PROCESS_FLAG_SYSTEM : Nat
deriving DecidableEq, Repr

def USER_CS : Nat := 0x18
def USER_DS : Nat := 0x20

/-- The enumeration behind `decision.action`. -/
inductive schedule_action_t where
  | SCHEDULE_SWITCH
  | SCHEDULE_CONTINUE
  | SCHEDULE_IDLE
  | SCHEDULE_MIGRATE
deriving DecidableEq, Repr

open schedule_action_t

structure scheduling_decision_t where
  action : schedule_action_t
  next_process : Option Nat
  quantum : Nat
  target_cpu : Nat
deriving DecidableEq, Repr

structure resource_prediction_t where
  heap_size : Nat
  stack_size : Nat
deriving DecidableEq, Repr

/-- The kernel state the process manager works on: the variables of `memory.c`, the
file-scope variables of `process.c`, and the calls made to `context_switch`
(outgoing PCB, incoming PCB).

Modelled from the spec: `ready_queue_t` and its two operations are declared in `process.h`,
which is not among the sources; the ready queue is an ordered collection of PCB references,
here the list of PCB indices from head to tail. -/
structure KState where
  mem : MemState
  process_table : Nat → process_t
  next_pid : Nat
  current_process : Option Nat
  ready_queue : List Nat
  switches : List (Option Nat × Nat)

/-- The scheduler callbacks and the functions `process.c` calls without defining them.
`mem_first` and `mem_second` answer the first and the second allocator call of an
operation. -/
structure ProcOracle where
  predict_resources : List Nat → resource_prediction_t
  make_decision : KState → scheduling_decision_t
  get_system_time : Nat
  switch_to_idle : KState → KState
  migrate_process : KState → Option Nat → Nat → KState
  wake_up_process : KState → Nat → KState
  mem_first : MemOracle
  mem_second : MemOracle

/-! ## Ready queue -/

/-- Replace the PCB in slot `i` by `f` of it. -/
def KState.update_pcb (s : KState) (i : Nat) (f : process_t → process_t) : KState :=
  { s with process_table := fun j => if j = i then f (s.process_table i) else s.process_table j }

/-- Modelled from the spec: `add_to_ready_queue` inserts the PCB into the ready queue
(at the tail: the queue is first in, first out). -/
def add_to_ready_queue (s : KState) (proc : Nat) : KState :=
  { s with ready_queue := s.ready_queue ++ [proc] }

/-- Modelled from the spec: `remove_from_ready_queue` removes the PCB from the ready queue. -/
def remove_from_ready_queue (s : KState) (proc : Nat) : KState :=
  { s with ready_queue := s.ready_queue.filter (fun j => decide (j ≠ proc)) }

/-! ## `process_create` (`process.c`, lines 40-97) -/

/-- The scan `for (i = 0; i < MAX_PROCESSES; i++) if (process_table[i].state == UNUSED)`,
started at slot `i` with `k` slots left. -/
def find_unused_slot (table : Nat → process_t) (i : Nat) : Nat → Option Nat
  | 0 => none
  | k + 1 =>
    if (table i).state = PROCESS_STATE_UNUSED then some i
    else find_unused_slot table (i + 1) k

/-- Lines 57-61: the fields written before the allocations. -/
def process_create_header (cfg : ProcConfig) (s : KState) (i : Nat) (name : List Nat)
    (priority : Nat) : KState :=
  { s.update_pcb i (fun p =>
      { p with
        pid := s.next_pid
        name := name.take cfg.PROCESS_NAME_MAX
        state := PROCESS_STATE_READY
        priority := priority
        quantum := cfg.DEFAULT_QUANTUM }) with
    next_pid := (s.next_pid + 1) % 2 ^ 32 }

/-- Lines 72-90: stack pointer, entry point, initial context, statistics, ready queue. -/
def process_create_finish (o : ProcOracle) (s : KState) (i : Nat) (entry stack : Nat) : KState :=
  add_to_ready_queue
    (s.update_pcb i (fun p =>
      { p with
        stack := stack
        context :=
          { p.context with
            rsp := (stack + p.memory.stack_size) % 2 ^ 64
            rbp := (stack + p.memory.stack_size) % 2 ^ 64
            rip := entry
            rflags := 0x202
            cs := USER_CS
            ss := USER_DS }
        stats := { cpu_time := 0, start_time := o.get_system_time, context_switches := 0 } }))
    i

def process_create (cfg : ProcConfig) (o : ProcOracle) (s : KState) (name : List Nat)
    (entry priority : Nat) : Outcome KState (Option Nat) :=
  match find_unused_slot s.process_table 0 cfg.MAX_PROCESSES with
  | none => Outcome.returned s none
  | some i =>
    let s1 := process_create_header cfg s i name priority
    let prediction := o.predict_resources name
    match pmm_alloc_pages o.mem_first s1.mem 1 with
    | Outcome.halted m => Outcome.halted { s1 with mem := m }
    | Outcome.returned m page_directory =>
      let s2 := { s1 with mem := m }.update_pcb i (fun p =>
        { p with memory :=
            { page_directory := page_directory
              heap_size := prediction.heap_size
              stack_size := prediction.stack_size } })
      match pmm_alloc_pages o.mem_second s2.mem (prediction.stack_size / PAGE_SIZE) with
      | Outcome.halted m => Outcome.halted { s2 with mem := m }
      | Outcome.returned m stack =>
        Outcome.returned (process_create_finish o { s2 with mem := m } i entry stack) (some i)

/-! ## `schedule` and `switch_to_process` (`process.c`, lines 100-162) -/

def switch_to_process (s : KState) (next : Nat) : KState :=
  if s.current_process = some next then s
  else
    let prev := s.current_process
    let s1 := { s with current_process := some next }
    let s2 :=
      match prev with
      | some p =>
        if (s1.process_table p).state = PROCESS_STATE_RUNNING then
          add_to_ready_queue (s1.update_pcb p (fun q => { q with state := PROCESS_STATE_READY })) p
        else s1
      | none => s1
    let s3 := remove_from_ready_queue
      (s2.update_pcb next (fun q => { q with state := PROCESS_STATE_RUNNING })) next
    let s4 :=
      match prev with
      | some p => s3.update_pcb p (fun q =>
          { q with stats := { q.stats with
              context_switches := (q.stats.context_switches + 1) % 2 ^ 64 } })
      | none => s3
    let s5 := s4.update_pcb next (fun q =>
      { q with stats := { q.stats with
          context_switches := (q.stats.context_switches + 1) % 2 ^ 64 } })
    { s5 with switches := s5.switches ++ [(prev, next)] }

def schedule (o : ProcOracle) (s : KState) : KState :=
  let decision := o.make_decision s
  match decision.action with
  | SCHEDULE_SWITCH =>
    match decision.next_process with
    | some next => switch_to_process s next
    | none => s
  | SCHEDULE_CONTINUE =>
    match s.current_process with
    | some c => s.update_pcb c (fun q => { q with quantum := decision.quantum })
    | none => s
  | SCHEDULE_IDLE => o.switch_to_idle s
  | SCHEDULE_MIGRATE => o.migrate_process s decision.next_process decision.target_cpu

/-! ## `process_exit` (`process.c`, lines 209-228) -/

/-- Lines 210-224 of `process_exit`, run for the current process `c`: everything before the
final call of `schedule`. -/
def process_exit_release (o : ProcOracle) (s : KState) (c : Nat) (exit_code : Int) : KState :=
  let s1 := s.update_pcb c (fun q =>
    { q with state := PROCESS_STATE_ZOMBIE, exit_code := exit_code })
  let pcb := s1.process_table c
  let m1 := pmm_free_pages o.mem_first s1.mem pcb.stack (pcb.memory.stack_size / PAGE_SIZE)
  let m2 := pmm_free_pages o.mem_second m1 pcb.memory.page_directory 1
  let s2 := { s1 with mem := m2 }
  match pcb.parent with
  | some parent => o.wake_up_process s2 parent
  | none => s2

/-- `process_exit`; with `current_process == NULL` the first statement dereferences a null
pointer and nothing is defined (`none`). -/
def process_exit (o : ProcOracle) (s : KState) (exit_code : Int) : Option KState :=
  match s.current_process with
  | none => none
  | some c => some (schedule o (process_exit_release o s c exit_code))

/-! ## `process_init` (`process.c`, lines 16-37 and 191-195) -/

/-- The state after `memset(process_table, 0, ...)` and the reset of the ready queue. -/
def process_init_clear (s : KState) : KState :=
  { s with process_table := fun _ => process_t.zero, ready_queue := [] }

/-- `create_idle_process`; its entry point is the address of `idle_process_entry`. -/
def create_idle_process (cfg : ProcConfig) (o : ProcOracle) (s : KState)
    (idle_process_entry : Nat) : Option (Outcome KState Unit) :=
  match process_create cfg o s [105, 100, 108, 101] idle_process_entry 0 with
  | Outcome.halted s1 => some (Outcome.halted s1)
  | Outcome.returned _ none => none
  | Outcome.returned s1 (some idle) =>
    some (Outcome.returned
      (s1.update_pcb idle (fun q => { q with flags := q.flags ||| cfg.PROCESS_FLAG_SYSTEM })) ())

/-- The kernel threads `create_kernel_threads` starts.  The function is not among the
sources; it is taken as the list of `process_create` calls it makes, each with the oracle
that answers it. -/
structure KernelThread where
  oracle : ProcOracle
  name : List Nat
  entry : Nat
  priority : Nat

/-- The calls of `create_kernel_threads`, in order; a halt ends them. -/
def create_kernel_threads (cfg : ProcConfig) : List KernelThread → KState → Outcome KState Unit
  | [], s => Outcome.returned s ()
  | t :: rest, s =>
    match process_create cfg t.oracle s t.name t.entry t.priority with
    | Outcome.halted s1 => Outcome.halted s1
    | Outcome.returned s1 _ => create_kernel_threads cfg rest s1

/-- The variables of `process.c` when the kernel is entered (`next_pid = 1`,
`current_process = NULL`), on top of the allocator state `mem`. -/
def kernel_boot_state (mem : MemState) : KState :=
  { mem := mem
    process_table := fun _ => process_t.zero
    next_pid := 1
    current_process := none
    ready_queue := []
    switches := [] }

/-- `process_init`; `none` when `create_idle_process` dereferences `NULL`. -/
def process_init (cfg : ProcConfig) (o : ProcOracle) (idle_process_entry : Nat)
    (threads : List KernelThread) (s : KState) : Option (Outcome KState Unit) :=
  match create_idle_process cfg o (process_init_clear s) idle_process_entry with
  | none => none
  | some (Outcome.halted s1) => some (Outcome.halted s1)
  | some (Outcome.returned s1 _) => some (create_kernel_threads cfg threads s1)

/-! ## Runs of the allocator and of the process manager -/

/-- States of the allocator reachable from `memory_init` through calls of `pmm_alloc_pages`
that return and calls of `pmm_free_pages`. -/
inductive MemReachable (s0 : MemState) : MemState → Prop where
  | init : MemReachable s0 s0
  | alloc (o : MemOracle) (num_pages addr : Nat) (s s1 : MemState) :
      MemReachable s0 s → pmm_alloc_pages o s num_pages = Outcome.returned s1 addr →
      MemReachable s0 s1
  | free (o : MemOracle) (addr num_pages : Nat) (s : MemState) :
      MemReachable s0 s → MemReachable s0 (pmm_free_pages o s addr num_pages)

/-- A call made to the allocator: an allocation of `num_pages` pages, or the release of the
`k`-th range among those handed out and not yet released. -/
inductive MemCall where
  | alloc (o : MemOracle) (num_pages : Nat)
  | free (o : MemOracle) (k : Nat)

/-- The allocator together with the ranges (address, number of pages) that
`pmm_alloc_pages` has returned and that have not been freed since. -/
structure Ledger where
  mem : MemState
  live : List (Nat × Nat)

/-- One call.  `none`: the allocation halted the machine, or the call asks to free a range
that is not held. -/
def Ledger.call (l : Ledger) : MemCall → Option Ledger
  | MemCall.alloc o num_pages =>
    match pmm_alloc_pages o l.mem num_pages with
    | Outcome.returned m addr => some { mem := m, live := l.live ++ [(addr, num_pages)] }
    | Outcome.halted _ => none
  | MemCall.free o k =>
    match l.live.get? k with
    | some r => some { mem := pmm_free_pages o l.mem r.1 r.2, live := l.live.eraseIdx k }
    | none => none

def Ledger.run : Ledger → List MemCall → Option Ledger
  | l, [] => some l
  | l, c :: rest =>
    match l.call c with
    | some l1 => Ledger.run l1 rest
    | none => none

/-- The pages of a range handed out by `pmm_alloc_pages`. -/
def range_pages (r : Nat × Nat) : List Nat :=
  (List.range r.2).map (fun i => r.1 / PAGE_SIZE + i)

/-- Two ranges share a page. -/
def ranges_overlap (a b : Nat × Nat) : Prop :=
  ∃ p, p ∈ range_pages a ∧ p ∈ range_pages b

instance (a b : Nat × Nat) : Decidable (ranges_overlap a b) :=
  decidable_of_iff (∃ p ∈ range_pages a, p ∈ range_pages b)
    ⟨fun ⟨p, h1, h2⟩ => ⟨p, h1, h2⟩, fun ⟨p, h1, h2⟩ => ⟨p, h1, h2⟩⟩

/-- The search of `o` only returns `INVALID_PAGE` or a start page whose `num_pages` pages
are all free in the bitmap. -/
def MemOracle.find_returns_free (o : MemOracle) : Prop :=
  ∀ (s : MemState) (num_pages : Nat) (hint : allocation_hint_t),
    o.find_free_pages s num_pages hint % 2 ^ 32 ≠ INVALID_PAGE →
    ∀ i, i < num_pages →
      is_page_free s.memory_bitmap ((o.find_free_pages s num_pages hint % 2 ^ 32 + i) % 2 ^ 32)
        = true

/-- The range the search of `o` returns lies below 4 GiB (pages `0 .. 2 ^ 20 - 1`). -/
def MemOracle.find_in_memory (o : MemOracle) : Prop :=
  ∀ (s : MemState) (num_pages : Nat) (hint : allocation_hint_t),
    o.find_free_pages s num_pages hint % 2 ^ 32 ≠ INVALID_PAGE →
    o.find_free_pages s num_pages hint % 2 ^ 32 + num_pages ≤ 2 ^ 20

/-- The helpers of `o` that rewrite the bitmap (compaction, `move_page`,
`coalesce_free_blocks`) never clear the bit of a page that is in use. -/
def MemOracle.keeps_used_pages (o : MemOracle) : Prop :=
  ∀ (bm : Nat → Nat) (p : Nat), is_page_free bm p = false →
    is_page_free (o.compact_aggressive bm).1 p = false ∧
    is_page_free (o.compact_lazy bm).1 p = false ∧
    (∀ a b, is_page_free (o.move_page bm a b).1 p = false) ∧
    (∀ a b, is_page_free (o.coalesce_free_blocks bm a b) p = false)

def MemCall.oracle : MemCall → MemOracle
  | MemCall.alloc o _ => o
  | MemCall.free o _ => o

/-- States of the process manager reachable from `process_init` through `process_create`,
`schedule` with a SWITCH or CONTINUE decision, and `process_exit`. -/
inductive ProcReachable (cfg : ProcConfig) : KState → Prop where
  | init (o : ProcOracle) (idle_process_entry : Nat) (threads : List KernelThread)
      (mem : MemState) (s : KState) :
      process_init cfg o idle_process_entry threads (kernel_boot_state mem)
        = some (Outcome.returned s ()) →
      ProcReachable cfg s
  | create (o : ProcOracle) (name : List Nat) (entry priority : Nat) (s s1 : KState)
      (r : Option Nat) :
      ProcReachable cfg s → process_create cfg o s name entry priority = Outcome.returned s1 r →
      ProcReachable cfg s1
  | schedule (o : ProcOracle) (s : KState) :
      ProcReachable cfg s →
      (∀ t, (o.make_decision t).action = SCHEDULE_SWITCH ∨
        (o.make_decision t).action = SCHEDULE_CONTINUE) →
      ProcReachable cfg (schedule o s)
  | exit (o : ProcOracle) (exit_code : Int) (s s1 : KState) :
      ProcReachable cfg s →
      (∀ t, (o.make_decision t).action = SCHEDULE_SWITCH ∨
        (o.make_decision t).action = SCHEDULE_CONTINUE) →
      process_exit o s exit_code = some s1 →
      ProcReachable cfg s1

/-! ## Concrete oracles used to run the code on examples -/

/-- Modelled from the spec: `find_free_pages`, which is not among the sources, scans the
bitmap for the first contiguous run of `n` free bits (first fit); here over the pages
`lo .. hi - 1`, with `INVALID_PAGE` when there is no such run. -/
def first_fit (bm : Nat → Nat) (lo hi n : Nat) : Nat :=
  match (List.range (hi - lo)).find? (fun d =>
      decide (lo + d + n ≤ hi) && (List.range n).all (fun i => is_page_free bm (lo + d + i))) with
  | some d => lo + d
  | none => INVALID_PAGE

/-- Modelled from the spec: `move_page(from, to)`, which is not among the sources, relocates a
used page to a free page and updates the bitmap; a move whose source is free or whose
destination is used is not done. -/
def move_page_model (bm : Nat → Nat) (from_ to_ : Nat) : (Nat → Nat) × Bool :=
  if is_page_free bm from_ = false ∧ is_page_free bm to_ = true then
    (set_page_used (set_page_free bm from_) to_, true)
  else (bm, false)

/-- An instance of `mark_memory_used(0, KERNEL_SIZE)`: the 32 bitmap words of the first
`KERNEL_SIZE / PAGE_SIZE = 1024` pages are set to all ones. -/
def mark_kernel_words (bm : Nat → Nat) (_addr _size : Nat) : Nat → Nat :=
  fun w => if w < 32 then 0xFFFFFFFF else bm w

/-- A deterministic policy: first fit over the pages `lo .. hi - 1`, smart compaction with the
move list `moves`, and a `coalesce_free_blocks` that leaves the bitmap alone. -/
def first_fit_oracle (lo hi : Nat) (moves : List page_move_t) : MemOracle :=
  { predict_allocation := fun _ => ⟨0, PAGE_SIZE, true, false⟩
    find_free_pages := fun s n _ => first_fit s.memory_bitmap lo hi n
    get_compaction_strategy := fun _ => COMPACT_SMART
    compact_aggressive := fun bm => (bm, 0)
    compact_lazy := fun bm => (bm, 0)
    analyze_fragmentation := fun _ => ⟨0, 0, 0⟩
    predict_moves := fun _ => moves
    move_page := move_page_model
    coalesce_free_blocks := fun bm _ _ => bm }

/-- A machine with `extra` pages of memory above the 4 MiB kernel image, as the boot loader
describes it: `mem_upper` in KiB and one available region starting at `KERNEL_SIZE`. -/
def small_machine (extra : Nat) : multiboot_info_t :=
  { mem_upper := (KERNEL_SIZE + extra * PAGE_SIZE) / 1024
    mmap := [{ size := 20, addr := KERNEL_SIZE, len := extra * PAGE_SIZE,
               type := MULTIBOOT_MEMORY_AVAILABLE }] }

/-- The allocator after `memory_init` on `small_machine extra`, the bitmap memory being zero
before (`memory_init` is defined there: the map has one region). -/
def small_mem (extra : Nat) : MemState :=
  (memory_init mark_kernel_words (boot_state (fun _ => 0)) (small_machine extra)).getD
    (boot_state (fun _ => 0))

/-- Pages in use in `bm` are in use in `bm1`. -/
def used_stay_used (bm bm1 : Nat → Nat) : Prop :=
  ∀ p, is_page_free bm p = false → is_page_free bm1 p = false

/-- What a ledger satisfies when no page in use is ever handed out: every range held lies
below 4 GiB, its pages are marked used, and no two ranges held share a page. -/
def Ledger.consistent (l : Ledger) : Prop :=
  (∀ r ∈ l.live, r.1 < 2 ^ 32 ∧ r.1 / PAGE_SIZE + r.2 ≤ 2 ^ 20) ∧
  (∀ r ∈ l.live, ∀ p ∈ range_pages r, is_page_free l.mem.memory_bitmap p = false) ∧
  l.live.Pairwise (fun a b => ¬ ranges_overlap a b)

/-- A policy that never relocates a page: first fit over the pages `lo .. hi - 1`, and
compaction helpers that move nothing. -/
def static_oracle (lo hi : Nat) : MemOracle :=
  { first_fit_oracle lo hi [] with move_page := fun bm _ _ => (bm, false) }

/-- The operation returned (it did not end in `kernel_panic`). -/
def Outcome.is_returned {σ α : Type} : Outcome σ α → Bool
  | Outcome.returned _ _ => true
  | Outcome.halted _ => false

/-- The state an operation ends in, whether it returned or halted. -/
def Outcome.state {σ α : Type} : Outcome σ α → σ
  | Outcome.returned s _ => s
  | Outcome.halted s => s

/-- The value an operation returned, if it returned. -/
def Outcome.value {σ α : Type} : Outcome σ α → Option α
  | Outcome.returned _ v => some v
  | Outcome.halted _ => none

/-- A policy over the four pages 1024 .. 1027 whose smart compaction relocates page 1026 to
page 1025. -/
def relocating_oracle : MemOracle := first_fit_oracle 1024 1028 [⟨1026, 1025⟩]

/-- Three one-page allocations, the release of the second, then a request for two pages. -/
def relocating_calls : List MemCall :=
  [MemCall.alloc relocating_oracle 1, MemCall.alloc relocating_oracle 1,
   MemCall.alloc relocating_oracle 1, MemCall.free relocating_oracle 1,
   MemCall.alloc relocating_oracle 2]

/-- Calls answered by a policy that relocates nothing. -/
def steady_calls : List MemCall :=
  [MemCall.alloc (static_oracle 1024 1028) 1, MemCall.alloc (static_oracle 1024 1028) 2,
   MemCall.free (static_oracle 1024 1028) 0, MemCall.alloc (static_oracle 1024 1028) 1]

/-- Four pages above the kernel, pages 1024 and 1026 in use, pages 1025 and 1027 free. -/
def fragmented_mem : MemState :=
  pmm_free_pages relocating_oracle
    (pmm_alloc_pages relocating_oracle
      (pmm_alloc_pages relocating_oracle
        (pmm_alloc_pages relocating_oracle (small_mem 4) 1).state 1).state 1).state
    (1025 * PAGE_SIZE) 1

/-- The relation between the counters of a zone and its size that `init_memory_zones`
sets up. -/
def zone_counted (z : memory_zone_t) : Prop :=
  z.free_pages + z.used_pages = (z.size / PAGE_SIZE) % 2 ^ 32

/-- The invariant of the process manager: the ready queue holds exactly the PCBs in state
READY, a PCB in state RUNNING is the current process, the current process is RUNNING or
ZOMBIE, and no PCB has a parent. -/
def queue_invariant (s : KState) : Prop :=
  (∀ i, i ∈ s.ready_queue ↔ (s.process_table i).state = PROCESS_STATE_READY) ∧
  (∀ i, (s.process_table i).state = PROCESS_STATE_RUNNING → s.current_process = some i) ∧
  (∀ c, s.current_process = some c →
    (s.process_table c).state = PROCESS_STATE_RUNNING ∨
    (s.process_table c).state = PROCESS_STATE_ZOMBIE) ∧
  (∀ i, (s.process_table i).parent = none)

/-- The PCB that a returning `process_create` leaves in slot `i`. -/
def created_pcb (cfg : ProcConfig) (o : ProcOracle) (s : KState) (i : Nat) (name : List Nat)
    (entry priority page_directory stack : Nat) : process_t :=
  { s.process_table i with
    pid := s.next_pid
    name := name.take cfg.PROCESS_NAME_MAX
    state := PROCESS_STATE_READY
    priority := priority
    quantum := cfg.DEFAULT_QUANTUM
    memory :=
      { page_directory := page_directory
        heap_size := (o.predict_resources name).heap_size
        stack_size := (o.predict_resources name).stack_size }
    stack := stack
    context :=
      { (s.process_table i).context with
        rsp := (stack + (o.predict_resources name).stack_size) % 2 ^ 64
        rbp := (stack + (o.predict_resources name).stack_size) % 2 ^ 64
        rip := entry
        rflags := 0x202
        cs := USER_CS
        ss := USER_DS }
    stats := { cpu_time := 0, start_time := o.get_system_time, context_switches := 0 } }

/-- The state a returning `process_create` leaves, given the slot and the two allocations. -/
def created_state (cfg : ProcConfig) (o : ProcOracle) (s : KState) (i : Nat) (name : List Nat)
    (entry priority page_directory stack : Nat) (m : MemState) : KState :=
  { mem := m
    process_table := fun j =>
      if j = i then created_pcb cfg o s i name entry priority page_directory stack
      else s.process_table j
    next_pid := (s.next_pid + 1) % 2 ^ 32
    current_process := s.current_process
    ready_queue := s.ready_queue ++ [i]
    switches := s.switches }

/-- The state of a successful start, the boot state otherwise. -/
def started_state {σ : Type} (d : σ) : Option (Outcome σ Unit) → σ
  | some (Outcome.returned s _) => s
  | _ => d

/-- The start succeeded: no null dereference and no halt. -/
def is_started {σ : Type} : Option (Outcome σ Unit) → Bool
  | some (Outcome.returned _ _) => true
  | _ => false

/-- A small configuration: four PCB slots. -/
def demo_cfg : ProcConfig :=
  { MAX_PROCESSES := 4, PROCESS_NAME_MAX := 32, DEFAULT_QUANTUM := 10, PROCESS_FLAG_SYSTEM := 1 }

/-- A scheduler policy that always answers `d` and asks for a two-page stack; the allocator is
answered by first fit over the pages `1024 .. hi - 1`. -/
def demo_oracle (hi : Nat) (d : scheduling_decision_t) : ProcOracle :=
  { predict_resources := fun _ => ⟨4 * PAGE_SIZE, 2 * PAGE_SIZE⟩
    make_decision := fun _ => d
    get_system_time := 7
    switch_to_idle := fun s => s
    migrate_process := fun s _ _ => s
    wake_up_process := fun s _ => s
    mem_first := static_oracle 1024 hi
    mem_second := static_oracle 1024 hi }

/-- The decision "keep running the current process". -/
def decide_continue : scheduling_decision_t :=
  { action := SCHEDULE_CONTINUE, next_process := none, quantum := 10, target_cpu := 0 }

/-- The decision "switch to the PCB in slot `i`". -/
def decide_switch (i : Nat) : scheduling_decision_t :=
  { action := SCHEDULE_SWITCH, next_process := some i, quantum := 10, target_cpu := 0 }

/-- The process manager after `process_init` on a machine with 16 pages above the kernel:
the idle process sits in slot 0, READY. -/
def demo_boot : KState :=
  started_state (kernel_boot_state (small_mem 16))
    (process_init demo_cfg (demo_oracle 1040 decide_continue) 0 []
      (kernel_boot_state (small_mem 16)))

/-- The state `demo_boot` after a second process has been created (slot 1). -/
def demo_two : KState :=
  (process_create demo_cfg (demo_oracle 1040 decide_continue) demo_boot [97] 4096 5).state

/-- The state `demo_two` after a `schedule` that switches to slot 1. -/
def demo_running : KState :=
  schedule (demo_oracle 1040 (decide_switch 1)) demo_two

/-- The state `demo_two` after two more processes have been created: all four slots are in
use. -/
def demo_full : KState :=
  (process_create demo_cfg (demo_oracle 1040 decide_continue)
    (process_create demo_cfg (demo_oracle 1040 decide_continue) demo_two [98] 4096 5).state
    [99] 4096 5).state

/-- The process manager after `process_init` on a machine with only four pages above the
kernel: the idle process holds three of them. -/
def tight_boot : KState :=
  started_state (kernel_boot_state (small_mem 4))
    (process_init demo_cfg (demo_oracle 1028 decide_continue) 0 []
      (kernel_boot_state (small_mem 4)))

/-- A boot description with one available region of 2^44 bytes above 4 GiB. -/
def huge_region_machine : multiboot_info_t :=
  { mem_upper := 4096
    mmap := [{ size := 20, addr := 0x100000000, len := 2 ^ 44,
               type := MULTIBOOT_MEMORY_AVAILABLE }] }

/-- The calls of `move_page` that the loop of `compact_smart` makes for a move list, starting
from the bitmap `bm`: one per move, in order, each with the answer `move_page` gave on the
bitmap of that moment. -/
def move_page_calls (o : MemOracle) : List page_move_t → (Nat → Nat) → List MemEvent
  | [], _ => []
  | mv :: rest, bm =>
    MemEvent.move_page mv.from_ mv.to_ (o.move_page bm mv.from_ mv.to_).2 ::
      move_page_calls o rest (o.move_page bm mv.from_ mv.to_).1

/-- The event is a call of `find_free_pages`. -/
def MemEvent.is_search : MemEvent → Bool
  | MemEvent.find_free_pages _ _ => true
  | _ => false

/-- The event is a call of `compact_memory`. -/
def MemEvent.is_compaction : MemEvent → Bool
  | MemEvent.compact_memory _ => true
  | _ => false

/-- The event is a call of `move_page` that reported the move as done. -/
def MemEvent.is_done_move : MemEvent → Bool
  | MemEvent.move_page _ _ moved => moved
  | _ => false

/-- The move a `move_page` event was called for. -/
def MemEvent.move_of : MemEvent → Option page_move_t
  | MemEvent.move_page a b _ => some ⟨a, b⟩
  | _ => none

/-- The events `compact_memory` appends before its own: the `move_page` calls of
`compact_smart`, nothing for the other strategies. -/
def compaction_calls (o : MemOracle) (s : MemState) : List MemEvent :=
  if o.get_compaction_strategy s = COMPACT_SMART then
    move_page_calls o (o.predict_moves (o.analyze_fragmentation s.memory_bitmap)) s.memory_bitmap
  else []

/-- Modelled from the spec: a `find_free_pages` that searches the zone named by the hint (first
fit inside the zone) and takes the zone index as it is given. -/
def zone_first_fit (s : MemState) (n : Nat) (hint : allocation_hint_t) : Nat :=
  first_fit s.memory_bitmap
    ((s.memory_zones hint.preferred_zone).start_addr / PAGE_SIZE)
    ((s.memory_zones hint.preferred_zone).end_addr / PAGE_SIZE) n

/-- A policy that always returns the hint `hint`, with a search confined to the zone the hint
names and a compaction that moves nothing. -/
def zone_oracle (hint : allocation_hint_t) : MemOracle :=
  { static_oracle 0 0 with
    predict_allocation := fun _ => hint
    find_free_pages := zone_first_fit }

/-- An instance of `move_page` that relocates without looking at the bitmap: the source bit is
cleared, the destination bit is set, and the move is reported as done. -/
def blind_move_page (bm : Nat → Nat) (from_ to_ : Nat) : (Nat → Nat) × Bool :=
  (set_page_used (set_page_free bm from_) to_, true)

/-- First fit over the pages 1024 .. 1027 with smart compaction through `blind_move_page`. -/
def blind_oracle (moves : List page_move_t) : MemOracle :=
  { first_fit_oracle 1024 1028 moves with move_page := blind_move_page }

/-- A search that answers like `zone_first_fit` for the hint with zone 0 and alignment 3 and
finds nothing for any other hint. -/
def picky_search (u : MemState) (k : Nat) (h : allocation_hint_t) : Nat :=
  if h = ⟨0, 3, true, false⟩ then zone_first_fit u k h else INVALID_PAGE

/-- A scheduler policy like `demo_oracle` whose resource prediction is `heap` bytes of heap and
`stack` bytes of stack. -/
def sized_oracle (hi : Nat) (d : scheduling_decision_t) (heap stack : Nat) : ProcOracle :=
  { demo_oracle hi d with predict_resources := fun _ => ⟨heap, stack⟩ }

/-- The number of pages among `lo .. hi - 1` that the bitmap reports free. -/
def free_page_count (bm : Nat → Nat) (lo hi : Nat) : Nat :=
  ((List.range (hi - lo)).filter (fun d => is_page_free bm (lo + d))).length

/-- The state `demo_boot` after the creation of a process predicted to need an 8-page heap and
a 4-page stack (slot 1), and a switch to it. -/
def scenario_e : KState :=
  schedule (demo_oracle 1040 (decide_switch 1))
    (process_create demo_cfg
      (sized_oracle 1040 decide_continue (8 * PAGE_SIZE) (4 * PAGE_SIZE)) demo_boot [101] 4096
      5).state

/-- The state `demo_boot` after the creation of a process predicted to need a stack of 6000
bytes (slot 1). -/
def odd_stack : KState :=
  (process_create demo_cfg (sized_oracle 1040 decide_continue 0 6000) demo_boot [111] 4096
    5).state

/-- The functions behind the IDLE and MIGRATE decisions leave an exited PCB alone: if slot
`c` is ZOMBIE and not in the ready queue, it is so after `switch_to_idle` and after
`migrate_process`, with the same exit code. -/
def ProcOracle.idle_migrate_keep (o : ProcOracle) (c : Nat) : Prop :=
  ∀ (t : KState), (t.process_table c).state = PROCESS_STATE_ZOMBIE → c ∉ t.ready_queue →
    (((o.switch_to_idle t).process_table c).state = PROCESS_STATE_ZOMBIE ∧
      ((o.switch_to_idle t).process_table c).exit_code = (t.process_table c).exit_code ∧
      c ∉ (o.switch_to_idle t).ready_queue) ∧
    ∀ p cpu,
      ((o.migrate_process t p cpu).process_table c).state = PROCESS_STATE_ZOMBIE ∧
      ((o.migrate_process t p cpu).process_table c).exit_code = (t.process_table c).exit_code ∧
      c ∉ (o.migrate_process t p cpu).ready_queue

/-- The decision "switch", naming no process. -/
def decide_switch_none : scheduling_decision_t :=
  { action := SCHEDULE_SWITCH, next_process := none, quantum := 10, target_cpu := 0 }

/-- Modelled from the spec: the round-robin policy stub, which always answers SWITCH to the
head of the ready queue (to no process when the queue is empty). -/
def ProcOracle.round_robin (o : ProcOracle) : Prop :=
  ∀ t : KState, (o.make_decision t).action = SCHEDULE_SWITCH ∧
    (o.make_decision t).next_process = t.ready_queue.head?

/-- The state after `n` successive calls of `schedule`. -/
def schedule_times (o : ProcOracle) : Nat → KState → KState
  | 0, s => s
  | n + 1, s => schedule o (schedule_times o n s)

/-- A round-robin policy over `demo_oracle`: SWITCH to the head of the ready queue. -/
def round_robin_oracle : ProcOracle :=
  { demo_oracle 1040 decide_continue with
    make_decision := fun t =>
      { action := SCHEDULE_SWITCH, next_process := t.ready_queue.head?, quantum := 10,
        target_cpu := 0 } }

/-- The slots that run: `current_process` after each of the first `n` calls of `schedule`. -/
def running_order (o : ProcOracle) (s : KState) (n : Nat) : List (Option Nat) :=
  (List.range n).map (fun k => (schedule_times o (k + 1) s).current_process)

/-- The list `l` is the ready queue of `s` followed by its running current process. -/
def rotation_state (s : KState) (l : List Nat) : Prop :=
  ∃ c, l = s.ready_queue ++ [c] ∧ s.current_process = some c ∧
    (s.process_table c).state = PROCESS_STATE_RUNNING

/-! ## The memory-size predictor (`neural_network.c`, lines 83-115) -/

/-- `ai_predict_memory_allocation` (`neural_network.c`, lines 84-115).  The feature vector
and the network only produce the float `prediction[0]`; what the rest of the function sees
of it is `predicted_size`, the value of the conversion
`(uint64_t)(prediction[0] * 1024 * 1024)`, which is a parameter here. -/
def ai_predict_memory_allocation (proc : Option process_t) (predicted_size : Nat) : Nat :=
  match proc with
  | none => 4096
  | some _ =>
    let predicted_size := predicted_size % 2 ^ 64
    let predicted_size := if predicted_size < 4096 then 4096 else predicted_size
    let predicted_size :=
      if predicted_size > 1024 * 1024 * 1024 then 1024 * 1024 * 1024 else predicted_size
    predicted_size

/-! ## Boot memory maps with many regions -/

/-- The entries of the boot memory map of type `MULTIBOOT_MEMORY_AVAILABLE`, in order. -/
def available_entries (mmap : List multiboot_memory_map_t) : List multiboot_memory_map_t :=
  mmap.filter (fun e => decide (e.type = MULTIBOOT_MEMORY_AVAILABLE))

/-- A boot memory map with `k` available regions of one page each. -/
def many_regions_machine (k : Nat) : multiboot_info_t :=
  { mem_upper := 4096
    mmap := (List.range k).map (fun i =>
      { size := 20, addr := KERNEL_SIZE + i * PAGE_SIZE, len := PAGE_SIZE,
        type := MULTIBOOT_MEMORY_AVAILABLE }) }

/-! ## Counted runs of the process manager -/

/-- Modelled from the spec: `process_destroy(proc)`, which the tests call and which is not
among the sources, reaps the PCB: the slot returns to `PROCESS_STATE_UNUSED` (last transition
of the state machine of the spec) and the PCB leaves the ready queue. -/
def process_destroy (s : KState) (proc : Nat) : KState :=
  remove_from_ready_queue
    (s.update_pcb proc (fun q => { q with state := PROCESS_STATE_UNUSED })) proc

/-- Runs of the process manager from boot, with the counter `g` that starts at 1 and grows by
one with every successful creation (`next_pid` without the 32-bit wrap-around).  The steps are
the statements of `process_init` (the clearing of the table, `process_create` calls, the
setting of the system flag), `process_create`, `schedule` with a SWITCH or CONTINUE decision,
`process_exit` and `process_destroy`. -/
inductive CountedRun (cfg : ProcConfig) : KState → Nat → Prop where
  | boot (mem : MemState) : CountedRun cfg (process_init_clear (kernel_boot_state mem)) 1
  | create (o : ProcOracle) (name : List Nat) (entry priority : Nat) (s s1 : KState)
      (i g : Nat) :
      CountedRun cfg s g →
      process_create cfg o s name entry priority = Outcome.returned s1 (some i) →
      CountedRun cfg s1 (g + 1)
  | system_flag (s : KState) (i g : Nat) :
      CountedRun cfg s g →
      CountedRun cfg
        (s.update_pcb i (fun q => { q with flags := q.flags ||| cfg.PROCESS_FLAG_SYSTEM })) g
  | schedule (o : ProcOracle) (s : KState) (g : Nat) :
      CountedRun cfg s g →
      (∀ t, (o.make_decision t).action = SCHEDULE_SWITCH ∨
        (o.make_decision t).action = SCHEDULE_CONTINUE) →
      CountedRun cfg (schedule o s) g
  | exit (o : ProcOracle) (exit_code : Int) (s s1 : KState) (g : Nat) :
      CountedRun cfg s g →
      (∀ t, (o.make_decision t).action = SCHEDULE_SWITCH ∨
        (o.make_decision t).action = SCHEDULE_CONTINUE) →
      process_exit o s exit_code = some s1 →
      CountedRun cfg s1 g
  | destroy (s : KState) (proc g : Nat) :
      CountedRun cfg s g → CountedRun cfg (process_destroy s proc) g

/-- What `CountedRun` keeps true: `next_pid` is the counter modulo 2^32, every pid stored in
the table is below the counter, and no PCB has a parent. -/
def counter_invariant (s : KState) (g : Nat) : Prop :=
  1 ≤ g ∧ s.next_pid = g % 2 ^ 32 ∧ (∀ j, (s.process_table j).pid < g) ∧
  ∀ j, (s.process_table j).parent = none

/-- An allocator policy whose search always answers page `p`, whatever the bitmap holds. -/
def fixed_page_oracle (p : Nat) : MemOracle :=
  { static_oracle 1024 1040 with find_free_pages := fun _ _ _ => p }

/-- A policy for the process manager that always answers the decision `d` and whose
allocator answers page 1027 for the page directory and page 1028 for the stack, at every
call: the pages that first fit gives to a process created when only the idle process holds
memory (pages 1024 .. 1026). -/
def fixed_pages_oracle (d : scheduling_decision_t) : ProcOracle :=
  { demo_oracle 1040 d with
    mem_first := fixed_page_oracle 1027
    mem_second := fixed_page_oracle 1028 }

/-- The life of one process: it is created, the policy switches to it, it exits (the policy
switching to the idle process in slot 0) and its PCB, now ZOMBIE, is reaped by
`process_destroy`. -/
def process_life (cfg : ProcConfig) (s : KState) : KState :=
  match process_create cfg (fixed_pages_oracle decide_continue) s [116] 0 0 with
  | Outcome.returned s1 (some proc) =>
    match process_exit (fixed_pages_oracle (decide_switch 0))
        (schedule (fixed_pages_oracle (decide_switch proc)) s1) 0 with
    | some s3 => process_destroy s3 proc
    | none => s1
  | Outcome.returned s1 none => s1
  | Outcome.halted s1 => s1

/-- The state after `k` process lives, one after the other. -/
def process_lives (cfg : ProcConfig) : Nat → KState → KState
  | 0, s => s
  | k + 1, s => process_life cfg (process_lives cfg k s)

/-- The states that `process_life` keeps going from: slot 0 holds the idle process, with
pid 1, slot 1 is free and is not the current process. -/
def idle_only (s : KState) : Prop :=
  (s.process_table 0).state ≠ PROCESS_STATE_UNUSED ∧ (s.process_table 0).pid = 1 ∧
  (s.process_table 1).state = PROCESS_STATE_UNUSED ∧ s.current_process ≠ some 1

/-! # Lemmas and theorems -/

/-! ## The bitmap -/

theorem is_page_free_eq_testBit (bm : Nat → Nat) (q : Nat) :
    is_page_free bm q = !(bm (q / 32)).testBit (q % 32) := by
  unfold is_page_free
  rw [Nat.one_shiftLeft, Nat.and_two_pow]
  cases h : (bm (q / 32)).testBit (q % 32) <;> simp

theorem page_eq_of_word_bit {p q : Nat} (h1 : q / 32 = p / 32) (h2 : p % 32 = q % 32) : q = p := by
  omega

theorem is_page_free_set_page_used (bm : Nat → Nat) (p q : Nat) :
    is_page_free (set_page_used bm p) q = (decide (q ≠ p) && is_page_free bm q) := by
  rw [is_page_free_eq_testBit, is_page_free_eq_testBit]
  unfold set_page_used write_word
  by_cases hw : q / 32 = p / 32
  · simp only [hw, if_true, Nat.one_shiftLeft, Nat.testBit_lor, Nat.testBit_two_pow]
    by_cases hb : p % 32 = q % 32
    · have : q = p := page_eq_of_word_bit hw hb
      simp [hb, this]
    · have : q ≠ p := fun h => hb (by rw [h])
      simp [hb, this]
  · have : q ≠ p := fun h => hw (by rw [h])
    simp [hw, this]

theorem testBit_mask (k j : Nat) (hj : j < 32) :
    (0xFFFFFFFF ^^^ (1 <<< k)).testBit j = !decide (k = j) := by
  have : (0xFFFFFFFF : Nat) = 2 ^ 32 - 1 := by norm_num
  rw [this, Nat.testBit_xor, Nat.testBit_two_pow_sub_one, Nat.one_shiftLeft, Nat.testBit_two_pow]
  simp [hj]

theorem is_page_free_set_page_free (bm : Nat → Nat) (p q : Nat) :
    is_page_free (set_page_free bm p) q = (decide (q = p) || is_page_free bm q) := by
  rw [is_page_free_eq_testBit, is_page_free_eq_testBit]
  unfold set_page_free write_word
  by_cases hw : q / 32 = p / 32
  · simp only [hw, if_true, Nat.testBit_land]
    rw [testBit_mask _ _ (Nat.mod_lt _ (by norm_num))]
    by_cases hb : p % 32 = q % 32
    · have : q = p := page_eq_of_word_bit hw hb
      simp [hb, this]
    · have : q ≠ p := fun h => hb (by rw [h])
      simp [hb, this]
  · have : q ≠ p := fun h => hw (by rw [h])
    simp [hw, this]

theorem is_page_free_mark_pages_used (bm : Nat → Nat) (start n q : Nat) :
    is_page_free (mark_pages_used bm start n) q = true ↔
      is_page_free bm q = true ∧ ∀ i, i < n → q ≠ (start + i) % 2 ^ 32 := by
  induction n with
  | zero => simp [mark_pages_used]
  | succ k ih =>
    simp only [mark_pages_used, is_page_free_set_page_used, Bool.and_eq_true, decide_eq_true_eq, ih]
    constructor
    · rintro ⟨h1, h2, h3⟩
      refine ⟨h2, fun i hi => ?_⟩
      rcases Nat.lt_succ_iff_lt_or_eq.mp hi with h | h
      · exact h3 i h
      · rw [h]; exact h1
    · rintro ⟨h1, h2⟩
      exact ⟨h2 k (Nat.lt_succ_self k), h1, fun i hi => h2 i (Nat.lt_succ_of_lt hi)⟩

theorem is_page_free_mark_pages_free (bm : Nat → Nat) (start n q : Nat) :
    is_page_free (mark_pages_free bm start n) q = true ↔
      is_page_free bm q = true ∨ ∃ i, i < n ∧ q = (start + i) % 2 ^ 32 := by
  induction n with
  | zero => simp [mark_pages_free]
  | succ k ih =>
    simp only [mark_pages_free, is_page_free_set_page_free, Bool.or_eq_true, decide_eq_true_eq, ih]
    constructor
    · rintro (h | h | ⟨i, hi, h⟩)
      · exact Or.inr ⟨k, Nat.lt_succ_self k, h⟩
      · exact Or.inl h
      · exact Or.inr ⟨i, Nat.lt_succ_of_lt hi, h⟩
    · rintro (h | ⟨i, hi, h⟩)
      · exact Or.inr (Or.inl h)
      · rcases Nat.lt_succ_iff_lt_or_eq.mp hi with h' | h'
        · exact Or.inr (Or.inr ⟨i, h', h⟩)
        · rw [h'] at h; exact Or.inl h

/-! ## Lists -/

theorem pairwise_eraseIdx_rel {α : Type} (R : α → α → Prop)
    (hsymm : ∀ a b, R a b → R b a) :
    ∀ (l : List α) (k : Nat) (r r' : α), l.Pairwise R → l.get? k = some r →
      r' ∈ l.eraseIdx k → R r' r := by
  intro l
  induction l with
  | nil => intro k r r' _ h; simp at h
  | cons a t ih =>
    intro k r r' hp hk hmem
    rw [List.pairwise_cons] at hp
    cases k with
    | zero =>
      simp at hk hmem
      subst hk
      exact hsymm _ _ (hp.1 r' hmem)
    | succ k =>
      simp at hk hmem
      rcases hmem with h | h
      · subst h
        exact hp.1 r (List.getElem?_eq_some.mp hk |>.2 ▸ List.getElem_mem _)
      · exact ih k r r' hp.2 (by simpa using hk) h

/-! ## Compaction and the shape of a successful allocation -/

theorem compact_smart_loop_keeps (o : MemOracle) (hk : o.keeps_used_pages) :
    ∀ (moves : List page_move_t) (acc : (Nat → Nat) × Nat × List MemEvent),
      used_stay_used acc.1 (compact_smart_loop o moves acc).1 := by
  intro moves
  induction moves with
  | nil => intro acc p h; simpa [compact_smart_loop] using h
  | cons mv rest ih =>
    rintro ⟨bm, pm, ev⟩ p h
    simp only [compact_smart_loop]
    exact ih _ p ((hk bm p h).2.2.1 mv.from_ mv.to_)

theorem compact_memory_keeps (o : MemOracle) (hk : o.keeps_used_pages) (s : MemState) :
    used_stay_used s.memory_bitmap (compact_memory o s).1.memory_bitmap := by
  intro p h
  unfold compact_memory compact_memory_moved
  simp only
  split_ifs
  · exact (hk _ p h).1
  · exact (hk _ p h).2.1
  · exact compact_smart_loop_keeps o hk _ (s.memory_bitmap, 0, []) p h
  · exact h

theorem compact_memory_counters (o : MemOracle) (s : MemState) :
    (compact_memory o s).1.used_memory = s.used_memory ∧
    (compact_memory o s).1.free_memory = s.free_memory ∧
    (compact_memory o s).1.total_memory = s.total_memory ∧
    (compact_memory o s).1.memory_zones = s.memory_zones ∧
    (compact_memory o s).1.num_memory_zones = s.num_memory_zones := by
  unfold compact_memory compact_memory_moved compact_smart
  simp only
  split_ifs <;> simp

/-- A call of `pmm_alloc_pages` that returns has committed a start page found by the search,
in a state that differs from the initial one by compaction at most. -/
theorem pmm_alloc_pages_returned (o : MemOracle) (s s1 : MemState) (n addr : Nat)
    (h : pmm_alloc_pages o s n = Outcome.returned s1 addr) :
    ∃ (sf sb : MemState) (start : Nat),
      start = o.find_free_pages sf n (o.predict_allocation n) % 2 ^ 32 ∧
      start ≠ INVALID_PAGE ∧
      sb.memory_bitmap = sf.memory_bitmap ∧
      (sf = s ∨ sf = (compact_memory o (find_free_pages o s n (o.predict_allocation n)).1).1) ∧
      sb.used_memory = s.used_memory ∧ sb.free_memory = s.free_memory ∧
      sb.total_memory = s.total_memory ∧
      sb.memory_zones = s.memory_zones ∧ sb.num_memory_zones = s.num_memory_zones ∧
      pmm_alloc_commit sb n start = Outcome.returned s1 addr := by
  unfold pmm_alloc_pages at h
  simp only at h
  split_ifs at h with h1 h2 h3
  · refine ⟨(compact_memory o (find_free_pages o s n (o.predict_allocation n)).1).1,
      (find_free_pages o (compact_memory o (find_free_pages o s n (o.predict_allocation n)).1).1
        n (o.predict_allocation n)).1, _, rfl, h3, rfl, Or.inr rfl, ?_, ?_, ?_, ?_, ?_, h⟩
    · exact (compact_memory_counters o _).1
    · exact (compact_memory_counters o _).2.1
    · exact (compact_memory_counters o _).2.2.1
    · exact (compact_memory_counters o _).2.2.2.1
    · exact (compact_memory_counters o _).2.2.2.2
  · exact ⟨s, (find_free_pages o s n (o.predict_allocation n)).1, _, rfl, h1, rfl, Or.inl rfl,
      rfl, rfl, rfl, rfl, rfl, h⟩

/-! ## Ranges handed out by the allocator -/

theorem mem_range_pages (r : Nat × Nat) (p : Nat) :
    p ∈ range_pages r ↔ ∃ i, i < r.2 ∧ p = r.1 / PAGE_SIZE + i := by
  unfold range_pages
  simp only [List.mem_map, List.mem_range]
  constructor
  · rintro ⟨i, hi, h⟩; exact ⟨i, hi, h.symm⟩
  · rintro ⟨i, hi, h⟩; exact ⟨i, hi, h.symm⟩

theorem not_ranges_overlap_symm (a b : Nat × Nat) (h : ¬ ranges_overlap a b) :
    ¬ ranges_overlap b a := by
  rintro ⟨p, h1, h2⟩
  exact h ⟨p, h2, h1⟩

theorem Ledger.consistent_alloc (l l1 : Ledger) (o : MemOracle) (n : Nat)
    (hf : o.find_returns_free) (hm : o.find_in_memory) (hk : o.keeps_used_pages)
    (hl : l.consistent) (h : l.call (MemCall.alloc o n) = some l1) : l1.consistent := by
  simp only [Ledger.call] at h
  cases hr : pmm_alloc_pages o l.mem n with
  | halted s => rw [hr] at h; simp at h
  | returned m addr =>
    rw [hr] at h
    simp only [Option.some.injEq] at h
    subst h
    obtain ⟨sf, sb, start, hstart, hvalid, hbm, hsf, -, -, -, -, -, hc⟩ :=
      pmm_alloc_pages_returned o l.mem m n addr hr
    have hkeep : used_stay_used l.mem.memory_bitmap sb.memory_bitmap := by
      rw [hbm]
      rcases hsf with h | h
      · rw [h]; exact fun p hp => hp
      · rw [h]
        exact compact_memory_keeps o hk (find_free_pages o l.mem n (o.predict_allocation n)).1
    have hfree : ∀ i, i < n → is_page_free sb.memory_bitmap ((start + i) % 2 ^ 32) = true := by
      intro i hi
      rw [hbm, hstart]
      exact hf sf n _ (hstart ▸ hvalid) i hi
    have hin : start + n ≤ 2 ^ 20 := by
      rw [hstart]; exact hm sf n _ (hstart ▸ hvalid)
    unfold pmm_alloc_commit at hc
    simp only [Outcome.returned.injEq] at hc
    obtain ⟨hm1, haddr⟩ := hc
    have hpage : ∀ i, i < n → addr / PAGE_SIZE + i = (start + i) % 2 ^ 32 := by
      intro i hi
      rw [← haddr]
      unfold PAGE_SIZE
      omega
    obtain ⟨hl1, hl2, hl3⟩ := hl
    refine ⟨?_, ?_, ?_⟩
    · intro r hr
      simp only [List.mem_append, List.mem_singleton] at hr
      rcases hr with hr | hr
      · exact hl1 r hr
      · subst hr
        simp only
        rw [← haddr]
        unfold PAGE_SIZE
        omega
    · intro r hr p hp
      simp only [List.mem_append, List.mem_singleton] at hr
      rw [← hm1]
      simp only
      rw [Bool.eq_false_iff, Ne, is_page_free_mark_pages_used]
      rcases hr with hr | hr
      · intro hcon
        have := hkeep p (hl2 r hr p hp)
        rw [hcon.1] at this
        exact Bool.noConfusion this
      · subst hr
        rw [mem_range_pages] at hp
        obtain ⟨i, hi, hp⟩ := hp
        intro hcon
        exact hcon.2 i hi (by rw [hp]; exact hpage i hi)
    · rw [List.pairwise_append]
      refine ⟨hl3, List.pairwise_singleton _ _, ?_⟩
      intro a ha b hb
      simp only [List.mem_singleton] at hb
      subst hb
      rintro ⟨p, hpa, hpb⟩
      rw [mem_range_pages] at hpb
      obtain ⟨i, hi, hpb⟩ := hpb
      have h1 := hkeep p (hl2 a ha p hpa)
      have h2 := hfree i hi
      rw [← hpage i hi, ← hpb, h1] at h2
      exact Bool.noConfusion h2

theorem Ledger.consistent_free (l l1 : Ledger) (o : MemOracle) (k : Nat)
    (hk : o.keeps_used_pages)
    (hl : l.consistent) (h : l.call (MemCall.free o k) = some l1) : l1.consistent := by
  simp only [Ledger.call] at h
  cases hr : l.live.get? k with
  | none => rw [hr] at h; simp at h
  | some r =>
    rw [hr] at h
    simp only [Option.some.injEq] at h
    subst h
    obtain ⟨hl1, hl2, hl3⟩ := hl
    have hsub : ∀ r', r' ∈ l.live.eraseIdx k → r' ∈ l.live :=
      fun r' h' => (List.eraseIdx_sublist l.live k).subset h'
    have hrmem : r ∈ l.live := by
      rw [List.get?_eq_getElem?] at hr
      exact List.getElem?_eq_some.mp hr |>.2 ▸ List.getElem_mem _
    refine ⟨fun r' h' => hl1 r' (hsub r' h'), ?_, hl3.sublist (List.eraseIdx_sublist l.live k)⟩
    intro r' h' p hp
    have hno : ¬ ranges_overlap r' r :=
      pairwise_eraseIdx_rel _ not_ranges_overlap_symm l.live k r r' hl3 hr h'
    unfold pmm_free_pages
    simp only
    apply (hk _ p _).2.2.2
    rw [Bool.eq_false_iff, Ne, is_page_free_mark_pages_free]
    rintro (hcon | ⟨i, hi, hcon⟩)
    · have := hl2 r' (hsub r' h') p hp
      rw [hcon] at this
      exact Bool.noConfusion this
    · apply hno
      refine ⟨p, hp, (mem_range_pages r p).mpr ⟨i, hi, ?_⟩⟩
      have := hl1 r hrmem
      rw [hcon]
      unfold PAGE_SIZE at this ⊢
      omega

theorem Ledger.consistent_run :
    ∀ (calls : List MemCall) (l l1 : Ledger),
      (∀ c ∈ calls, c.oracle.find_returns_free ∧ c.oracle.find_in_memory ∧
        c.oracle.keeps_used_pages) →
      l.consistent → Ledger.run l calls = some l1 → l1.consistent := by
  intro calls
  induction calls with
  | nil =>
    intro l l1 _ hl h
    simp only [Ledger.run, Option.some.injEq] at h
    exact h ▸ hl
  | cons c rest ih =>
    intro l l1 ho hl h
    unfold Ledger.run at h
    cases hc : l.call c with
    | none => rw [hc] at h; simp at h
    | some l2 =>
      rw [hc] at h
      simp only at h
      have hoc := ho c (List.mem_cons_self _ _)
      refine ih l2 l1 (fun c' hc' => ho c' (List.mem_cons_of_mem _ hc')) ?_ h
      cases c with
      | alloc o n => exact Ledger.consistent_alloc l l2 o n hoc.1 hoc.2.1 hoc.2.2 hl hc
      | free o k => exact Ledger.consistent_free l l2 o k hoc.2.2 hl hc

/-! ## Counters and zones -/

theorem Outcome.exists_of_is_returned {σ α : Type} (r : Outcome σ α)
    (h : r.is_returned = true) :
    ∃ s v, r = Outcome.returned s v := by
  cases r with
  | returned s v => exact ⟨s, v, rfl⟩
  | halted s => exact absurd h (by simp [Outcome.is_returned])

/-- What a returning `pmm_alloc_pages` does to the counters: the zones are untouched and
`num_pages * PAGE_SIZE` bytes move from `free_memory` to `used_memory`, modulo 2^32. -/
theorem pmm_alloc_pages_counters (o : MemOracle) (s s1 : MemState) (n addr : Nat)
    (h : pmm_alloc_pages o s n = Outcome.returned s1 addr) :
    s1.memory_zones = s.memory_zones ∧ s1.num_memory_zones = s.num_memory_zones ∧
    s1.total_memory = s.total_memory ∧
    s1.used_memory = (s.used_memory + n * PAGE_SIZE) % 2 ^ 32 ∧
    s1.free_memory = (s.free_memory + 2 ^ 32 - (n * PAGE_SIZE) % 2 ^ 32) % 2 ^ 32 := by
  obtain ⟨sf, sb, start, -, -, -, -, hu, hf, ht, hz, hn, hc⟩ :=
    pmm_alloc_pages_returned o s s1 n addr h
  unfold pmm_alloc_commit at hc
  simp only [Outcome.returned.injEq] at hc
  rw [← hc.1]
  simp only [hu, hf, ht, hz, hn, and_self]

theorem init_memory_zones_loop_inv (P : memory_zone_t → Prop)
    (hP : ∀ (e : multiboot_memory_map_t) (fl : Nat),
      P { start_addr := e.addr, end_addr := (e.addr + e.len) % 2 ^ 64, size := e.len,
          free_pages := (e.len / PAGE_SIZE) % 2 ^ 32, used_pages := 0, flags := fl }) :
    ∀ (entries : List multiboot_memory_map_t) (acc r : (Nat → memory_zone_t) × Nat),
      init_memory_zones_loop entries acc = some r →
      (∀ i, P (acc.1 i)) → ∀ i, P (r.1 i) := by
  intro entries
  induction entries with
  | nil =>
    intro acc r hr h i
    simp only [init_memory_zones_loop, Option.some.injEq] at hr
    rw [← hr]; exact h i
  | cons e rest ih =>
    rintro ⟨zones, num⟩ r hr h i
    simp only [init_memory_zones_loop] at hr
    split_ifs at hr with ht hn
    · refine ih _ r hr ?_ i
      intro j
      simp only
      split_ifs
      · exact hP e _
      · exact h j
    · exact ih _ r hr h i

/-- What the loop of `init_memory_zones` does when the available entries fit into the part of
the array that is left: one zone per available entry, in order, nothing else written. -/
theorem init_memory_zones_loop_some :
    ∀ (l : List multiboot_memory_map_t) (zones : Nat → memory_zone_t) (num : Nat),
      num + (available_entries l).length ≤ MAX_MEMORY_ZONES →
      ∃ r, init_memory_zones_loop l (zones, num) = some r ∧
      r.2 = num + (available_entries l).length ∧
      (∀ i, i < num ∨ num + (available_entries l).length ≤ i → r.1 i = zones i) ∧
      (∀ k e, (available_entries l)[k]? = some e →
        r.1 (num + k) =
          { start_addr := e.addr
            end_addr := (e.addr + e.len) % 2 ^ 64
            size := e.len
            free_pages := (e.len / PAGE_SIZE) % 2 ^ 32
            used_pages := 0
            flags := (zones (num + k)).flags }) := by
  intro l
  induction l with
  | nil =>
    intro zones num _
    exact ⟨(zones, num), rfl, by simp [available_entries], fun _ _ => rfl,
      fun k e hk => by simp [available_entries] at hk⟩
  | cons m rest ih =>
    intro zones num hlen
    by_cases ht : m.type = MULTIBOOT_MEMORY_AVAILABLE
    · have hav : available_entries (m :: rest) = m :: available_entries rest := by
        simp [available_entries, ht]
      rw [hav] at hlen ⊢
      simp only [List.length_cons] at hlen ⊢
      have hnum : num < MAX_MEMORY_ZONES := by omega
      have hmod : (num + 1) % 2 ^ 32 = num + 1 := by
        unfold MAX_MEMORY_ZONES at hnum
        exact Nat.mod_eq_of_lt (by omega)
      simp only [init_memory_zones_loop, ht, hnum, if_true, hmod]
      obtain ⟨r, hr, h1, h2, h3⟩ := ih
        (fun i => if i = num then
          { start_addr := m.addr
            end_addr := (m.addr + m.len) % 2 ^ 64
            size := m.len
            free_pages := (m.len / PAGE_SIZE) % 2 ^ 32
            used_pages := 0
            flags := (zones num).flags } else zones i) (num + 1) (by omega)
      refine ⟨r, hr, by rw [h1]; omega, ?_, ?_⟩
      · intro i hi
        rw [h2 i (by omega)]
        have : i ≠ num := by omega
        simp [this]
      · intro k e hk
        cases k with
        | zero =>
          simp only [List.getElem?_cons_zero, Option.some.injEq] at hk
          have h4 := h2 num (Or.inl (by omega))
          simp only [Nat.add_zero, h4, ← hk, if_true]
        | succ k =>
          simp only [List.getElem?_cons_succ] at hk
          have := h3 k e hk
          have hne : num + 1 + k ≠ num := by omega
          have he : num + (k + 1) = num + 1 + k := by omega
          simp only [he, this, hne, if_false]
    · have hav : available_entries (m :: rest) = available_entries rest := by
        simp [available_entries, ht]
      rw [hav] at hlen ⊢
      simp only [init_memory_zones_loop, ht, if_false]
      exact ih zones num hlen

/-- The loop of `init_memory_zones` writes past the end of `memory_zones` as soon as there
are more available entries than the array has entries left. -/
theorem init_memory_zones_loop_none :
    ∀ (l : List multiboot_memory_map_t) (zones : Nat → memory_zone_t) (num : Nat),
      num ≤ MAX_MEMORY_ZONES → MAX_MEMORY_ZONES < num + (available_entries l).length →
      init_memory_zones_loop l (zones, num) = none := by
  intro l
  induction l with
  | nil =>
    intro zones num h1 h2
    simp only [available_entries, List.filter_nil, List.length_nil, Nat.add_zero] at h2
    omega
  | cons m rest ih =>
    intro zones num h1 h2
    by_cases ht : m.type = MULTIBOOT_MEMORY_AVAILABLE
    · have hav : available_entries (m :: rest) = m :: available_entries rest := by
        simp [available_entries, ht]
      rw [hav] at h2
      simp only [List.length_cons] at h2
      by_cases hnum : num < MAX_MEMORY_ZONES
      · have hmod : (num + 1) % 2 ^ 32 = num + 1 := by
          unfold MAX_MEMORY_ZONES at hnum
          exact Nat.mod_eq_of_lt (by omega)
        simp only [init_memory_zones_loop, ht, hnum, if_true, hmod]
        exact ih _ (num + 1) (by omega) (by omega)
      · simp only [init_memory_zones_loop, ht, hnum, if_true, if_false]
    · have hav : available_entries (m :: rest) = available_entries rest := by
        simp [available_entries, ht]
      rw [hav] at h2
      simp only [init_memory_zones_loop, ht, if_false]
      exact ih zones num h1 h2

/-- The state a defined `memory_init` leaves: the counters, the bitmap, and one zone per
available entry of the boot map, of which there are at most `MAX_MEMORY_ZONES`. -/
theorem memory_init_some (mark_memory_used : (Nat → Nat) → Nat → Nat → (Nat → Nat))
    (s s0 : MemState) (mboot_info : multiboot_info_t)
    (h : memory_init mark_memory_used s mboot_info = some s0) :
    s0.total_memory = (mboot_info.mem_upper * 1024) % 2 ^ 32 ∧
    s0.used_memory = 0 ∧
    s0.free_memory = (mboot_info.mem_upper * 1024) % 2 ^ 32 ∧
    s0.memory_bitmap = mark_memory_used
      (memset_bitmap s.memory_bitmap
        ((mboot_info.mem_upper * 1024) % 2 ^ 32 / (PAGE_SIZE * 32))) 0 KERNEL_SIZE ∧
    s0.trace = s.trace ∧
    init_memory_zones_loop mboot_info.mmap (s.memory_zones, s.num_memory_zones)
      = some (s0.memory_zones, s0.num_memory_zones) := by
  unfold memory_init init_memory_zones at h
  simp only at h
  cases hl : init_memory_zones_loop mboot_info.mmap (s.memory_zones, s.num_memory_zones) with
  | none => rw [hl] at h; exact Option.noConfusion h
  | some r =>
    rw [hl] at h
    simp only [Option.some.injEq] at h
    rw [← h]
    exact ⟨rfl, rfl, rfl, rfl, rfl, rfl⟩

/-- From the boot state, `memory_init` is defined exactly when the boot map has at most
`MAX_MEMORY_ZONES` available entries, and then it creates that many zones. -/
theorem memory_init_zone_count (mark_memory_used : (Nat → Nat) → Nat → Nat → (Nat → Nat))
    (raw : Nat → Nat) (s0 : MemState) (mboot_info : multiboot_info_t)
    (h : memory_init mark_memory_used (boot_state raw) mboot_info = some s0) :
    s0.num_memory_zones = (available_entries mboot_info.mmap).length ∧
    s0.num_memory_zones ≤ MAX_MEMORY_ZONES := by
  have hl := (memory_init_some mark_memory_used _ s0 mboot_info h).2.2.2.2.2
  have h0 : (boot_state raw).num_memory_zones = 0 := rfl
  rw [h0] at hl
  by_cases hn : (available_entries mboot_info.mmap).length ≤ MAX_MEMORY_ZONES
  · obtain ⟨r, hr, h1, -, -⟩ :=
      init_memory_zones_loop_some mboot_info.mmap (boot_state raw).memory_zones 0 (by omega)
    rw [hr] at hl
    simp only [Option.some.injEq] at hl
    have h2 : r.2 = s0.num_memory_zones := by rw [hl]
    rw [← h2, h1]
    omega
  · rw [init_memory_zones_loop_none mboot_info.mmap (boot_state raw).memory_zones 0
      (Nat.zero_le _) (by omega)] at hl
    exact Option.noConfusion hl

theorem memory_init_zone_counted
    (mark_memory_used : (Nat → Nat) → Nat → Nat → (Nat → Nat))
    (raw : Nat → Nat) (s0 : MemState) (mboot_info : multiboot_info_t)
    (h : memory_init mark_memory_used (boot_state raw) mboot_info = some s0) (i : Nat) :
    zone_counted (s0.memory_zones i) := by
  have hl := (memory_init_some mark_memory_used _ s0 mboot_info h).2.2.2.2.2
  refine init_memory_zones_loop_inv zone_counted ?_ _ _ _ hl ?_ i
  · intro e fl; simp [zone_counted]
  · intro j; simp [zone_counted, boot_state]

/-- `memory_init` is defined on `small_machine extra`, whose map has one region. -/
theorem memory_init_small_machine (extra : Nat) :
    memory_init mark_kernel_words (boot_state (fun _ => 0)) (small_machine extra)
      = some (small_mem extra) := by
  have hs : (memory_init mark_kernel_words (boot_state (fun _ => 0))
      (small_machine extra)).isSome = true := by
    simp [memory_init, init_memory_zones, init_memory_zones_loop, small_machine, boot_state,
      MAX_MEMORY_ZONES]
  obtain ⟨m, hm⟩ := Option.isSome_iff_exists.mp hs
  unfold small_mem
  rw [hm]
  rfl

theorem MemReachable.zones_eq {s0 s : MemState} (h : MemReachable s0 s) :
    s.memory_zones = s0.memory_zones ∧ s.num_memory_zones = s0.num_memory_zones := by
  induction h with
  | init => exact ⟨rfl, rfl⟩
  | alloc o n addr s s1 _ ha ih =>
    rw [(pmm_alloc_pages_counters o s s1 n addr ha).1,
      (pmm_alloc_pages_counters o s s1 n addr ha).2.1]
    exact ih
  | free o addr n s _ ih => exact ih

/-- Claim C2, amended: when `memory_init` is defined (the boot map has at most
`MAX_MEMORY_ZONES` available entries, so that `init_memory_zones` stays inside the array
`memory_zones`), then in every state reachable from it through `pmm_alloc_pages` and
`pmm_free_pages` every zone created, that is every entry `i < num_memory_zones`, which lies
inside the array, has `free_pages + used_pages` equal to its page count `size / PAGE_SIZE`
reduced modulo 2^32 (the counters are 32-bit fields); for a zone of less than 2^44 bytes this
is the page count itself. -/
theorem zone_pages_accounted (mark_memory_used : (Nat → Nat) → Nat → Nat → (Nat → Nat))
    (raw : Nat → Nat) (mboot_info : multiboot_info_t) (s0 s : MemState)
    (hinit : memory_init mark_memory_used (boot_state raw) mboot_info = some s0)
    (h : MemReachable s0 s) (i : Nat) (hi : i < s.num_memory_zones) :
    i < MAX_MEMORY_ZONES ∧
    s.num_memory_zones = (available_entries mboot_info.mmap).length ∧
    (s.memory_zones i).free_pages + (s.memory_zones i).used_pages
        = ((s.memory_zones i).size / PAGE_SIZE) % 2 ^ 32 ∧
    ((s.memory_zones i).size < 2 ^ 44 →
      (s.memory_zones i).free_pages + (s.memory_zones i).used_pages
        = (s.memory_zones i).size / PAGE_SIZE) := by
  have hz := memory_init_zone_counted mark_memory_used raw s0 mboot_info hinit i
  have hc := memory_init_zone_count mark_memory_used raw s0 mboot_info hinit
  rw [← h.zones_eq.1] at hz
  rw [← h.zones_eq.2] at hc
  unfold zone_counted at hz
  refine ⟨lt_of_lt_of_le hi hc.2, hc.1, hz, fun hlt => ?_⟩
  rw [hz]
  unfold PAGE_SIZE at *
  omega

/-- Witness of C2 (amended): the state after one allocation on the four-page machine. -/
theorem zone_pages_accounted_witness :
    memory_init mark_kernel_words (boot_state (fun _ => 0)) (small_machine 4)
      = some (small_mem 4) ∧
    MemReachable (small_mem 4)
      (pmm_alloc_pages (static_oracle 1024 1028) (small_mem 4) 2).state ∧
    (pmm_alloc_pages (static_oracle 1024 1028) (small_mem 4) 2).state.num_memory_zones = 1 ∧
    ((pmm_alloc_pages (static_oracle 1024 1028) (small_mem 4) 2).state.memory_zones 0).size
      = 16384 ∧
    ((pmm_alloc_pages (static_oracle 1024 1028) (small_mem 4) 2).state.memory_zones 0).free_pages
      + ((pmm_alloc_pages (static_oracle 1024 1028) (small_mem 4) 2).state.memory_zones
          0).used_pages
      = 4 := by
  obtain ⟨s1, addr, h⟩ := Outcome.exists_of_is_returned
    (pmm_alloc_pages (static_oracle 1024 1028) (small_mem 4) 2) (by decide)
  have hr : MemReachable (small_mem 4)
      (pmm_alloc_pages (static_oracle 1024 1028) (small_mem 4) 2).state := by
    rw [h]
    exact MemReachable.alloc _ 2 addr _ s1 MemReachable.init h
  have hsize : ((pmm_alloc_pages (static_oracle 1024 1028) (small_mem 4) 2).state.memory_zones
      0).size = 16384 := by decide
  have hnum : (pmm_alloc_pages (static_oracle 1024 1028) (small_mem 4) 2).state.num_memory_zones
      = 1 := by decide
  refine ⟨memory_init_small_machine 4, hr, hnum, hsize, ?_⟩
  have := (zone_pages_accounted mark_kernel_words (fun _ => 0) (small_machine 4) (small_mem 4) _
    (memory_init_small_machine 4) hr 0 (by rw [hnum]; norm_num)).2.2.2
    (by rw [hsize]; norm_num)
  rw [this, hsize]
  rfl

/-- Claim C2 fails as stated: for a boot map with one available region of 2^44 bytes
`memory_init` is defined and the zone created by `init_memory_zones` has 2^32 pages, yet
`free_pages + used_pages` is 0. -/
theorem zone_pages_truncated :
    ∃ m, memory_init mark_kernel_words (boot_state (fun _ => 0)) huge_region_machine = some m ∧
      m.num_memory_zones = 1 ∧
      (m.memory_zones 0).size / PAGE_SIZE = 2 ^ 32 ∧
      (m.memory_zones 0).free_pages + (m.memory_zones 0).used_pages = 0 :=
  ⟨_, rfl, by decide, by decide, by decide⟩

/-! ## Claims about the allocator -/

theorem first_fit_spec (bm : Nat → Nat) (lo hi n : Nat) :
    first_fit bm lo hi n = INVALID_PAGE ∨
      (first_fit bm lo hi n + n ≤ hi ∧
        ∀ i, i < n → is_page_free bm (first_fit bm lo hi n + i) = true) := by
  unfold first_fit
  split
  · rename_i d hd
    right
    have := List.find?_some hd
    simp only [Bool.and_eq_true, decide_eq_true_eq, List.all_eq_true, List.mem_range] at this
    exact ⟨this.1, this.2⟩
  · left; rfl

theorem first_fit_find_returns_free (lo hi : Nat) (hhi : hi ≤ 2 ^ 20) (o : MemOracle)
    (ho : o.find_free_pages = fun s n _ => first_fit s.memory_bitmap lo hi n) :
    o.find_returns_free ∧ o.find_in_memory := by
  have key : ∀ (s : MemState) (n : Nat),
      first_fit s.memory_bitmap lo hi n % 2 ^ 32 ≠ INVALID_PAGE →
      first_fit s.memory_bitmap lo hi n % 2 ^ 32 = first_fit s.memory_bitmap lo hi n ∧
      first_fit s.memory_bitmap lo hi n + n ≤ hi ∧
      ∀ i, i < n →
        is_page_free s.memory_bitmap (first_fit s.memory_bitmap lo hi n + i) = true := by
    intro s n hne
    rcases first_fit_spec s.memory_bitmap lo hi n with h | h
    · rw [h] at hne; exact absurd rfl hne
    · exact ⟨Nat.mod_eq_of_lt (by omega), h⟩
  constructor
  · intro s n hint hne i hi
    rw [ho] at hne ⊢
    simp only at hne ⊢
    obtain ⟨h1, h2, h3⟩ := key s n hne
    rw [h1, Nat.mod_eq_of_lt (by omega)]
    exact h3 i hi
  · intro s n hint hne
    rw [ho] at hne ⊢
    simp only at hne ⊢
    obtain ⟨h1, h2, -⟩ := key s n hne
    rw [h1]; omega

theorem static_oracle_keeps_used_pages (lo hi : Nat) : (static_oracle lo hi).keeps_used_pages := by
  intro bm p h
  exact ⟨h, h, fun _ _ => h, fun _ _ => h⟩

/-- Claim C1, amended: in every sequence of `pmm_alloc_pages` and `pmm_free_pages` calls that
starts from `memory_init`, frees releasing only ranges returned earlier and not yet freed, no
two ranges returned by `pmm_alloc_pages` and still unfreed share a page, provided that the
search only returns ranges of free pages lying below page 2^20 and that the helpers which
rewrite the bitmap (compaction, `move_page`, `coalesce_free_blocks`) never clear the bit of a
page in use. -/
theorem pmm_alloc_pages_ranges_disjoint
    (mark_memory_used : (Nat → Nat) → Nat → Nat → (Nat → Nat)) (raw : Nat → Nat)
    (mboot_info : multiboot_info_t) (s0 : MemState) (calls : List MemCall) (l : Ledger)
    (hinit : memory_init mark_memory_used (boot_state raw) mboot_info = some s0)
    (hcalls : ∀ c ∈ calls, c.oracle.find_returns_free ∧ c.oracle.find_in_memory ∧
      c.oracle.keeps_used_pages)
    (hrun : Ledger.run ⟨s0, []⟩ calls = some l) :
    l.live.Pairwise (fun a b => ¬ ranges_overlap a b) := by
  have _ := hinit
  exact (Ledger.consistent_run calls _ l hcalls
    ⟨fun _ h => absurd h (List.not_mem_nil _), fun _ h => absurd h (List.not_mem_nil _),
      List.Pairwise.nil⟩ hrun).2.2

/-- Witness of C1 (amended): four calls on a machine with four pages above the kernel. -/
theorem pmm_alloc_pages_ranges_disjoint_witness :
    memory_init mark_kernel_words (boot_state (fun _ => 0)) (small_machine 4)
      = some (small_mem 4) ∧
    ∃ l, Ledger.run ⟨small_mem 4, []⟩ steady_calls = some l ∧
      l.live = [(4198400, 2), (4194304, 1)] ∧
      l.live.Pairwise (fun a b => ¬ ranges_overlap a b) := by
  have hs : (Ledger.run ⟨small_mem 4, []⟩ steady_calls).isSome = true := by decide
  obtain ⟨l, hl⟩ := Option.isSome_iff_exists.mp hs
  have hlive : (Ledger.run ⟨small_mem 4, []⟩ steady_calls).map Ledger.live
      = some [(4198400, 2), (4194304, 1)] := by decide
  rw [hl] at hlive
  refine ⟨memory_init_small_machine 4, l, hl, by simpa using hlive, ?_⟩
  refine pmm_alloc_pages_ranges_disjoint mark_kernel_words (fun _ => 0) (small_machine 4)
    (small_mem 4) steady_calls l (memory_init_small_machine 4) ?_ hl
  intro c hc
  have hc' : c.oracle = static_oracle 1024 1028 := by
    simp only [steady_calls, List.mem_cons, List.mem_singleton, List.not_mem_nil, or_false] at hc
    rcases hc with h | h | h | h <;> rw [h] <;> rfl
  rw [hc']
  exact ⟨(first_fit_find_returns_free 1024 1028 (by norm_num) _ rfl).1,
    (first_fit_find_returns_free 1024 1028 (by norm_num) _ rfl).2,
    static_oracle_keeps_used_pages 1024 1028⟩

/-- Claim C1 fails as stated: with a first-fit search (which only returns free pages), the range
of one page at page 1026 is returned by the third call and never freed; the fifth call goes
through `compact_memory`, which relocates page 1026 to page 1025, and returns the two pages
from page 1026 on.  Two unfreed ranges share page 1026. -/
theorem pmm_alloc_pages_overlap_after_compaction :
    (∀ c ∈ relocating_calls, c.oracle.find_returns_free) ∧
    memory_init mark_kernel_words (boot_state (fun _ => 0)) (small_machine 4)
      = some (small_mem 4) ∧
    (Ledger.run ⟨small_mem 4, []⟩ relocating_calls).map Ledger.live
      = some [(4194304, 1), (4202496, 1), (4202496, 2)] ∧
    ranges_overlap (4202496, 1) (4202496, 2) :=
  ⟨fun c hc => by
      have hc1 : c.oracle = relocating_oracle := by
        simp only [relocating_calls, List.mem_cons, List.mem_singleton, List.not_mem_nil,
          or_false] at hc
        rcases hc with h | h | h | h | h <;> rw [h] <;> rfl
      rw [hc1]
      exact (first_fit_find_returns_free 1024 1028 (by norm_num) _ rfl).1,
    memory_init_small_machine 4, by decide, by decide⟩

/-- Claim C3: if `pmm_alloc_pages(n)` returns, then `pmm_free_pages` of the returned address with
the same `n` right afterwards puts `used_memory`, `free_memory` and the `free_pages` and
`used_pages` of every zone back to their values before the allocation (the counters being
32-bit values). -/
theorem pmm_alloc_free_round_trip (o o1 : MemOracle) (s s1 : MemState) (n addr : Nat)
    (hu : s.used_memory < 2 ^ 32) (hf : s.free_memory < 2 ^ 32)
    (h : pmm_alloc_pages o s n = Outcome.returned s1 addr) :
    (pmm_free_pages o1 s1 addr n).used_memory = s.used_memory ∧
    (pmm_free_pages o1 s1 addr n).free_memory = s.free_memory ∧
    (∀ i, ((pmm_free_pages o1 s1 addr n).memory_zones i).free_pages
        = (s.memory_zones i).free_pages ∧
      ((pmm_free_pages o1 s1 addr n).memory_zones i).used_pages
        = (s.memory_zones i).used_pages) := by
  obtain ⟨hz, -, -, hu1, hf1⟩ := pmm_alloc_pages_counters o s s1 n addr h
  unfold pmm_free_pages
  simp only [hz, hu1, hf1, and_self, implies_true, and_true]
  constructor <;> omega

/-- Witness of C3: two pages allocated and freed on the four-page machine. -/
theorem pmm_alloc_free_round_trip_witness :
    (small_mem 4).used_memory < 2 ^ 32 ∧ (small_mem 4).free_memory < 2 ^ 32 ∧
    ∃ s1 addr, pmm_alloc_pages (static_oracle 1024 1028) (small_mem 4) 2
        = Outcome.returned s1 addr ∧
      (pmm_free_pages (static_oracle 1024 1028) s1 addr 2).used_memory = 0 ∧
      (pmm_free_pages (static_oracle 1024 1028) s1 addr 2).free_memory = 4210688 := by
  obtain ⟨s1, addr, h⟩ := Outcome.exists_of_is_returned
    (pmm_alloc_pages (static_oracle 1024 1028) (small_mem 4) 2) (by decide)
  have hu : (small_mem 4).used_memory < 2 ^ 32 := by decide
  have hf : (small_mem 4).free_memory < 2 ^ 32 := by decide
  have := pmm_alloc_free_round_trip (static_oracle 1024 1028) (static_oracle 1024 1028)
    (small_mem 4) s1 2 addr hu hf h
  exact ⟨hu, hf, s1, addr, h, this.1, this.2.1⟩

/-- Claim C6, amended: when the first search fails and either compaction moves no page or the
search repeated after compaction fails too, `pmm_alloc_pages` ends in `kernel_panic`: the
machine halts and nothing is returned to the caller.  `used_memory`, `free_memory` and the
zones are as before the call and the bitmap is as compaction left it. -/
theorem pmm_alloc_pages_out_of_memory (o : MemOracle) (s : MemState) (n : Nat)
    (h1 : (find_free_pages o s n (o.predict_allocation n)).2 = INVALID_PAGE)
    (h2 : (compact_memory o (find_free_pages o s n (o.predict_allocation n)).1).2 = false ∨
      (find_free_pages o (compact_memory o (find_free_pages o s n (o.predict_allocation n)).1).1
        n (o.predict_allocation n)).2 = INVALID_PAGE) :
    ∃ sh, pmm_alloc_pages o s n = Outcome.halted sh ∧
      sh.trace.getLast? = some MemEvent.kernel_panic ∧
      sh.used_memory = s.used_memory ∧ sh.free_memory = s.free_memory ∧
      sh.memory_zones = s.memory_zones ∧
      sh.memory_bitmap
        = (compact_memory o
            (find_free_pages o s n (o.predict_allocation n)).1).1.memory_bitmap := by
  have hc := compact_memory_counters o (find_free_pages o s n (o.predict_allocation n)).1
  unfold pmm_alloc_pages
  simp only [h1, if_true]
  by_cases hm : (compact_memory o (find_free_pages o s n (o.predict_allocation n)).1).2 = true
  · have h3 : (find_free_pages o (compact_memory o
        (find_free_pages o s n (o.predict_allocation n)).1).1 n (o.predict_allocation n)).2
        = INVALID_PAGE := by
      rcases h2 with h | h
      · rw [hm] at h; exact absurd h (by simp)
      · exact h
    simp only [hm, h3, if_true]
    refine ⟨_, rfl, ?_, ?_, ?_, ?_, rfl⟩
    · simp [kernel_panic]
    · exact hc.1
    · exact hc.2.1
    · exact hc.2.2.2.1
  · simp only [hm]
    refine ⟨_, rfl, ?_, ?_, ?_, ?_, rfl⟩
    · simp [kernel_panic]
    · exact hc.1
    · exact hc.2.1
    · exact hc.2.2.2.1

/-- Witness of C6 (amended): three pages asked of a machine with two free pages. -/
theorem pmm_alloc_pages_out_of_memory_witness :
    (find_free_pages relocating_oracle fragmented_mem 3
      (relocating_oracle.predict_allocation 3)).2 = INVALID_PAGE ∧
    (find_free_pages relocating_oracle (compact_memory relocating_oracle
        (find_free_pages relocating_oracle fragmented_mem 3
          (relocating_oracle.predict_allocation 3)).1).1
        3 (relocating_oracle.predict_allocation 3)).2 = INVALID_PAGE ∧
    ∃ sh, pmm_alloc_pages relocating_oracle fragmented_mem 3 = Outcome.halted sh ∧
      sh.trace.getLast? = some MemEvent.kernel_panic ∧
      sh.used_memory = fragmented_mem.used_memory ∧
      sh.free_memory = fragmented_mem.free_memory := by
  have h1 : (find_free_pages relocating_oracle fragmented_mem 3
      (relocating_oracle.predict_allocation 3)).2 = INVALID_PAGE := by decide
  have h2 : (find_free_pages relocating_oracle (compact_memory relocating_oracle
        (find_free_pages relocating_oracle fragmented_mem 3
          (relocating_oracle.predict_allocation 3)).1).1
        3 (relocating_oracle.predict_allocation 3)).2 = INVALID_PAGE := by decide
  obtain ⟨sh, h, ht, hu, hf, -, -⟩ :=
    pmm_alloc_pages_out_of_memory relocating_oracle fragmented_mem 3 h1 (Or.inr h2)
  exact ⟨h1, h2, sh, h, ht, hu, hf⟩

/-- Claim C6 fails as stated: with pages 1025 and 1027 free, a request for three pages fails
on both searches; the call halts in `kernel_panic` instead of returning `NULL`, and the
compaction in between has changed the bitmap (page 1026, in use before, is free after). -/
theorem pmm_alloc_pages_halts_when_out_of_memory :
    (find_free_pages relocating_oracle fragmented_mem 3
      (relocating_oracle.predict_allocation 3)).2 = INVALID_PAGE ∧
    (find_free_pages relocating_oracle (compact_memory relocating_oracle
        (find_free_pages relocating_oracle fragmented_mem 3
          (relocating_oracle.predict_allocation 3)).1).1
        3 (relocating_oracle.predict_allocation 3)).2 = INVALID_PAGE ∧
    (pmm_alloc_pages relocating_oracle fragmented_mem 3).is_returned = false ∧
    (pmm_alloc_pages relocating_oracle fragmented_mem 3).value = none ∧
    is_page_free fragmented_mem.memory_bitmap 1026 = false ∧
    is_page_free (pmm_alloc_pages relocating_oracle fragmented_mem 3).state.memory_bitmap 1026
      = true := by
  decide

/-- Claim C7 fails as stated: on a zone with 100 free pages `pmm_alloc_pages(10)` returns the
range at page 1024, and the zone still reports 100 free pages and 0 used pages. -/
theorem zone_counters_not_updated :
    ((small_mem 100).memory_zones 0).free_pages = 100 ∧
    ((small_mem 100).memory_zones 0).used_pages = 0 ∧
    (pmm_alloc_pages (static_oracle 1024 1124) (small_mem 100) 10).value
      = some (1024 * PAGE_SIZE) ∧
    ((pmm_alloc_pages (static_oracle 1024 1124) (small_mem 100) 10).state.memory_zones
      0).free_pages = 100 ∧
    ((pmm_alloc_pages (static_oracle 1024 1124) (small_mem 100) 10).state.memory_zones
      0).used_pages = 0 := by
  decide

/-- Claim C7, amended: a `pmm_alloc_pages(n)` that returns leaves `free_pages` and `used_pages`
of every zone as they were; what it updates is `used_memory`, which grows by
`n * PAGE_SIZE`, and `free_memory`, which shrinks by as much, both modulo 2^32. -/
theorem pmm_alloc_pages_zone_counters (o : MemOracle) (s s1 : MemState) (n addr : Nat)
    (h : pmm_alloc_pages o s n = Outcome.returned s1 addr) :
    (∀ i, (s1.memory_zones i).free_pages = (s.memory_zones i).free_pages ∧
      (s1.memory_zones i).used_pages = (s.memory_zones i).used_pages) ∧
    s1.used_memory = (s.used_memory + n * PAGE_SIZE) % 2 ^ 32 ∧
    s1.free_memory = (s.free_memory + 2 ^ 32 - (n * PAGE_SIZE) % 2 ^ 32) % 2 ^ 32 := by
  obtain ⟨hz, -, -, hu1, hf1⟩ := pmm_alloc_pages_counters o s s1 n addr h
  exact ⟨fun i => by rw [hz]; exact ⟨rfl, rfl⟩, hu1, hf1⟩

/-- Witness of C7 (amended): ten pages allocated from a zone of 100 pages. -/
theorem pmm_alloc_pages_zone_counters_witness :
    ∃ s1 addr, pmm_alloc_pages (static_oracle 1024 1124) (small_mem 100) 10
        = Outcome.returned s1 addr ∧
      (s1.memory_zones 0).free_pages = 100 ∧ (s1.memory_zones 0).used_pages = 0 ∧
      s1.used_memory = 40960 := by
  obtain ⟨s1, addr, h⟩ := Outcome.exists_of_is_returned
    (pmm_alloc_pages (static_oracle 1024 1124) (small_mem 100) 10) (by decide)
  have := pmm_alloc_pages_zone_counters (static_oracle 1024 1124) (small_mem 100) s1 10 addr h
  refine ⟨s1, addr, h, ?_, ?_, ?_⟩
  · rw [(this.1 0).1]; decide
  · rw [(this.1 0).2]; decide
  · rw [this.2.1]; decide

/-! ## The process manager: shape of the operations -/

theorem find_unused_slot_some (table : Nat → process_t) :
    ∀ (k i j : Nat), find_unused_slot table i k = some j →
      i ≤ j ∧ j < i + k ∧ (table j).state = PROCESS_STATE_UNUSED := by
  intro k
  induction k with
  | zero => intro i j h; simp [find_unused_slot] at h
  | succ k ih =>
    intro i j h
    simp only [find_unused_slot] at h
    split_ifs at h with hu
    · simp only [Option.some.injEq] at h
      subst h
      exact ⟨le_refl _, by omega, hu⟩
    · obtain ⟨h1, h2, h3⟩ := ih (i + 1) j h
      exact ⟨by omega, by omega, h3⟩

theorem find_unused_slot_none (table : Nat → process_t) :
    ∀ (k i : Nat), find_unused_slot table i k = none ↔
      ∀ j, i ≤ j → j < i + k → (table j).state ≠ PROCESS_STATE_UNUSED := by
  intro k
  induction k with
  | zero => intro i; simp [find_unused_slot]; intro j h1 h2; omega
  | succ k ih =>
    intro i
    simp only [find_unused_slot]
    split_ifs with hu
    · simp only [false_iff, not_forall]
      exact ⟨i, le_refl _, by omega, fun h => h hu⟩
    · rw [ih]
      constructor
      · intro h j h1 h2
        rcases Nat.eq_or_lt_of_le h1 with h3 | h3
        · rw [← h3]; exact hu
        · exact h j h3 (by omega)
      · intro h j h1 h2
        exact h j (by omega) (by omega)

theorem process_create_cases (cfg : ProcConfig) (o : ProcOracle) (s : KState) (name : List Nat)
    (entry priority : Nat) :
    (find_unused_slot s.process_table 0 cfg.MAX_PROCESSES = none ∧
      process_create cfg o s name entry priority = Outcome.returned s none) ∨
    (∃ i, find_unused_slot s.process_table 0 cfg.MAX_PROCESSES = some i ∧
      ((∃ sh, process_create cfg o s name entry priority = Outcome.halted sh ∧
          (pmm_alloc_pages o.mem_first s.mem 1).is_returned = false) ∨
       (∃ sh m1 pd, process_create cfg o s name entry priority = Outcome.halted sh ∧
          pmm_alloc_pages o.mem_first s.mem 1 = Outcome.returned m1 pd ∧
          (pmm_alloc_pages o.mem_second m1
            ((o.predict_resources name).stack_size / PAGE_SIZE)).is_returned = false) ∨
       (∃ m1 pd m2 stack,
          pmm_alloc_pages o.mem_first s.mem 1 = Outcome.returned m1 pd ∧
          pmm_alloc_pages o.mem_second m1 ((o.predict_resources name).stack_size / PAGE_SIZE)
            = Outcome.returned m2 stack ∧
          process_create cfg o s name entry priority
            = Outcome.returned (created_state cfg o s i name entry priority pd stack m2)
                (some i)))) := by
  unfold process_create
  cases hslot : find_unused_slot s.process_table 0 cfg.MAX_PROCESSES with
  | none => left; exact ⟨rfl, rfl⟩
  | some i =>
    right
    refine ⟨i, rfl, ?_⟩
    simp only
    have hmem : (process_create_header cfg s i name priority).mem = s.mem := rfl
    rw [hmem]
    cases h1 : pmm_alloc_pages o.mem_first s.mem 1 with
    | halted m => left; exact ⟨_, rfl, rfl⟩
    | returned m1 pd =>
      right
      simp only
      have hmem2 : ({ process_create_header cfg s i name priority with mem := m1 }.update_pcb i
          (fun p => { p with memory :=
            { page_directory := pd
              heap_size := (o.predict_resources name).heap_size
              stack_size := (o.predict_resources name).stack_size } })).mem = m1 := rfl
      rw [hmem2]
      cases h2 : pmm_alloc_pages o.mem_second m1
          ((o.predict_resources name).stack_size / PAGE_SIZE) with
      | halted m => left; exact ⟨_, m1, pd, rfl, rfl, congrArg Outcome.is_returned h2⟩
      | returned m2 stack =>
        right
        refine ⟨m1, pd, m2, stack, rfl, h2, ?_⟩
        simp only [Outcome.returned.injEq, and_true]
        unfold process_create_finish add_to_ready_queue KState.update_pcb process_create_header
          created_state created_pcb KState.update_pcb
        simp only [KState.mk.injEq, and_true, true_and]
        funext j
        by_cases hj : j = i
        · simp [hj]
        · simp [hj]

theorem switch_to_process_same (s : KState) (next : Nat) (h : s.current_process = some next) :
    switch_to_process s next = s := by
  unfold switch_to_process
  simp [h]

theorem switch_to_process_current (s : KState) (next : Nat) :
    (switch_to_process s next).current_process = some next := by
  unfold switch_to_process
  split_ifs with h
  · exact h
  · cases hc : s.current_process with
    | none => simp [KState.update_pcb, remove_from_ready_queue]
    | some p =>
      by_cases hr : (s.process_table p).state = PROCESS_STATE_RUNNING <;>
        simp [KState.update_pcb, remove_from_ready_queue, add_to_ready_queue, hr]

theorem switch_to_process_state (s : KState) (next j : Nat) (h : s.current_process ≠ some next) :
    ((switch_to_process s next).process_table j).state =
      if j = next then PROCESS_STATE_RUNNING
      else if s.current_process = some j ∧ (s.process_table j).state = PROCESS_STATE_RUNNING
        then PROCESS_STATE_READY
      else (s.process_table j).state := by
  unfold switch_to_process
  simp only [h, if_false]
  cases hc : s.current_process with
  | none =>
    simp only [KState.update_pcb, remove_from_ready_queue]
    by_cases hj : j = next <;> simp [hj]
  | some p =>
    have hp : p ≠ next := fun e => h (by rw [hc, e])
    by_cases hr : (s.process_table p).state = PROCESS_STATE_RUNNING
    · simp only [KState.update_pcb, remove_from_ready_queue, add_to_ready_queue, hr, if_true]
      by_cases hj : j = next
      · simp [hj, hp, Ne.symm hp]
      · by_cases hjp : j = p
        · subst hjp; simp [hj, hr, Ne.symm hj]
        · simp [hj, hjp, Ne.symm hjp]
    · simp only [KState.update_pcb, remove_from_ready_queue, add_to_ready_queue, hr, if_false]
      by_cases hj : j = next
      · simp [hj, hp, Ne.symm hp]
      · by_cases hjp : j = p
        · subst hjp; simp [hj, hr, Ne.symm hj]
        · simp [hj, hjp, Ne.symm hjp]

theorem switch_to_process_queue (s : KState) (next j : Nat) (h : s.current_process ≠ some next) :
    j ∈ (switch_to_process s next).ready_queue ↔
      j ≠ next ∧ (j ∈ s.ready_queue ∨
        (s.current_process = some j ∧ (s.process_table j).state = PROCESS_STATE_RUNNING)) := by
  unfold switch_to_process
  simp only [h, if_false]
  cases hc : s.current_process with
  | none =>
    simp [KState.update_pcb, remove_from_ready_queue, List.mem_filter]
    tauto
  | some p =>
    by_cases hr : (s.process_table p).state = PROCESS_STATE_RUNNING
    · simp only [KState.update_pcb, remove_from_ready_queue, add_to_ready_queue, hr, if_true,
        List.mem_filter, List.mem_append, List.mem_singleton, decide_eq_true_eq,
        Option.some.injEq]
      constructor
      · rintro ⟨h1 | h1, h2⟩
        · exact ⟨h2, Or.inl h1⟩
        · exact ⟨h2, Or.inr ⟨h1.symm, h1 ▸ hr⟩⟩
      · rintro ⟨h1, h2 | h2⟩
        · exact ⟨Or.inl h2, h1⟩
        · exact ⟨Or.inr h2.1.symm, h1⟩
    · simp only [KState.update_pcb, remove_from_ready_queue, add_to_ready_queue, hr, if_false,
        List.mem_filter, decide_eq_true_eq, Option.some.injEq]
      constructor
      · rintro ⟨h1, h2⟩
        exact ⟨h2, Or.inl h1⟩
      · rintro ⟨h1, h2 | h2⟩
        · exact ⟨h2, h1⟩
        · exact absurd (h2.1 ▸ h2.2) hr

theorem switch_to_process_frame (s : KState) (next j : Nat) :
    ((switch_to_process s next).process_table j).pid = (s.process_table j).pid ∧
    ((switch_to_process s next).process_table j).parent = (s.process_table j).parent ∧
    (switch_to_process s next).next_pid = s.next_pid ∧
    (switch_to_process s next).mem = s.mem := by
  unfold switch_to_process
  split_ifs with h
  · exact ⟨rfl, rfl, rfl, rfl⟩
  · cases hc : s.current_process with
    | none =>
      simp only [KState.update_pcb, remove_from_ready_queue]
      by_cases hj : j = next <;> simp [hj]
    | some p =>
      have hp : p ≠ next := fun e => h (by rw [hc, e])
      by_cases hr : (s.process_table p).state = PROCESS_STATE_RUNNING
      · simp only [KState.update_pcb, remove_from_ready_queue, add_to_ready_queue, hr, if_true]
        by_cases hj : j = next
        · subst hj; simp [hp, Ne.symm hp]
        · by_cases hjp : j = p
          · subst hjp; simp [hj]
          · simp [hj, hjp]
      · simp only [KState.update_pcb, remove_from_ready_queue, add_to_ready_queue, hr, if_false]
        by_cases hj : j = next
        · subst hj; simp [hp, Ne.symm hp]
        · by_cases hjp : j = p
          · subst hjp; simp [hj]
          · simp [hj, hjp]

/-! ## The process manager: the ready queue invariant -/

theorem queue_invariant_created (cfg : ProcConfig) (o : ProcOracle) (s : KState) (i : Nat)
    (name : List Nat) (entry priority pd stack : Nat) (m : MemState)
    (hs : queue_invariant s) (hi : (s.process_table i).state = PROCESS_STATE_UNUSED) :
    queue_invariant (created_state cfg o s i name entry priority pd stack m) := by
  obtain ⟨h1, h2, h3, h4⟩ := hs
  refine ⟨?_, ?_, ?_, ?_⟩
  · intro j
    simp only [created_state, created_pcb, List.mem_append, List.mem_singleton]
    by_cases hj : j = i
    · simp [hj]
    · simp [hj, h1 j]
  · intro j
    simp only [created_state, created_pcb]
    by_cases hj : j = i
    · simp [hj]
    · simp only [hj, if_false]; exact h2 j
  · intro c hc
    have hc' : s.current_process = some c := hc
    have hci : c ≠ i := by
      intro e
      rcases h3 c hc' with h | h <;> rw [e, hi] at h <;> exact process_state_t.noConfusion h
    simp only [created_state, hci, if_false]
    exact h3 c hc'
  · intro j
    simp only [created_state, created_pcb]
    by_cases hj : j = i
    · simp [hj, h4 i]
    · simp [hj, h4 j]

theorem queue_invariant_switch (s : KState) (next : Nat) (hs : queue_invariant s) :
    queue_invariant (switch_to_process s next) := by
  by_cases h : s.current_process = some next
  · rw [switch_to_process_same s next h]; exact hs
  · obtain ⟨h1, h2, h3, h4⟩ := hs
    refine ⟨?_, ?_, ?_, ?_⟩
    · intro j
      rw [switch_to_process_queue s next j h, switch_to_process_state s next j h]
      by_cases hj : j = next
      · simp [hj]
      · simp only [hj, if_false, ne_eq, not_false_eq_true, true_and]
        by_cases hc : s.current_process = some j ∧
            (s.process_table j).state = PROCESS_STATE_RUNNING
        · simp [hc]
        · simp only [hc, or_false, if_false]; exact h1 j
    · intro j hj
      rw [switch_to_process_state s next j h] at hj
      rw [switch_to_process_current]
      by_cases hjn : j = next
      · rw [hjn]
      · simp only [hjn, if_false] at hj
        by_cases hc : s.current_process = some j ∧
            (s.process_table j).state = PROCESS_STATE_RUNNING
        · simp only [hc, and_self, if_true] at hj
          exact process_state_t.noConfusion hj
        · simp only [hc, if_false] at hj
          exact absurd ⟨h2 j hj, hj⟩ hc
    · intro c hc
      rw [switch_to_process_current] at hc
      simp only [Option.some.injEq] at hc
      subst hc
      left
      rw [switch_to_process_state s _ _ h]
      simp
    · intro j
      rw [(switch_to_process_frame s next j).2.1]
      exact h4 j

theorem queue_invariant_update_other (s : KState) (c : Nat) (f : process_t → process_t)
    (hf : ∀ q, (f q).state = q.state ∧ (f q).parent = q.parent) (hs : queue_invariant s) :
    queue_invariant (s.update_pcb c f) := by
  have key : ∀ j, ((s.update_pcb c f).process_table j).state = (s.process_table j).state ∧
      ((s.update_pcb c f).process_table j).parent = (s.process_table j).parent := by
    intro j
    simp only [KState.update_pcb]
    by_cases hj : j = c
    · simp only [hj, if_true]; exact hf _
    · simp only [hj, if_false, and_self]
  obtain ⟨h1, h2, h3, h4⟩ := hs
  refine ⟨fun j => ?_, fun j => ?_, fun j => ?_, fun j => ?_⟩
  · rw [(key j).1]; exact h1 j
  · rw [(key j).1]; exact h2 j
  · rw [(key j).1]; exact h3 j
  · rw [(key j).2]; exact h4 j

theorem queue_invariant_schedule (o : ProcOracle) (s : KState)
    (ho : ∀ t, (o.make_decision t).action = SCHEDULE_SWITCH ∨
      (o.make_decision t).action = SCHEDULE_CONTINUE)
    (hs : queue_invariant s) : queue_invariant (schedule o s) := by
  unfold schedule
  simp only
  rcases ho s with h | h
  · rw [h]
    simp only
    cases (o.make_decision s).next_process with
    | none => exact hs
    | some next => exact queue_invariant_switch s next hs
  · rw [h]
    simp only
    cases s.current_process with
    | none => exact hs
    | some c => exact queue_invariant_update_other s c _ (fun q => ⟨rfl, rfl⟩) hs

theorem queue_invariant_mem (s : KState) (m : MemState) (hs : queue_invariant s) :
    queue_invariant { s with mem := m } := hs

theorem process_exit_release_eq (o : ProcOracle) (s : KState) (c : Nat) (exit_code : Int)
    (hp : (s.process_table c).parent = none) :
    process_exit_release o s c exit_code =
      { (s.update_pcb c
          (fun q => { q with state := PROCESS_STATE_ZOMBIE, exit_code := exit_code })) with
        mem :=
          pmm_free_pages o.mem_second
            (pmm_free_pages o.mem_first s.mem (s.process_table c).stack
              ((s.process_table c).memory.stack_size / PAGE_SIZE))
            (s.process_table c).memory.page_directory 1 } := by
  unfold process_exit_release
  simp [KState.update_pcb, hp]

theorem queue_invariant_exit_release (o : ProcOracle) (s : KState) (c : Nat) (exit_code : Int)
    (hc : s.current_process = some c) (hs : queue_invariant s) :
    queue_invariant (process_exit_release o s c exit_code) := by
  rw [process_exit_release_eq o s c exit_code (hs.2.2.2 c)]
  apply queue_invariant_mem
  obtain ⟨h1, h2, h3, h4⟩ := hs
  have hcs := h3 c hc
  refine ⟨fun j => ?_, fun j => ?_, fun j => ?_, fun j => ?_⟩
  · simp only [KState.update_pcb]
    by_cases hj : j = c
    · subst hj
      simp only [if_true]
      rw [h1 j]
      constructor
      · intro h; rcases hcs with h' | h' <;> rw [h] at h' <;> exact process_state_t.noConfusion h'
      · intro h; exact process_state_t.noConfusion h
    · simp only [hj, if_false]; exact h1 j
  · simp only [KState.update_pcb]
    by_cases hj : j = c
    · subst hj; simp
    · simp only [hj, if_false]; exact h2 j
  · simp only [KState.update_pcb]
    intro hj
    have : j = c := by rw [hc] at hj; exact (Option.some.inj hj).symm
    subst this
    simp
  · simp only [KState.update_pcb]
    by_cases hj : j = c
    · subst hj; simp [h4 j]
    · simp only [hj, if_false]; exact h4 j

theorem queue_invariant_process_create (cfg : ProcConfig) (o : ProcOracle) (s s1 : KState)
    (name : List Nat) (entry priority : Nat) (r : Option Nat)
    (h : process_create cfg o s name entry priority = Outcome.returned s1 r)
    (hs : queue_invariant s) : queue_invariant s1 := by
  rcases process_create_cases cfg o s name entry priority with ⟨-, h0⟩ | ⟨i, hi, hcase⟩
  · rw [h0] at h
    simp only [Outcome.returned.injEq] at h
    rw [← h.1]; exact hs
  · rcases hcase with
      ⟨sh, h1, -⟩ | ⟨sh, m1, pd, h1, -, -⟩ | ⟨m1, pd, m2, stack, -, -, h1⟩
    · rw [h1] at h; exact Outcome.noConfusion h
    · rw [h1] at h; exact Outcome.noConfusion h
    · rw [h1] at h
      simp only [Outcome.returned.injEq] at h
      rw [← h.1]
      exact queue_invariant_created cfg o s i name entry priority pd stack m2 hs
        (find_unused_slot_some _ _ _ _ hi).2.2

theorem queue_invariant_kernel_threads (cfg : ProcConfig) :
    ∀ (threads : List KernelThread) (s s1 : KState),
      create_kernel_threads cfg threads s = Outcome.returned s1 () →
      queue_invariant s → queue_invariant s1 := by
  intro threads
  induction threads with
  | nil =>
    intro s s1 h hs
    simp only [create_kernel_threads, Outcome.returned.injEq, and_true] at h
    rw [← h]; exact hs
  | cons t rest ih =>
    intro s s1 h hs
    simp only [create_kernel_threads] at h
    cases hc : process_create cfg t.oracle s t.name t.entry t.priority with
    | halted sh => rw [hc] at h; exact Outcome.noConfusion h
    | returned s2 r =>
      rw [hc] at h
      exact ih s2 s1 h (queue_invariant_process_create cfg _ s s2 _ _ _ r hc hs)

theorem queue_invariant_boot (m : MemState) :
    queue_invariant (process_init_clear (kernel_boot_state m)) := by
  refine ⟨fun j => ?_, fun j => ?_, fun j => ?_, fun j => rfl⟩
  · simp [process_init_clear, kernel_boot_state, process_t.zero]
  · simp [process_init_clear, kernel_boot_state, process_t.zero]
  · simp [process_init_clear, kernel_boot_state]

theorem queue_invariant_process_init (cfg : ProcConfig) (o : ProcOracle) (idle : Nat)
    (threads : List KernelThread) (m : MemState) (s : KState)
    (h : process_init cfg o idle threads (kernel_boot_state m) = some (Outcome.returned s ())) :
    queue_invariant s := by
  unfold process_init create_idle_process at h
  cases hc : process_create cfg o (process_init_clear (kernel_boot_state m)) [105, 100, 108, 101]
      idle 0 with
  | halted sh => rw [hc] at h; simp at h
  | returned s1 r =>
    rw [hc] at h
    cases r with
    | none => simp at h
    | some i =>
      simp only [Option.some.injEq] at h
      refine queue_invariant_kernel_threads cfg threads _ s h ?_
      exact queue_invariant_update_other s1 i _ (fun q => ⟨rfl, rfl⟩)
        (queue_invariant_process_create cfg o _ s1 _ _ _ _ hc (queue_invariant_boot m))

theorem ProcReachable.queue_invariant {cfg : ProcConfig} {s : KState}
    (h : ProcReachable cfg s) : queue_invariant s := by
  induction h with
  | init o idle threads m s hi => exact queue_invariant_process_init cfg o idle threads m s hi
  | create o name entry priority s s1 r _ hc ih =>
    exact queue_invariant_process_create cfg o s s1 name entry priority r hc ih
  | schedule o s _ ho ih => exact queue_invariant_schedule o s ho ih
  | exit o code s s1 _ ho he ih =>
    unfold process_exit at he
    cases hc : s.current_process with
    | none => rw [hc] at he; simp at he
    | some c =>
      rw [hc] at he
      simp only [Option.some.injEq] at he
      rw [← he]
      exact queue_invariant_schedule o _ ho (queue_invariant_exit_release o s c code hc ih)

/-! ## What a returning `process_create` leaves -/

theorem process_create_returned_some (cfg : ProcConfig) (o : ProcOracle) (s s1 : KState)
    (name : List Nat) (entry priority i : Nat)
    (h : process_create cfg o s name entry priority = Outcome.returned s1 (some i)) :
    i < cfg.MAX_PROCESSES ∧ (s.process_table i).state = PROCESS_STATE_UNUSED ∧
    ∃ pd stack m, s1 = created_state cfg o s i name entry priority pd stack m := by
  rcases process_create_cases cfg o s name entry priority with ⟨-, h0⟩ | ⟨k, hk, hcase⟩
  · rw [h0] at h
    simp only [Outcome.returned.injEq] at h
    exact absurd h.2 (by simp)
  · rcases hcase with
      ⟨sh, h1, -⟩ | ⟨sh, m1, pd, h1, -, -⟩ | ⟨m1, pd, m2, stack, -, -, h1⟩
    · rw [h1] at h; exact Outcome.noConfusion h
    · rw [h1] at h; exact Outcome.noConfusion h
    · rw [h1] at h
      simp only [Outcome.returned.injEq, Option.some.injEq] at h
      obtain ⟨hst, hki⟩ := h
      subst hki
      have := find_unused_slot_some _ _ _ _ hk
      exact ⟨by omega, this.2.2, pd, stack, m2, hst.symm⟩

theorem process_create_returned_none (cfg : ProcConfig) (o : ProcOracle) (s s1 : KState)
    (name : List Nat) (entry priority : Nat)
    (h : process_create cfg o s name entry priority = Outcome.returned s1 none) :
    s1 = s ∧ find_unused_slot s.process_table 0 cfg.MAX_PROCESSES = none := by
  rcases process_create_cases cfg o s name entry priority with ⟨hn, h0⟩ | ⟨k, hk, hcase⟩
  · rw [h0] at h
    simp only [Outcome.returned.injEq, and_true] at h
    exact ⟨h.symm, hn⟩
  · rcases hcase with
      ⟨sh, h1, -⟩ | ⟨sh, m1, pd, h1, -, -⟩ | ⟨m1, pd, m2, stack, -, -, h1⟩
    · rw [h1] at h; exact Outcome.noConfusion h
    · rw [h1] at h; exact Outcome.noConfusion h
    · rw [h1] at h
      simp only [Outcome.returned.injEq] at h
      exact absurd h.2 (by simp)

/-! ## Example runs of the process manager -/

theorem Outcome.eq_returned_state {σ α : Type} (r : Outcome σ α) (h : r.is_returned = true) :
    ∃ v, r = Outcome.returned r.state v := by
  cases r with
  | returned s v => exact ⟨v, rfl⟩
  | halted s => exact absurd h (by simp [Outcome.is_returned])

theorem eq_started_state {σ : Type} (d : σ) (x : Option (Outcome σ Unit))
    (h : is_started x = true) : x = some (Outcome.returned (started_state d x) ()) := by
  cases x with
  | none => exact absurd h (by simp [is_started])
  | some r =>
    cases r with
    | returned s v => rfl
    | halted s => exact absurd h (by simp [is_started])

theorem demo_boot_reachable : ProcReachable demo_cfg demo_boot :=
  ProcReachable.init (demo_oracle 1040 decide_continue) 0 [] (small_mem 16) demo_boot
    (eq_started_state _ _ (by decide))

theorem demo_two_reachable : ProcReachable demo_cfg demo_two := by
  obtain ⟨r, h⟩ := Outcome.eq_returned_state
    (process_create demo_cfg (demo_oracle 1040 decide_continue) demo_boot [97] 4096 5) (by decide)
  exact ProcReachable.create _ _ _ _ demo_boot demo_two r demo_boot_reachable h

theorem demo_running_reachable : ProcReachable demo_cfg demo_running :=
  ProcReachable.schedule (demo_oracle 1040 (decide_switch 1)) demo_two demo_two_reachable
    (fun _ => Or.inl rfl)

/-! ## Claims about the process manager -/

/-- Claim C4: in every state reachable from `process_init` through `process_create`, `schedule`
with a SWITCH or CONTINUE decision, and `process_exit`, a PCB is in `ready_queue` if and only
if its state is `PROCESS_STATE_READY`. -/
theorem ready_queue_iff_ready (cfg : ProcConfig) (s : KState) (h : ProcReachable cfg s)
    (i : Nat) :
    i ∈ s.ready_queue ↔ (s.process_table i).state = PROCESS_STATE_READY :=
  h.queue_invariant.1 i

/-- Witness of C4: the state after boot, one creation and one switch. -/
theorem ready_queue_iff_ready_witness :
    ProcReachable demo_cfg demo_running ∧
    (0 ∈ demo_running.ready_queue ↔
      (demo_running.process_table 0).state = PROCESS_STATE_READY) ∧
    (1 ∈ demo_running.ready_queue ↔
      (demo_running.process_table 1).state = PROCESS_STATE_READY) :=
  ⟨demo_running_reachable,
    ready_queue_iff_ready demo_cfg demo_running demo_running_reachable 0,
    ready_queue_iff_ready demo_cfg demo_running demo_running_reachable 1⟩

/-- Claim C5 fails as stated: after boot slot 2 is UNUSED; a SWITCH decision naming it makes
`schedule` set it to RUNNING and make it the current process. -/
theorem schedule_runs_unused_pcb :
    (demo_boot.process_table 2).state = PROCESS_STATE_UNUSED ∧
    ((schedule (demo_oracle 1040 (decide_switch 2)) demo_boot).process_table 2).state
      = PROCESS_STATE_RUNNING ∧
    (schedule (demo_oracle 1040 (decide_switch 2)) demo_boot).current_process = some 2 := by
  decide

/-- Claim C5, amended: for a SWITCH or CONTINUE decision, `schedule` moves the PCB `j` into
`PROCESS_STATE_RUNNING` exactly when the decision is SWITCH, names `j`, and `j` is neither the
current process nor RUNNING already.  The state `j` had before is not looked at. -/
theorem schedule_enters_running (o : ProcOracle) (s : KState) (j : Nat)
    (hact : (o.make_decision s).action = SCHEDULE_SWITCH ∨
      (o.make_decision s).action = SCHEDULE_CONTINUE) :
    (((schedule o s).process_table j).state = PROCESS_STATE_RUNNING ∧
        (s.process_table j).state ≠ PROCESS_STATE_RUNNING) ↔
      ((o.make_decision s).action = SCHEDULE_SWITCH ∧
        (o.make_decision s).next_process = some j ∧
        s.current_process ≠ some j ∧
        (s.process_table j).state ≠ PROCESS_STATE_RUNNING) := by
  unfold schedule
  simp only
  rcases hact with h | h
  · rw [h]
    simp only [true_and]
    cases hn : (o.make_decision s).next_process with
    | none => simp
    | some next =>
      simp only [Option.some.injEq]
      by_cases hcur : s.current_process = some next
      · rw [switch_to_process_same s next hcur]
        constructor
        · rintro ⟨h1, h2⟩; exact absurd h1 h2
        · rintro ⟨h1, h2, h3⟩; rw [h1] at hcur; exact absurd hcur h2
      · rw [switch_to_process_state s next j hcur]
        by_cases hj : j = next
        · subst hj; simp [hcur]
        · simp only [hj, if_false]
          constructor
          · rintro ⟨h1, h2⟩
            split_ifs at h1 with hc
            exact absurd h1 h2
          · rintro ⟨h1, -⟩; exact absurd h1.symm hj
  · rw [h]
    simp only
    constructor
    · rintro ⟨h1, h2⟩
      exfalso
      apply h2
      cases hc : s.current_process with
      | none => rw [hc] at h1; exact h1
      | some c =>
        rw [hc] at h1
        simp only [KState.update_pcb] at h1
        by_cases hj : j = c
        · subst hj; simpa using h1
        · simpa [hj] using h1
    · rintro ⟨h1, -⟩; exact schedule_action_t.noConfusion h1

/-- Witness of C5 (amended): the switch to the READY process in slot 1. -/
theorem schedule_enters_running_witness :
    ((demo_oracle 1040 (decide_switch 1)).make_decision demo_two).action = SCHEDULE_SWITCH ∧
    (((schedule (demo_oracle 1040 (decide_switch 1)) demo_two).process_table 1).state
        = PROCESS_STATE_RUNNING ∧
      (demo_two.process_table 1).state ≠ PROCESS_STATE_RUNNING) :=
  ⟨rfl, (schedule_enters_running (demo_oracle 1040 (decide_switch 1)) demo_two 1
    (Or.inl rfl)).mpr ⟨rfl, rfl, by decide, by decide⟩⟩

/-- Claim C8: `process_create` returns `NULL` exactly when no entry of `process_table` has state
`PROCESS_STATE_UNUSED`, and then the whole state (`next_pid`, every PCB, the ready queue, the
allocator with its counters and bitmap) is as before the call. -/
theorem process_create_table_full (cfg : ProcConfig) (o : ProcOracle) (s : KState)
    (name : List Nat) (entry priority : Nat) (s1 : KState) :
    process_create cfg o s name entry priority = Outcome.returned s1 none ↔
      ((∀ j, j < cfg.MAX_PROCESSES → (s.process_table j).state ≠ PROCESS_STATE_UNUSED) ∧
        s1 = s) := by
  constructor
  · intro h
    obtain ⟨h1, h2⟩ := process_create_returned_none cfg o s s1 name entry priority h
    refine ⟨fun j hj => ?_, h1⟩
    exact (find_unused_slot_none _ _ _).mp h2 j (Nat.zero_le j) (by omega)
  · rintro ⟨hfull, he⟩
    have hn : find_unused_slot s.process_table 0 cfg.MAX_PROCESSES = none :=
      (find_unused_slot_none _ _ _).mpr (fun j _ hj => hfull j (by omega))
    rcases process_create_cases cfg o s name entry priority with ⟨-, h0⟩ | ⟨k, hk, -⟩
    · rw [h0, he]
    · rw [hn] at hk; exact Option.noConfusion hk

/-- Witness of C8: a fifth creation with all four slots in use. -/
theorem process_create_table_full_witness :
    (∀ j, j < demo_cfg.MAX_PROCESSES →
      (demo_full.process_table j).state ≠ PROCESS_STATE_UNUSED) ∧
    process_create demo_cfg (demo_oracle 1040 decide_continue) demo_full [100] 4096 5
      = Outcome.returned demo_full none :=
  ⟨by decide,
    (process_create_table_full demo_cfg (demo_oracle 1040 decide_continue) demo_full [100] 4096 5
      demo_full).mpr ⟨by decide, rfl⟩⟩

/-- Claim C9 fails as stated: with one page left, `process_create` finds the free slot 1, the
allocation of its two-page stack fails, and the call halts in `kernel_panic`: no PCB is
returned. -/
theorem process_create_halts_without_memory :
    (tight_boot.process_table 1).state = PROCESS_STATE_UNUSED ∧
    (process_create demo_cfg (demo_oracle 1028 decide_continue) tight_boot [97] 0 5).is_returned
      = false ∧
    (process_create demo_cfg (demo_oracle 1028 decide_continue) tight_boot [97] 0 5).value
      = none := by
  decide

/-- Claim C9, amended: for every name, entry point and priority, a `process_create` call that
finds a free slot and whose two allocations (page directory, stack) return, returns a PCB
whose state is `PROCESS_STATE_READY`, whose quantum is `DEFAULT_QUANTUM`, whose priority is
the one given, whose `cpu_time` and `context_switches` are 0, and which is in the ready
queue. -/
theorem process_create_ready (cfg : ProcConfig) (o : ProcOracle) (s : KState)
    (name : List Nat) (entry priority : Nat) (m1 m2 : MemState) (pd stack : Nat)
    (hslot : ∃ j, j < cfg.MAX_PROCESSES ∧ (s.process_table j).state = PROCESS_STATE_UNUSED)
    (hpd : pmm_alloc_pages o.mem_first s.mem 1 = Outcome.returned m1 pd)
    (hstack : pmm_alloc_pages o.mem_second m1 ((o.predict_resources name).stack_size / PAGE_SIZE)
      = Outcome.returned m2 stack) :
    ∃ s1 i, process_create cfg o s name entry priority = Outcome.returned s1 (some i) ∧
      (s1.process_table i).state = PROCESS_STATE_READY ∧
      (s1.process_table i).quantum = cfg.DEFAULT_QUANTUM ∧
      (s1.process_table i).priority = priority ∧
      (s1.process_table i).stats.cpu_time = 0 ∧
      (s1.process_table i).stats.context_switches = 0 ∧
      i ∈ s1.ready_queue := by
  rcases process_create_cases cfg o s name entry priority with ⟨hn, -⟩ | ⟨i, hi, hcase⟩
  · obtain ⟨j, hj, hu⟩ := hslot
    exact absurd hu ((find_unused_slot_none _ _ _).mp hn j (Nat.zero_le j) (by omega))
  · rcases hcase with
      ⟨sh, -, h1⟩ | ⟨sh, m1', pd', -, h1, h2⟩ | ⟨m1', pd', m2', stack', -, -, h1⟩
    · rw [hpd] at h1; exact absurd h1 (by simp [Outcome.is_returned])
    · rw [hpd] at h1
      simp only [Outcome.returned.injEq] at h1
      rw [← h1.1, hstack] at h2
      exact absurd h2 (by simp [Outcome.is_returned])
    · refine ⟨_, i, h1, ?_, ?_, ?_, ?_, ?_, ?_⟩ <;> simp [created_state, created_pcb]

/-- Witness of C9 (amended): the creation of a second process, entry point `NULL`. -/
theorem process_create_ready_witness :
    ∃ s1 i, process_create demo_cfg (demo_oracle 1040 decide_continue) demo_boot [97] 0 5
        = Outcome.returned s1 (some i) ∧
      (s1.process_table i).state = PROCESS_STATE_READY ∧
      (s1.process_table i).quantum = 10 ∧
      (s1.process_table i).priority = 5 ∧
      (s1.process_table i).stats.cpu_time = 0 ∧
      (s1.process_table i).stats.context_switches = 0 ∧
      i ∈ s1.ready_queue := by
  obtain ⟨v1, h1⟩ := Outcome.eq_returned_state
    (pmm_alloc_pages (demo_oracle 1040 decide_continue).mem_first demo_boot.mem 1) (by decide)
  obtain ⟨v2, h2⟩ := Outcome.eq_returned_state
    (pmm_alloc_pages (demo_oracle 1040 decide_continue).mem_second
      (pmm_alloc_pages (demo_oracle 1040 decide_continue).mem_first demo_boot.mem 1).state
      (((demo_oracle 1040 decide_continue).predict_resources [97]).stack_size / PAGE_SIZE))
    (by decide)
  exact process_create_ready demo_cfg (demo_oracle 1040 decide_continue) demo_boot [97] 0 5 _ _
    v1 v2 ⟨1, by decide, by decide⟩ h1 h2

/-! ## The PID counter -/

theorem counter_invariant_frame (s s1 : KState) (g : Nat)
    (hpid : ∀ j, (s1.process_table j).pid = (s.process_table j).pid)
    (hpar : ∀ j, (s1.process_table j).parent = (s.process_table j).parent)
    (hn : s1.next_pid = s.next_pid) (hs : counter_invariant s g) : counter_invariant s1 g := by
  obtain ⟨h1, h2, h3, h4⟩ := hs
  exact ⟨h1, hn.trans h2, fun j => by rw [hpid j]; exact h3 j,
    fun j => by rw [hpar j]; exact h4 j⟩

theorem counter_invariant_update (s : KState) (c g : Nat) (f : process_t → process_t)
    (hf : ∀ q, (f q).pid = q.pid ∧ (f q).parent = q.parent) (hs : counter_invariant s g) :
    counter_invariant (s.update_pcb c f) g := by
  refine counter_invariant_frame s _ g (fun j => ?_) (fun j => ?_) rfl hs
  · simp only [KState.update_pcb]
    split_ifs with h
    · rw [h]; exact (hf _).1
    · rfl
  · simp only [KState.update_pcb]
    split_ifs with h
    · rw [h]; exact (hf _).2
    · rfl

theorem counter_invariant_schedule (o : ProcOracle) (s : KState) (g : Nat)
    (ho : ∀ t, (o.make_decision t).action = SCHEDULE_SWITCH ∨
      (o.make_decision t).action = SCHEDULE_CONTINUE)
    (hs : counter_invariant s g) : counter_invariant (schedule o s) g := by
  unfold schedule
  simp only
  rcases ho s with h | h
  · rw [h]
    simp only
    cases (o.make_decision s).next_process with
    | none => exact hs
    | some next =>
      exact counter_invariant_frame s _ g (fun j => (switch_to_process_frame s next j).1)
        (fun j => (switch_to_process_frame s next j).2.1)
        (switch_to_process_frame s next 0).2.2.1 hs
  · rw [h]
    simp only
    cases s.current_process with
    | none => exact hs
    | some c => exact counter_invariant_update s c g _ (fun q => ⟨rfl, rfl⟩) hs

theorem counter_invariant_created (cfg : ProcConfig) (o : ProcOracle) (s : KState) (i : Nat)
    (name : List Nat) (entry priority pd stack : Nat) (m : MemState) (g : Nat)
    (hs : counter_invariant s g) :
    counter_invariant (created_state cfg o s i name entry priority pd stack m) (g + 1) := by
  obtain ⟨h1, h2, h3, h4⟩ := hs
  refine ⟨by omega, ?_, fun j => ?_, fun j => ?_⟩
  · simp only [created_state, h2]
    omega
  · simp only [created_state]
    split_ifs with h
    · simp only [created_pcb, h2]
      have := Nat.mod_le g (2 ^ 32)
      omega
    · have := h3 j
      omega
  · simp only [created_state]
    split_ifs with h
    · simp only [created_pcb]
      exact h4 i
    · exact h4 j

theorem CountedRun.counter_invariant {cfg : ProcConfig} {s : KState} {g : Nat}
    (h : CountedRun cfg s g) : counter_invariant s g := by
  induction h with
  | boot mem =>
    exact ⟨le_refl _, rfl,
      fun j => by simp [process_init_clear, kernel_boot_state, process_t.zero], fun j => rfl⟩
  | create o name entry priority s s1 i g _ hc ih =>
    obtain ⟨-, -, pd, stack, m, he⟩ :=
      process_create_returned_some cfg o s s1 name entry priority i hc
    rw [he]
    exact counter_invariant_created cfg o s i name entry priority pd stack m g ih
  | system_flag s i g _ ih => exact counter_invariant_update s i g _ (fun q => ⟨rfl, rfl⟩) ih
  | schedule o s g _ ho ih => exact counter_invariant_schedule o s g ho ih
  | exit o code s s1 g _ ho he ih =>
    unfold process_exit at he
    cases hc : s.current_process with
    | none => rw [hc] at he; exact Option.noConfusion he
    | some c =>
      rw [hc] at he
      simp only [Option.some.injEq] at he
      rw [← he]
      refine counter_invariant_schedule o _ g ho ?_
      rw [process_exit_release_eq o s c code (ih.2.2.2 c)]
      exact counter_invariant_frame
        (s.update_pcb c (fun q => { q with state := PROCESS_STATE_ZOMBIE, exit_code := code }))
        _ g (fun _ => rfl) (fun _ => rfl) rfl
        (counter_invariant_update s c g _ (fun q => ⟨rfl, rfl⟩) ih)
  | destroy s proc g _ ih =>
    exact counter_invariant_frame
      (s.update_pcb proc (fun q => { q with state := PROCESS_STATE_UNUSED }))
      _ g (fun _ => rfl) (fun _ => rfl) rfl
      (counter_invariant_update s proc g _ (fun q => ⟨rfl, rfl⟩) ih)

theorem CountedRun.kernel_threads (cfg : ProcConfig) :
    ∀ (threads : List KernelThread) (s s1 : KState) (g : Nat),
      create_kernel_threads cfg threads s = Outcome.returned s1 () →
      CountedRun cfg s g → ∃ g1, CountedRun cfg s1 g1 := by
  intro threads
  induction threads with
  | nil =>
    intro s s1 g h hs
    simp only [create_kernel_threads, Outcome.returned.injEq, and_true] at h
    rw [← h]; exact ⟨g, hs⟩
  | cons t rest ih =>
    intro s s1 g h hs
    simp only [create_kernel_threads] at h
    cases hc : process_create cfg t.oracle s t.name t.entry t.priority with
    | halted sh => rw [hc] at h; exact Outcome.noConfusion h
    | returned s2 r =>
      rw [hc] at h
      cases r with
      | none =>
        rw [(process_create_returned_none cfg _ s s2 _ _ _ hc).1] at h
        exact ih s s1 g h hs
      | some i => exact ih s2 s1 (g + 1) h (CountedRun.create _ _ _ _ s s2 i g hs hc)

/-- Every state reachable from `process_init` is the end of a counted run. -/
theorem ProcReachable.counted {cfg : ProcConfig} {s : KState} (h : ProcReachable cfg s) :
    ∃ g, CountedRun cfg s g := by
  induction h with
  | init o idle threads m s hi =>
    unfold process_init create_idle_process at hi
    cases hc : process_create cfg o (process_init_clear (kernel_boot_state m))
        [105, 100, 108, 101] idle 0 with
    | halted sh => rw [hc] at hi; simp at hi
    | returned s1 r =>
      rw [hc] at hi
      cases r with
      | none => simp at hi
      | some i =>
        simp only [Option.some.injEq] at hi
        exact CountedRun.kernel_threads cfg threads _ s 2 hi
          (CountedRun.system_flag s1 i 2
            (CountedRun.create o _ idle 0 _ s1 i 1 (CountedRun.boot m) hc))
  | create o name entry priority s s1 r _ hc ih =>
    obtain ⟨g, hg⟩ := ih
    cases r with
    | none =>
      rw [(process_create_returned_none cfg o s s1 name entry priority hc).1]
      exact ⟨g, hg⟩
    | some i => exact ⟨g + 1, CountedRun.create o name entry priority s s1 i g hg hc⟩
  | schedule o s _ ho ih =>
    obtain ⟨g, hg⟩ := ih
    exact ⟨g, CountedRun.schedule o s g hg ho⟩
  | exit o code s s1 _ ho he ih =>
    obtain ⟨g, hg⟩ := ih
    exact ⟨g, CountedRun.exit o code s s1 g hg ho he⟩

/-- Claim C10, amended: in every state reached from boot through `process_init`,
`process_create`, `schedule`, `process_exit` and `process_destroy` after fewer than 2^32 - 1
successful creations (the counter `g`, one more than their number, is below 2^32, so
`next_pid` has not wrapped around), a `process_create` that returns a PCB gives it the pid
`g`, which is greater than 0 and differs from the pid of every other PCB of the table, and
`next_pid` becomes `g + 1` modulo 2^32. -/
theorem process_create_pid_fresh (cfg : ProcConfig) (s : KState) (g : Nat)
    (hs : CountedRun cfg s g) (hg : g < 2 ^ 32) (o : ProcOracle) (name : List Nat)
    (entry priority : Nat) (s1 : KState) (i : Nat)
    (h : process_create cfg o s name entry priority = Outcome.returned s1 (some i)) :
    (s1.process_table i).pid = g ∧
    0 < (s1.process_table i).pid ∧
    (∀ j, j ≠ i → (s1.process_table j).pid ≠ (s1.process_table i).pid) ∧
    s1.next_pid = (g + 1) % 2 ^ 32 ∧
    CountedRun cfg s1 (g + 1) := by
  obtain ⟨-, -, pd, stack, m, he⟩ :=
    process_create_returned_some cfg o s s1 name entry priority i h
  obtain ⟨h1, h2, h3, -⟩ := hs.counter_invariant
  have hrun := CountedRun.create o name entry priority s s1 i g hs h
  have hpid : (s1.process_table i).pid = g := by
    rw [he]
    simp only [created_state, created_pcb, if_true, h2]
    exact Nat.mod_eq_of_lt hg
  refine ⟨hpid, by omega, fun j hj => ?_, hrun.counter_invariant.2.1, hrun⟩
  rw [hpid, he]
  simp only [created_state, hj, if_false]
  exact Nat.ne_of_lt (h3 j)

theorem pmm_alloc_pages_fixed_page (p : Nat) (hp : p < INVALID_PAGE) (m : MemState) (n : Nat) :
    ∃ m1 addr, pmm_alloc_pages (fixed_page_oracle p) m n = Outcome.returned m1 addr := by
  have h1 : ((fixed_page_oracle p).find_free_pages m n
      ((fixed_page_oracle p).predict_allocation n)) % 2 ^ 32 ≠ INVALID_PAGE := by
    show p % 2 ^ 32 ≠ INVALID_PAGE
    unfold INVALID_PAGE at hp ⊢
    omega
  unfold pmm_alloc_pages
  simp only [find_free_pages, h1, if_false, pmm_alloc_commit]
  exact ⟨_, _, rfl⟩

/-- With the allocator answering fixed pages, `process_create` returns the PCB of slot 1 when
slot 0 is in use and slot 1 is not (the table having at least two slots). -/
theorem process_create_fixed_pages (cfg : ProcConfig) (hmax : 2 ≤ cfg.MAX_PROCESSES)
    (d : scheduling_decision_t) (s : KState) (name : List Nat) (entry priority : Nat)
    (h0 : (s.process_table 0).state ≠ PROCESS_STATE_UNUSED)
    (h1 : (s.process_table 1).state = PROCESS_STATE_UNUSED) :
    ∃ s1, process_create cfg (fixed_pages_oracle d) s name entry priority
        = Outcome.returned s1 (some 1) ∧
      (s1.process_table 1).pid = s.next_pid ∧
      (s1.process_table 0) = s.process_table 0 ∧
      s1.current_process = s.current_process := by
  have hslot : find_unused_slot s.process_table 0 cfg.MAX_PROCESSES = some 1 := by
    obtain ⟨k, hk⟩ : ∃ k, cfg.MAX_PROCESSES = k + 2 := ⟨cfg.MAX_PROCESSES - 2, by omega⟩
    rw [hk]
    simp only [find_unused_slot, h0, h1, if_false, if_true]
  rcases process_create_cases cfg (fixed_pages_oracle d) s name entry priority with
    ⟨hn, -⟩ | ⟨i, hi, hcase⟩
  · rw [hslot] at hn; exact Option.noConfusion hn
  · rw [hslot] at hi
    have hi1 : i = 1 := (Option.some.inj hi).symm
    subst hi1
    rcases hcase with
      ⟨sh, -, hf⟩ | ⟨sh, m1, pd, -, -, hf⟩ | ⟨m1, pd, m2, stack, -, -, hc⟩
    · obtain ⟨m1, addr, ha⟩ := pmm_alloc_pages_fixed_page 1027 (by decide) s.mem 1
      have ha1 : pmm_alloc_pages (fixed_pages_oracle d).mem_first s.mem 1
          = Outcome.returned m1 addr := ha
      rw [ha1] at hf
      exact absurd hf (by simp [Outcome.is_returned])
    · obtain ⟨m3, addr, ha⟩ := pmm_alloc_pages_fixed_page 1028 (by decide) m1
        (((fixed_pages_oracle d).predict_resources name).stack_size / PAGE_SIZE)
      have ha1 : pmm_alloc_pages (fixed_pages_oracle d).mem_second m1
          (((fixed_pages_oracle d).predict_resources name).stack_size / PAGE_SIZE)
          = Outcome.returned m3 addr := ha
      rw [ha1] at hf
      exact absurd hf (by simp [Outcome.is_returned])
    · refine ⟨_, hc, ?_, ?_, rfl⟩
      · simp [created_state, created_pcb]
      · simp [created_state]

theorem schedule_fixed_switch (i : Nat) (s : KState) :
    schedule (fixed_pages_oracle (decide_switch i)) s = switch_to_process s i := rfl

/-- One process life, from a state of a counted run in which only the idle process lives:
the run has one more successful creation and slot 1 is free again. -/
theorem process_life_counted (s : KState) (g : Nat)
    (hs : CountedRun demo_cfg s g) (hi : idle_only s) :
    CountedRun demo_cfg (process_life demo_cfg s) (g + 1) ∧
    idle_only (process_life demo_cfg s) := by
  obtain ⟨h0, hp, h1, hcur⟩ := hi
  obtain ⟨s1, hc, -, hz, hc1⟩ :=
    process_create_fixed_pages demo_cfg (by decide) decide_continue s [116] 0 0 h0 h1
  have hr1 := CountedRun.create _ _ _ _ s s1 1 g hs hc
  have hne1 : s1.current_process ≠ some 1 := by rw [hc1]; exact hcur
  -- the policy switches to the new process
  have hr2 := CountedRun.schedule (fixed_pages_oracle (decide_switch 1)) s1 (g + 1) hr1
    (fun _ => Or.inl rfl)
  rw [schedule_fixed_switch] at hr2
  have hcur2 : (switch_to_process s1 1).current_process = some 1 :=
    switch_to_process_current s1 1
  have hst2 : ((switch_to_process s1 1).process_table 0).state ≠ PROCESS_STATE_UNUSED := by
    rw [switch_to_process_state s1 1 0 hne1]
    simp only [show (0 : Nat) ≠ 1 by decide, if_false]
    split_ifs
    · exact fun e => process_state_t.noConfusion e
    · rw [hz]; exact h0
  have hpid2 : ((switch_to_process s1 1).process_table 0).pid = 1 := by
    rw [(switch_to_process_frame s1 1 0).1, hz]; exact hp
  -- the process exits, the policy switching to the idle process
  have hrel := process_exit_release_eq (fixed_pages_oracle (decide_switch 0))
    (switch_to_process s1 1) 1 0 (hr2.counter_invariant.2.2.2 1)
  have hexit : process_exit (fixed_pages_oracle (decide_switch 0)) (switch_to_process s1 1) 0
      = some (switch_to_process
          (process_exit_release (fixed_pages_oracle (decide_switch 0))
            (switch_to_process s1 1) 1 0) 0) := by
    unfold process_exit
    rw [hcur2]
    rfl
  have hr3 := CountedRun.exit (fixed_pages_oracle (decide_switch 0)) 0 _ _ (g + 1) hr2
    (fun _ => Or.inl rfl) hexit
  have hcurt : (process_exit_release (fixed_pages_oracle (decide_switch 0))
      (switch_to_process s1 1) 1 0).current_process ≠ some 0 := by
    rw [hrel]
    simp only [KState.update_pcb, hcur2]
    exact fun e => absurd (Option.some.inj e) (by decide)
  have ht0 : (process_exit_release (fixed_pages_oracle (decide_switch 0))
      (switch_to_process s1 1) 1 0).process_table 0 = (switch_to_process s1 1).process_table 0 := by
    rw [hrel]
    simp [KState.update_pcb]
  have hst3 := switch_to_process_state _ 0 0 hcurt
  simp only [if_true] at hst3
  have hpid3 := (switch_to_process_frame (process_exit_release
    (fixed_pages_oracle (decide_switch 0)) (switch_to_process s1 1) 1 0) 0 0).1
  rw [ht0, hpid2] at hpid3
  have hcur3 := switch_to_process_current (process_exit_release
    (fixed_pages_oracle (decide_switch 0)) (switch_to_process s1 1) 1 0) 0
  -- the PCB is reaped
  have hr4 := CountedRun.destroy _ 1 (g + 1) hr3
  have hlife : process_life demo_cfg s
      = process_destroy (switch_to_process
          (process_exit_release (fixed_pages_oracle (decide_switch 0))
            (switch_to_process s1 1) 1 0) 0) 1 := by
    unfold process_life
    rw [hc]
    simp only [schedule_fixed_switch, hexit]
  rw [hlife]
  refine ⟨hr4, ?_, ?_, ?_, ?_⟩
  · simp only [process_destroy, remove_from_ready_queue, KState.update_pcb,
      show (0 : Nat) ≠ 1 by decide, if_false, hst3]
    exact fun e => process_state_t.noConfusion e
  · simp only [process_destroy, remove_from_ready_queue, KState.update_pcb,
      show (0 : Nat) ≠ 1 by decide, if_false, hpid3]
  · simp only [process_destroy, remove_from_ready_queue, KState.update_pcb, if_true]
  · simp only [process_destroy, remove_from_ready_queue, KState.update_pcb, hcur3]
    exact fun e => absurd (Option.some.inj e) (by decide)

theorem process_lives_counted (s : KState) (g : Nat)
    (hs : CountedRun demo_cfg s g) (hi : idle_only s) (k : Nat) :
    CountedRun demo_cfg (process_lives demo_cfg k s) (g + k) ∧
    idle_only (process_lives demo_cfg k s) := by
  induction k with
  | zero => exact ⟨hs, hi⟩
  | succ k ih => exact process_life_counted _ (g + k) ih.1 ih.2

theorem process_init_counted (cfg : ProcConfig) (o : ProcOracle) (idle : Nat) (m : MemState)
    (s : KState)
    (h : process_init cfg o idle [] (kernel_boot_state m) = some (Outcome.returned s ())) :
    CountedRun cfg s 2 := by
  unfold process_init create_idle_process at h
  cases hc : process_create cfg o (process_init_clear (kernel_boot_state m))
      [105, 100, 108, 101] idle 0 with
  | halted sh => rw [hc] at h; simp at h
  | returned s1 r =>
    rw [hc] at h
    cases r with
    | none => simp at h
    | some i =>
      simp only [create_kernel_threads, Option.some.injEq, Outcome.returned.injEq,
        and_true] at h
      rw [← h]
      exact CountedRun.system_flag s1 i 2
        (CountedRun.create o _ idle 0 _ s1 i 1 (CountedRun.boot m) hc)

theorem demo_boot_counted : CountedRun demo_cfg demo_boot 2 ∧ idle_only demo_boot :=
  ⟨process_init_counted demo_cfg (demo_oracle 1040 decide_continue) 0 (small_mem 16) demo_boot
    (eq_started_state _ _ (by decide)), by decide, by decide, by decide, by decide⟩

/-- Witness of C10 (amended): the creation of a second process after boot gets pid 2. -/
theorem process_create_pid_fresh_witness :
    CountedRun demo_cfg demo_boot 2 ∧ (2 : Nat) < 2 ^ 32 ∧
    ∃ s1, process_create demo_cfg (demo_oracle 1040 decide_continue) demo_boot [97] 4096 5
        = Outcome.returned s1 (some 1) ∧
      (s1.process_table 1).pid = 2 ∧
      ∀ j, j ≠ 1 → (s1.process_table j).pid ≠ (s1.process_table 1).pid := by
  obtain ⟨r, h⟩ := Outcome.eq_returned_state
    (process_create demo_cfg (demo_oracle 1040 decide_continue) demo_boot [97] 4096 5) (by decide)
  have hv : (process_create demo_cfg (demo_oracle 1040 decide_continue) demo_boot [97] 4096
      5).value = some (some 1) := by decide
  rw [h] at hv
  simp only [Outcome.value, Option.some.injEq] at hv
  rw [hv] at h
  have := process_create_pid_fresh demo_cfg demo_boot 2 demo_boot_counted.1 (by norm_num)
    (demo_oracle 1040 decide_continue) [97] 4096 5 _ 1 h
  exact ⟨demo_boot_counted.1, by norm_num, _, h, this.1, this.2.2.1⟩

/-- Claim C10 fails as stated: from the state `process_init` leaves, 2^32 - 2 processes are
created, run, exit and are reaped one after the other (the slot is reused); `next_pid`, a
32-bit counter, is then 0 and the next `process_create` returns a PCB with pid 0.  After one
more process life the next `process_create` returns a PCB with pid 1, the pid of the idle
process, which is still in the table and not UNUSED. -/
theorem process_create_pid_wraps :
    ProcReachable demo_cfg demo_boot ∧
    CountedRun demo_cfg (process_lives demo_cfg (2 ^ 32 - 2) demo_boot) (2 ^ 32) ∧
    (∃ s1, process_create demo_cfg (fixed_pages_oracle decide_continue)
        (process_lives demo_cfg (2 ^ 32 - 2) demo_boot) [97] 4096 5
        = Outcome.returned s1 (some 1) ∧
      (s1.process_table 1).pid = 0) ∧
    (∃ s2, process_create demo_cfg (fixed_pages_oracle decide_continue)
        (process_lives demo_cfg (2 ^ 32 - 1) demo_boot) [97] 4096 5
        = Outcome.returned s2 (some 1) ∧
      (s2.process_table 1).pid = 1 ∧
      (s2.process_table 0).pid = 1 ∧
      (s2.process_table 0).state ≠ PROCESS_STATE_UNUSED) := by
  obtain ⟨ha, hb⟩ := process_lives_counted demo_boot 2 demo_boot_counted.1
    demo_boot_counted.2 (2 ^ 32 - 2)
  obtain ⟨hc, hd⟩ := process_lives_counted demo_boot 2 demo_boot_counted.1
    demo_boot_counted.2 (2 ^ 32 - 1)
  have e1 : 2 + (2 ^ 32 - 2) = 2 ^ 32 := by norm_num
  have e2 : 2 + (2 ^ 32 - 1) = 2 ^ 32 + 1 := by norm_num
  rw [e1] at ha
  rw [e2] at hc
  refine ⟨demo_boot_reachable, ha, ?_, ?_⟩
  · obtain ⟨s1, h1, h2, -, -⟩ := process_create_fixed_pages demo_cfg (by decide)
      decide_continue _ [97] 4096 5 hb.1 hb.2.2.1
    refine ⟨s1, h1, ?_⟩
    rw [h2, ha.counter_invariant.2.1]
    exact Nat.mod_self _
  · obtain ⟨s2, h1, h2, h3, -⟩ := process_create_fixed_pages demo_cfg (by decide)
      decide_continue _ [97] 4096 5 hd.1 hd.2.2.1
    refine ⟨s2, h1, ?_, by rw [h3]; exact hd.2.1, by rw [h3]; exact hd.1⟩
    rw [h2, hc.counter_invariant.2.1]
    norm_num

/-! ## The calls one allocation makes -/

theorem compact_smart_loop_events (o : MemOracle) :
    ∀ (moves : List page_move_t) (bm : Nat → Nat) (k : Nat) (ev : List MemEvent),
      (compact_smart_loop o moves (bm, k, ev)).2.2 = ev ++ move_page_calls o moves bm := by
  intro moves
  induction moves with
  | nil => intro bm k ev; simp [compact_smart_loop, move_page_calls]
  | cons mv rest ih =>
    intro bm k ev
    simp only [compact_smart_loop, move_page_calls]
    rw [ih]
    simp

theorem compact_smart_loop_count (o : MemOracle) :
    ∀ (moves : List page_move_t) (bm : Nat → Nat) (k : Nat) (ev : List MemEvent),
      k < 2 ^ 32 →
      (compact_smart_loop o moves (bm, k, ev)).2.1
        = (k + (move_page_calls o moves bm).countP MemEvent.is_done_move) % 2 ^ 32 := by
  intro moves
  induction moves with
  | nil =>
    intro bm k ev hk
    simp only [compact_smart_loop, move_page_calls, List.countP_nil, Nat.add_zero]
    exact (Nat.mod_eq_of_lt hk).symm
  | cons mv rest ih =>
    intro bm k ev hk
    simp only [compact_smart_loop, move_page_calls, List.countP_cons]
    cases hm : (o.move_page bm mv.from_ mv.to_).2 with
    | true =>
      simp only [if_true, MemEvent.is_done_move]
      rw [ih _ _ _ (Nat.mod_lt _ (by norm_num))]
      omega
    | false =>
      simp only [MemEvent.is_done_move, Bool.false_eq_true, if_false]
      rw [ih _ _ _ hk]
      simp

theorem move_page_calls_moves (o : MemOracle) :
    ∀ (moves : List page_move_t) (bm : Nat → Nat),
      (move_page_calls o moves bm).map MemEvent.move_of = moves.map some := by
  intro moves
  induction moves with
  | nil => intro bm; rfl
  | cons mv rest ih =>
    intro bm
    simp only [move_page_calls, List.map_cons, ih, MemEvent.move_of]

theorem move_page_calls_no_search (o : MemOracle) :
    ∀ (moves : List page_move_t) (bm : Nat → Nat),
      (move_page_calls o moves bm).countP MemEvent.is_search = 0 ∧
      (move_page_calls o moves bm).countP MemEvent.is_compaction = 0 := by
  intro moves
  induction moves with
  | nil => intro bm; simp [move_page_calls]
  | cons mv rest ih =>
    intro bm
    simp only [move_page_calls, List.countP_cons, MemEvent.is_search, MemEvent.is_compaction]
    simp [ih]

theorem compact_memory_trace (o : MemOracle) (s : MemState) :
    (compact_memory o s).1.trace
      = s.trace ++ compaction_calls o s
          ++ [MemEvent.compact_memory (compact_memory_moved o s).2] := by
  unfold compact_memory compaction_calls
  simp only
  congr 1
  unfold compact_memory_moved
  simp only
  generalize o.get_compaction_strategy s = st
  by_cases h0 : st = COMPACT_AGGRESSIVE
  · subst h0; simp [COMPACT_AGGRESSIVE, COMPACT_SMART]
  · by_cases h1 : st = COMPACT_LAZY
    · subst h1; simp [COMPACT_AGGRESSIVE, COMPACT_LAZY, COMPACT_SMART]
    · by_cases h2 : st = COMPACT_SMART
      · simp only [h0, h1, h2, if_false, if_true, compact_smart]
        rw [compact_smart_loop_events]
        simp [COMPACT_AGGRESSIVE, COMPACT_LAZY, COMPACT_SMART]
      · simp [h0, h1, h2]

theorem compaction_calls_no_search (o : MemOracle) (s : MemState) :
    (compaction_calls o s).countP MemEvent.is_search = 0 ∧
    (compaction_calls o s).countP MemEvent.is_compaction = 0 := by
  unfold compaction_calls
  split_ifs
  · exact move_page_calls_no_search o _ _
  · simp

/-- The events one call of `pmm_alloc_pages` appends to the trace. -/
theorem pmm_alloc_pages_trace (o : MemOracle) (s : MemState) (n : Nat) :
    (pmm_alloc_pages o s n).state.trace =
      s.trace ++
        (if (find_free_pages o s n (o.predict_allocation n)).2 = INVALID_PAGE then
          [MemEvent.find_free_pages n INVALID_PAGE] ++
            compaction_calls o (find_free_pages o s n (o.predict_allocation n)).1 ++
            [MemEvent.compact_memory
              (compact_memory_moved o (find_free_pages o s n (o.predict_allocation n)).1).2] ++
            (if (compact_memory o (find_free_pages o s n (o.predict_allocation n)).1).2 = true then
              [MemEvent.find_free_pages n
                (find_free_pages o
                  (compact_memory o (find_free_pages o s n (o.predict_allocation n)).1).1 n
                  (o.predict_allocation n)).2] ++
              (if (find_free_pages o
                  (compact_memory o (find_free_pages o s n (o.predict_allocation n)).1).1 n
                  (o.predict_allocation n)).2 = INVALID_PAGE then [MemEvent.kernel_panic]
               else [])
            else [MemEvent.kernel_panic])
        else [MemEvent.find_free_pages n (find_free_pages o s n (o.predict_allocation n)).2]) := by
  unfold pmm_alloc_pages
  simp only
  by_cases h1 : (find_free_pages o s n (o.predict_allocation n)).2 = INVALID_PAGE
  · simp only [h1, if_true]
    have hs1 : (find_free_pages o s n (o.predict_allocation n)).1.trace
        = s.trace ++ [MemEvent.find_free_pages n INVALID_PAGE] := by
      rw [← h1]; rfl
    by_cases h2 : (compact_memory o (find_free_pages o s n (o.predict_allocation n)).1).2 = true
    · simp only [h2, if_true]
      by_cases h3 : (find_free_pages o
          (compact_memory o (find_free_pages o s n (o.predict_allocation n)).1).1 n
          (o.predict_allocation n)).2 = INVALID_PAGE
      · simp only [h3, if_true, Outcome.state, kernel_panic]
        have : (find_free_pages o
            (compact_memory o (find_free_pages o s n (o.predict_allocation n)).1).1 n
            (o.predict_allocation n)).1.trace
            = (compact_memory o (find_free_pages o s n (o.predict_allocation n)).1).1.trace
              ++ [MemEvent.find_free_pages n INVALID_PAGE] := by
          rw [← h3]; rfl
        rw [this, compact_memory_trace, hs1]
        simp
      · simp only [h3, if_false, Outcome.state, pmm_alloc_commit]
        have : (find_free_pages o
            (compact_memory o (find_free_pages o s n (o.predict_allocation n)).1).1 n
            (o.predict_allocation n)).1.trace
            = (compact_memory o (find_free_pages o s n (o.predict_allocation n)).1).1.trace
              ++ [MemEvent.find_free_pages n (find_free_pages o
                (compact_memory o (find_free_pages o s n (o.predict_allocation n)).1).1 n
                (o.predict_allocation n)).2] := rfl
        rw [this, compact_memory_trace, hs1]
        simp
    · simp only [h2, Outcome.state, kernel_panic]
      rw [compact_memory_trace, hs1]
      simp
  · simp only [h1, if_false, Outcome.state, pmm_alloc_commit]
    rfl

/-! ## Claims about hints, compaction and retries -/

theorem compact_smart_loop_congr (o o1 : MemOracle) (h : o1.move_page = o.move_page) :
    ∀ (moves : List page_move_t) (acc : (Nat → Nat) × Nat × List MemEvent),
      compact_smart_loop o1 moves acc = compact_smart_loop o moves acc := by
  intro moves
  induction moves with
  | nil => intro acc; rfl
  | cons mv rest ih =>
    rintro ⟨bm, k, ev⟩
    simp only [compact_smart_loop, h, ih]

theorem compact_memory_search_free (o : MemOracle)
    (f : MemState → Nat → allocation_hint_t → Nat) (s : MemState) :
    compact_memory { o with find_free_pages := f } s = compact_memory o s := by
  have h1 : compact_smart { o with find_free_pages := f } s = compact_smart o s := by
    unfold compact_smart
    simp only [compact_smart_loop_congr o { o with find_free_pages := f } rfl]
  have h2 : compact_memory_moved { o with find_free_pages := f } s
      = compact_memory_moved o s := by
    unfold compact_memory_moved
    simp only [h1]
  unfold compact_memory
  simp only [h2]

/-- Claim C13, amended: `pmm_alloc_pages` hands the hint returned by `predict_allocation` to
`find_free_pages` as it is, on the first search and on the search after compaction; no field
is checked or replaced.  The call depends on the search only through the answers the search
gives for that hint: changing the search on every other hint changes nothing. -/
theorem pmm_alloc_pages_uses_raw_hint (o : MemOracle)
    (f : MemState → Nat → allocation_hint_t → Nat) (s : MemState) (n : Nat)
    (hf : ∀ t, f t n (o.predict_allocation n) = o.find_free_pages t n (o.predict_allocation n)) :
    pmm_alloc_pages { o with find_free_pages := f } s n = pmm_alloc_pages o s n := by
  unfold pmm_alloc_pages find_free_pages
  simp only [hf, compact_memory_search_free]

/-- Witness of C13 (amended): a search that answers only the policy's hint (zone 0,
alignment 3) gives the same call as the zone search. -/
theorem pmm_alloc_pages_uses_raw_hint_witness :
    (∀ t, picky_search t 1 ((zone_oracle ⟨0, 3, true, false⟩).predict_allocation 1)
      = (zone_oracle ⟨0, 3, true, false⟩).find_free_pages t 1
          ((zone_oracle ⟨0, 3, true, false⟩).predict_allocation 1)) ∧
    pmm_alloc_pages { zone_oracle ⟨0, 3, true, false⟩ with find_free_pages := picky_search }
      (small_mem 4) 1
    = pmm_alloc_pages (zone_oracle ⟨0, 3, true, false⟩) (small_mem 4) 1 :=
  ⟨fun _ => rfl,
    pmm_alloc_pages_uses_raw_hint (zone_oracle ⟨0, 3, true, false⟩) picky_search (small_mem 4) 1
      (fun _ => rfl)⟩

/-- Claim C13 fails as stated: with one zone, the policy returns the hint with
`preferred_zone = 7` and `alignment = 3`.  A search of the validated hint (zone 0, alignment
`PAGE_SIZE`) finds page 1024; the search `pmm_alloc_pages` makes gets zone 7, finds nothing,
and the call ends in `kernel_panic`. -/
theorem pmm_alloc_pages_passes_bad_hint :
    (small_mem 4).num_memory_zones = 1 ∧
    ((zone_oracle ⟨7, 3, true, false⟩).predict_allocation 1).preferred_zone = 7 ∧
    ((zone_oracle ⟨7, 3, true, false⟩).predict_allocation 1).alignment = 3 ∧
    (zone_oracle ⟨7, 3, true, false⟩).find_free_pages (small_mem 4) 1
        ⟨0, PAGE_SIZE, true, false⟩
      = 1024 ∧
    (zone_oracle ⟨7, 3, true, false⟩).find_free_pages (small_mem 4) 1 ⟨7, 3, true, false⟩
      = INVALID_PAGE ∧
    (pmm_alloc_pages (zone_oracle ⟨7, 3, true, false⟩) (small_mem 4) 1).state.trace
      = [MemEvent.find_free_pages 1 INVALID_PAGE, MemEvent.compact_memory 0,
          MemEvent.kernel_panic] := by
  decide

/-- Claim C14, amended: `compact_smart` hands every move of the list `predict_moves` returns to
`move_page`, in order and without looking at the bitmap, and `pages_moved` is the number of
those calls that `move_page` reported as done (modulo 2^32).  Whether a move is skipped is
decided inside `move_page`. -/
theorem compact_smart_hands_over_every_move (o : MemOracle) (s : MemState) :
    (compact_smart o s).1.trace
      = s.trace ++ move_page_calls o
          (o.predict_moves (o.analyze_fragmentation s.memory_bitmap)) s.memory_bitmap ∧
    (move_page_calls o (o.predict_moves (o.analyze_fragmentation s.memory_bitmap))
        s.memory_bitmap).map MemEvent.move_of
      = (o.predict_moves (o.analyze_fragmentation s.memory_bitmap)).map some ∧
    (compact_smart o s).2
      = (move_page_calls o (o.predict_moves (o.analyze_fragmentation s.memory_bitmap))
          s.memory_bitmap).countP MemEvent.is_done_move % 2 ^ 32 := by
  refine ⟨?_, move_page_calls_moves o _ _, ?_⟩
  · unfold compact_smart
    simp only
    rw [compact_smart_loop_events]
    simp
  · unfold compact_smart
    simp only
    rw [compact_smart_loop_count o _ _ 0 [] (by norm_num)]
    simp

/-- Claim C14 fails as stated: page 1025 is free, so the move from 1025 to 1027 has no used
source.  `compact_smart` calls `move_page` for it all the same: with a `move_page` that does
not check, the move is executed (page 1027 becomes used) and counted; with one that checks,
the call is still made and answered `false`. -/
theorem compact_smart_runs_invalid_move :
    is_page_free fragmented_mem.memory_bitmap 1025 = true ∧
    is_page_free fragmented_mem.memory_bitmap 1027 = true ∧
    (compact_smart (blind_oracle [⟨1025, 1027⟩]) fragmented_mem).2 = 1 ∧
    is_page_free
        (compact_smart (blind_oracle [⟨1025, 1027⟩]) fragmented_mem).1.memory_bitmap 1027
      = false ∧
    (compact_smart (first_fit_oracle 1024 1028 [⟨1025, 1027⟩]) fragmented_mem).1.trace.getLast?
      = some (MemEvent.move_page 1025 1027 false) := by
  decide

/-- Claim C15, amended: within one `pmm_alloc_pages` call, `compact_memory` is not invoked
when the first search succeeds (one search in all); when the first search fails,
`compact_memory` is invoked exactly once, and the search is repeated once if `compact_memory`
reports a moved page and not at all otherwise.  So there are at most one compaction and two
searches. -/
theorem pmm_alloc_pages_call_counts (o : MemOracle) (s : MemState) (n : Nat) :
    ∃ calls, (pmm_alloc_pages o s n).state.trace = s.trace ++ calls ∧
      ((find_free_pages o s n (o.predict_allocation n)).2 ≠ INVALID_PAGE →
        calls.countP MemEvent.is_compaction = 0 ∧ calls.countP MemEvent.is_search = 1) ∧
      ((find_free_pages o s n (o.predict_allocation n)).2 = INVALID_PAGE →
        calls.countP MemEvent.is_compaction = 1 ∧
        calls.countP MemEvent.is_search
          = if (compact_memory o (find_free_pages o s n (o.predict_allocation n)).1).2 = true
            then 2 else 1) := by
  refine ⟨_, pmm_alloc_pages_trace o s n, ?_, ?_⟩
  · intro h
    simp [h, MemEvent.is_compaction, MemEvent.is_search]
  · intro h
    have hc := compaction_calls_no_search o (find_free_pages o s n (o.predict_allocation n)).1
    simp only [h, if_true, List.countP_append, hc.1, hc.2]
    by_cases h2 : (compact_memory o (find_free_pages o s n (o.predict_allocation n)).1).2 = true
    · simp only [h2, if_true]
      by_cases h3 : (find_free_pages o
          (compact_memory o (find_free_pages o s n (o.predict_allocation n)).1).1 n
          (o.predict_allocation n)).2 = INVALID_PAGE
      · simp [h3, MemEvent.is_compaction, MemEvent.is_search]
      · simp [h3, MemEvent.is_compaction, MemEvent.is_search]
    · simp [h2, MemEvent.is_compaction, MemEvent.is_search]

/-- Witness of C15 (amended): a call that compacts once and searches twice. -/
theorem pmm_alloc_pages_call_counts_witness :
    ∃ calls, (pmm_alloc_pages relocating_oracle fragmented_mem 2).state.trace
        = fragmented_mem.trace ++ calls ∧
      calls.countP MemEvent.is_compaction = 1 ∧ calls.countP MemEvent.is_search = 2 := by
  obtain ⟨calls, h1, -, h3⟩ := pmm_alloc_pages_call_counts relocating_oracle fragmented_mem 2
  have h := h3 (by decide)
  refine ⟨calls, h1, h.1, ?_⟩
  rw [h.2]
  decide

/-- Claim C15 fails as stated: the first search for two pages fails, compaction moves no page,
and the search is not repeated: the call makes one search, one compaction, and halts. -/
theorem pmm_alloc_pages_no_second_search :
    (find_free_pages (static_oracle 1024 1028) fragmented_mem 2
      ((static_oracle 1024 1028).predict_allocation 2)).2 = INVALID_PAGE ∧
    (pmm_alloc_pages (static_oracle 1024 1028) fragmented_mem 2).state.trace.drop
        fragmented_mem.trace.length
      = [MemEvent.find_free_pages 2 INVALID_PAGE, MemEvent.compact_memory 0,
          MemEvent.kernel_panic] ∧
    ((pmm_alloc_pages (static_oracle 1024 1028) fragmented_mem 2).state.trace.drop
        fragmented_mem.trace.length).countP MemEvent.is_search = 1 := by
  decide

theorem getLast?_append_one {α : Type} (l : List α) (x : α) :
    (l ++ [x]).getLast? = some x := by simp

/-- Claim C16, amended: whenever the first search fails, whatever the number of pages asked,
`pmm_alloc_pages` invokes `compact_memory` (the call is among those it appends to the
trace); and if the call then does not return, the last thing it did is `kernel_panic`. -/
theorem pmm_alloc_pages_compacts_on_any_failure (o : MemOracle) (s : MemState) (n : Nat)
    (h : (find_free_pages o s n (o.predict_allocation n)).2 = INVALID_PAGE) :
    ∃ calls, (pmm_alloc_pages o s n).state.trace = s.trace ++ calls ∧
      MemEvent.compact_memory
          (compact_memory_moved o (find_free_pages o s n (o.predict_allocation n)).1).2
        ∈ calls ∧
      ((pmm_alloc_pages o s n).is_returned = false →
        calls.getLast? = some MemEvent.kernel_panic) := by
  refine ⟨_, pmm_alloc_pages_trace o s n, ?_, ?_⟩
  · simp [h]
  · intro hr
    simp only [h, if_true]
    by_cases h2 : (compact_memory o (find_free_pages o s n (o.predict_allocation n)).1).2 = true
    · by_cases h3 : (find_free_pages o
          (compact_memory o (find_free_pages o s n (o.predict_allocation n)).1).1 n
          (o.predict_allocation n)).2 = INVALID_PAGE
      · simp only [h2, h3, if_true, ← List.append_assoc]
        exact getLast?_append_one _ _
      · exfalso
        have hret : (pmm_alloc_pages o s n).is_returned = true := by
          unfold pmm_alloc_pages
          simp [h, h2, h3, pmm_alloc_commit, Outcome.is_returned]
        rw [hret] at hr
        exact Bool.noConfusion hr
    · simp only [h2, ← List.append_assoc]
      exact getLast?_append_one _ _

/-- Witness of C16 (amended): five pages asked of a machine whose only zone has four. -/
theorem pmm_alloc_pages_compacts_on_any_failure_witness :
    (find_free_pages (static_oracle 1024 1028) (small_mem 4) 5
      ((static_oracle 1024 1028).predict_allocation 5)).2 = INVALID_PAGE ∧
    ∃ calls, (pmm_alloc_pages (static_oracle 1024 1028) (small_mem 4) 5).state.trace
        = (small_mem 4).trace ++ calls ∧
      MemEvent.compact_memory 0 ∈ calls ∧
      calls.getLast? = some MemEvent.kernel_panic := by
  obtain ⟨calls, h1, h2, h3⟩ := pmm_alloc_pages_compacts_on_any_failure
    (static_oracle 1024 1028) (small_mem 4) 5 (by decide)
  exact ⟨by decide, calls, h1, h2, h3 (by decide)⟩

/-- Claim C16 fails as stated: the only zone has four pages and five are asked; the call
invokes `compact_memory` and then halts in `kernel_panic` instead of returning. -/
theorem pmm_alloc_pages_compacts_when_exhausted :
    ((small_mem 4).memory_zones 0).size / PAGE_SIZE = 4 ∧
    (small_mem 4).num_memory_zones = 1 ∧
    (pmm_alloc_pages (static_oracle 1024 1028) (small_mem 4) 5).is_returned = false ∧
    (pmm_alloc_pages (static_oracle 1024 1028) (small_mem 4) 5).state.trace
      = [MemEvent.find_free_pages 5 INVALID_PAGE, MemEvent.compact_memory 0,
          MemEvent.kernel_panic] := by
  decide

/-! ## The bitmap after a call -/

theorem is_page_free_eq_of_iff {a b : Bool} (h : a = true ↔ b = true) : a = b := by
  cases a <;> cases b <;> simp_all

theorem mark_pages_used_frame (bm : Nat → Nat) (start n : Nat) :
    (∀ i, i < n → is_page_free (mark_pages_used bm start n) ((start + i) % 2 ^ 32) = false) ∧
    (∀ q, (∀ i, i < n → q ≠ (start + i) % 2 ^ 32) →
      is_page_free (mark_pages_used bm start n) q = is_page_free bm q) := by
  constructor
  · intro i hi
    rw [Bool.eq_false_iff, Ne, is_page_free_mark_pages_used]
    exact fun h => h.2 i hi rfl
  · intro q hq
    apply is_page_free_eq_of_iff
    rw [is_page_free_mark_pages_used]
    exact ⟨fun h => h.1, fun h => ⟨h, hq⟩⟩

theorem mark_pages_free_frame (bm : Nat → Nat) (start n : Nat) :
    (∀ i, i < n → is_page_free (mark_pages_free bm start n) ((start + i) % 2 ^ 32) = true) ∧
    (∀ q, (∀ i, i < n → q ≠ (start + i) % 2 ^ 32) →
      is_page_free (mark_pages_free bm start n) q = is_page_free bm q) := by
  constructor
  · intro i hi
    rw [is_page_free_mark_pages_free]
    exact Or.inr ⟨i, hi, rfl⟩
  · intro q hq
    apply is_page_free_eq_of_iff
    rw [is_page_free_mark_pages_free]
    constructor
    · rintro (h | ⟨i, hi, h⟩)
      · exact h
      · exact absurd h (hq i hi)
    · exact fun h => Or.inl h

/-- Claim C17, amended: for every 32-bit address `addr` and count `n`, with a
`coalesce_free_blocks` that leaves the bitmap alone, after `pmm_free_pages(addr, n)` each
page `addr / PAGE_SIZE + i` with `i < n` (a 32-bit page number) is reported free and
`is_page_free` is unchanged for every other page.  A `pmm_alloc_pages(n)` that returns has
marked used exactly the `n` pages from the start page the search returned, the returned
address being that start page times `PAGE_SIZE` in 32 bits; every other page is as in the
bitmap the search ran on, which is the bitmap before the call when the first search
succeeds and the bitmap compaction left otherwise. -/
theorem pmm_bitmap_frame (o : MemOracle) (s : MemState) (n : Nat) :
    (∀ addr, addr < 2 ^ 32 → (∀ bm a b, o.coalesce_free_blocks bm a b = bm) →
      (∀ i, i < n →
        is_page_free (pmm_free_pages o s addr n).memory_bitmap ((addr / PAGE_SIZE + i) % 2 ^ 32)
          = true) ∧
      (∀ q, (∀ i, i < n → q ≠ (addr / PAGE_SIZE + i) % 2 ^ 32) →
        is_page_free (pmm_free_pages o s addr n).memory_bitmap q
          = is_page_free s.memory_bitmap q)) ∧
    (∀ s1 addr, pmm_alloc_pages o s n = Outcome.returned s1 addr →
      ∃ (sf : MemState) (start : Nat),
        (sf = s ∨
          sf = (compact_memory o (find_free_pages o s n (o.predict_allocation n)).1).1) ∧
        ((find_free_pages o s n (o.predict_allocation n)).2 ≠ INVALID_PAGE → sf = s) ∧
        start = o.find_free_pages sf n (o.predict_allocation n) % 2 ^ 32 ∧
        addr = (start * PAGE_SIZE) % 2 ^ 32 ∧
        (∀ i, i < n → is_page_free s1.memory_bitmap ((start + i) % 2 ^ 32) = false) ∧
        (∀ q, (∀ i, i < n → q ≠ (start + i) % 2 ^ 32) →
          is_page_free s1.memory_bitmap q = is_page_free sf.memory_bitmap q)) := by
  constructor
  · intro addr haddr hco
    have hbm : (pmm_free_pages o s addr n).memory_bitmap
        = mark_pages_free s.memory_bitmap (addr / PAGE_SIZE) n := by
      unfold pmm_free_pages
      simp only [hco, Nat.mod_eq_of_lt haddr]
    rw [hbm]
    exact mark_pages_free_frame _ _ _
  · intro s1 addr h
    unfold pmm_alloc_pages at h
    simp only at h
    by_cases h1 : (find_free_pages o s n (o.predict_allocation n)).2 = INVALID_PAGE
    · simp only [h1, if_true] at h
      split_ifs at h with h2 h3
      unfold pmm_alloc_commit at h
      simp only [Outcome.returned.injEq] at h
      obtain ⟨hs1, ha⟩ := h
      refine ⟨(compact_memory o (find_free_pages o s n (o.predict_allocation n)).1).1, _,
        Or.inr rfl, fun hne => absurd h1 hne, rfl, ha.symm, ?_⟩
      rw [← hs1]
      exact mark_pages_used_frame _ _ _
    · simp only [h1, if_false] at h
      unfold pmm_alloc_commit at h
      simp only [Outcome.returned.injEq] at h
      obtain ⟨hs1, ha⟩ := h
      refine ⟨s, _, Or.inl rfl, fun _ => rfl, rfl, ha.symm, ?_⟩
      rw [← hs1]
      exact mark_pages_used_frame _ _ _

/-- Witness of C17 (amended): page 1025 freed on the four-page machine. -/
theorem pmm_bitmap_frame_witness :
    (1025 * PAGE_SIZE < 2 ^ 32) ∧
    (∀ bm a b, (static_oracle 1024 1028).coalesce_free_blocks bm a b = bm) ∧
    is_page_free
      (pmm_free_pages (static_oracle 1024 1028) (small_mem 4) (1025 * PAGE_SIZE) 1).memory_bitmap
      ((1025 * PAGE_SIZE / PAGE_SIZE + 0) % 2 ^ 32) = true ∧
    is_page_free
      (pmm_free_pages (static_oracle 1024 1028) (small_mem 4) (1025 * PAGE_SIZE) 1).memory_bitmap
      1000 = is_page_free (small_mem 4).memory_bitmap 1000 :=
  ⟨by decide, fun _ _ _ => rfl,
    ((pmm_bitmap_frame (static_oracle 1024 1028) (small_mem 4) 1).1 (1025 * PAGE_SIZE)
      (by decide) (fun _ _ _ => rfl)).1 0 (by decide),
    ((pmm_bitmap_frame (static_oracle 1024 1028) (small_mem 4) 1).1 (1025 * PAGE_SIZE)
      (by decide) (fun _ _ _ => rfl)).2 1000 (by decide)⟩

/-- Claim C17 fails as stated: the call returns the two pages from page 1026, and page 1025,
outside that range and free before the call, is in use after it: compaction moved a page
there. -/
theorem pmm_alloc_pages_changes_other_bits :
    (pmm_alloc_pages relocating_oracle fragmented_mem 2).value = some (1026 * PAGE_SIZE) ∧
    is_page_free fragmented_mem.memory_bitmap 1025 = true ∧
    is_page_free (pmm_alloc_pages relocating_oracle fragmented_mem 2).state.memory_bitmap 1025
      = false := by
  decide





/-! ## Claims about process exit and switching -/

theorem switch_to_process_extra (s : KState) (next j : Nat) :
    ((switch_to_process s next).process_table j).exit_code = (s.process_table j).exit_code ∧
    (s.current_process ≠ some next →
      (switch_to_process s next).switches = s.switches ++ [(s.current_process, next)]) := by
  unfold switch_to_process
  split_ifs with h
  · exact ⟨rfl, fun hne => absurd h hne⟩
  · cases hc : s.current_process with
    | none =>
      simp only [KState.update_pcb, remove_from_ready_queue]
      by_cases hj : j = next <;> simp [hj]
    | some p =>
      have hp : p ≠ next := fun e => h (by rw [hc, e])
      by_cases hr : (s.process_table p).state = PROCESS_STATE_RUNNING
      · simp only [KState.update_pcb, remove_from_ready_queue, add_to_ready_queue, hr, if_true]
        by_cases hj : j = next
        · subst hj; simp [hp, Ne.symm hp]
        · by_cases hjp : j = p
          · subst hjp; simp [hj]
          · simp [hj, hjp]
      · simp only [KState.update_pcb, remove_from_ready_queue, add_to_ready_queue, hr, if_false]
        by_cases hj : j = next
        · subst hj; simp [hp, Ne.symm hp]
        · by_cases hjp : j = p
          · subst hjp; simp [hj]
          · simp [hj, hjp]

theorem schedule_mem (o : ProcOracle) (s : KState)
    (hact : (o.make_decision s).action = SCHEDULE_SWITCH ∨
      (o.make_decision s).action = SCHEDULE_CONTINUE) :
    (schedule o s).mem = s.mem := by
  unfold schedule
  simp only
  rcases hact with h | h
  · rw [h]
    simp only
    cases (o.make_decision s).next_process with
    | none => rfl
    | some next => exact (switch_to_process_frame s next 0).2.2.2
  · rw [h]
    simp only
    cases s.current_process with
    | none => rfl
    | some c => rfl

/-- Claim C11, amended: for a SWITCH or CONTINUE decision, `process_exit` makes exactly two
calls of `pmm_free_pages`, one for the `stack_size / PAGE_SIZE` pages at the stack address of
the exiting process and one for the single page at the address of its page directory, and
none for the heap.  So (`coalesce_free_blocks` leaving the bitmap alone) the pages free
afterwards are the pages free before, the pages of the stack range and the page of the page
directory, and no other; `free_memory` grows and `used_memory` shrinks by
`(stack_size / PAGE_SIZE + 1) * PAGE_SIZE` modulo 2^32, so that, without wrap-around, the
number of free pages grows by the stack pages plus one. -/
theorem process_exit_frees_stack_and_directory (o : ProcOracle) (s : KState) (c : Nat)
    (exit_code : Int) (hc : s.current_process = some c)
    (hp : (s.process_table c).parent = none)
    (hact : (o.make_decision (process_exit_release o s c exit_code)).action = SCHEDULE_SWITCH ∨
      (o.make_decision (process_exit_release o s c exit_code)).action = SCHEDULE_CONTINUE) :
    ∃ s1, process_exit o s exit_code = some s1 ∧
      s1.mem = pmm_free_pages o.mem_second
        (pmm_free_pages o.mem_first s.mem (s.process_table c).stack
          ((s.process_table c).memory.stack_size / PAGE_SIZE))
        (s.process_table c).memory.page_directory 1 ∧
      ((∀ bm a k, o.mem_first.coalesce_free_blocks bm a k = bm) →
        (∀ bm a k, o.mem_second.coalesce_free_blocks bm a k = bm) →
        ∀ q, is_page_free s1.mem.memory_bitmap q = true ↔
          is_page_free s.mem.memory_bitmap q = true ∨
          (∃ i, i < (s.process_table c).memory.stack_size / PAGE_SIZE ∧
            q = ((s.process_table c).stack % 2 ^ 32 / PAGE_SIZE + i) % 2 ^ 32) ∨
          q = (s.process_table c).memory.page_directory % 2 ^ 32 / PAGE_SIZE) ∧
      s1.mem.free_memory
        = (s.mem.free_memory
            + ((s.process_table c).memory.stack_size / PAGE_SIZE + 1) * PAGE_SIZE) % 2 ^ 32 ∧
      (s1.mem.used_memory
            + ((s.process_table c).memory.stack_size / PAGE_SIZE + 1) * PAGE_SIZE) % 2 ^ 32
        = s.mem.used_memory % 2 ^ 32 ∧
      (s.mem.free_memory
            + ((s.process_table c).memory.stack_size / PAGE_SIZE + 1) * PAGE_SIZE < 2 ^ 32 →
        s1.mem.free_memory / PAGE_SIZE
          = s.mem.free_memory / PAGE_SIZE
            + ((s.process_table c).memory.stack_size / PAGE_SIZE + 1)) := by
  have hmem : (schedule o (process_exit_release o s c exit_code)).mem
      = pmm_free_pages o.mem_second
        (pmm_free_pages o.mem_first s.mem (s.process_table c).stack
          ((s.process_table c).memory.stack_size / PAGE_SIZE))
        (s.process_table c).memory.page_directory 1 := by
    rw [schedule_mem o _ hact, process_exit_release_eq o s c exit_code hp]
  refine ⟨schedule o (process_exit_release o s c exit_code), ?_, hmem, ?_, ?_⟩
  · unfold process_exit; rw [hc]
  · intro h1 h2 q
    rw [hmem]
    simp only [pmm_free_pages, h1, h2, is_page_free_mark_pages_free]
    have hpd : (s.process_table c).memory.page_directory % 2 ^ 32 / PAGE_SIZE < 2 ^ 32 := by
      unfold PAGE_SIZE; omega
    constructor
    · rintro ((h | h) | ⟨i, hi, h⟩)
      · exact Or.inl h
      · exact Or.inr (Or.inl h)
      · right; right
        have : i = 0 := by omega
        rw [h, this, Nat.add_zero, Nat.mod_eq_of_lt hpd]
    · rintro (h | h | h)
      · exact Or.inl (Or.inl h)
      · exact Or.inl (Or.inr h)
      · exact Or.inr ⟨0, by norm_num, by rw [h, Nat.add_zero, Nat.mod_eq_of_lt hpd]⟩
  · rw [hmem]
    simp only [pmm_free_pages]
    generalize (s.process_table c).memory.stack_size / PAGE_SIZE = k
    unfold PAGE_SIZE
    refine ⟨by omega, by omega, fun h => ?_⟩
    omega

/-- Witness of C11 (amended): the exit of the process with a 4-page stack at page 1028 and
its page directory at page 1027; the five pages 1027 .. 1031 become free, page 1024, which
the idle process holds, stays in use. -/
theorem process_exit_frees_stack_and_directory_witness :
    scenario_e.current_process = some 1 ∧
    (scenario_e.process_table 1).parent = none ∧
    (scenario_e.process_table 1).memory.stack_size / PAGE_SIZE = 4 ∧
    (scenario_e.process_table 1).stack = 1028 * PAGE_SIZE ∧
    (scenario_e.process_table 1).memory.page_directory = 1027 * PAGE_SIZE ∧
    is_page_free scenario_e.mem.memory_bitmap 1027 = false ∧
    is_page_free scenario_e.mem.memory_bitmap 1031 = false ∧
    ∃ s1, process_exit (demo_oracle 1040 decide_continue) scenario_e 0 = some s1 ∧
      is_page_free s1.mem.memory_bitmap 1027 = true ∧
      is_page_free s1.mem.memory_bitmap 1031 = true ∧
      is_page_free s1.mem.memory_bitmap 1024 = false ∧
      s1.mem.free_memory / PAGE_SIZE = scenario_e.mem.free_memory / PAGE_SIZE + 5 := by
  have hs : (scenario_e.process_table 1).memory.stack_size / PAGE_SIZE = 4 := by decide
  have hst : (scenario_e.process_table 1).stack = 1028 * PAGE_SIZE := by decide
  have hpd : (scenario_e.process_table 1).memory.page_directory = 1027 * PAGE_SIZE := by decide
  obtain ⟨s1, h1, -, hb, -, -, h4⟩ := process_exit_frees_stack_and_directory
    (demo_oracle 1040 decide_continue) scenario_e 1 0 (by decide) (by decide) (Or.inr rfl)
  have hb1 := hb (fun _ _ _ => rfl) (fun _ _ _ => rfl)
  rw [hs] at h4
  rw [hs, hst, hpd] at hb1
  refine ⟨by decide, by decide, hs, hst, hpd, by decide, by decide, s1, h1, ?_, ?_, ?_,
    h4 (by decide)⟩
  · exact (hb1 1027).mpr (Or.inr (Or.inr (by decide)))
  · exact (hb1 1031).mpr (Or.inr (Or.inl ⟨3, by norm_num, by decide⟩))
  · rw [Bool.eq_false_iff]
    intro h
    rcases (hb1 1024).mp h with h5 | ⟨i, hi, h5⟩ | h5
    · exact absurd h5 (by decide)
    · unfold PAGE_SIZE at h5; omega
    · exact absurd h5 (by decide)

/-- Claim C11 fails as stated: the exiting process has a 4-page stack and a heap size of 8
pages; the free pages of the bitmap go from 8 to 13 and `free_memory` grows by 5 pages, not
by 12. -/
theorem process_exit_frees_five_pages :
    scenario_e.current_process = some 1 ∧
    (scenario_e.process_table 1).memory.stack_size = 4 * PAGE_SIZE ∧
    (scenario_e.process_table 1).memory.heap_size = 8 * PAGE_SIZE ∧
    free_page_count scenario_e.mem.memory_bitmap 1024 1040 = 8 ∧
    (process_exit (demo_oracle 1040 decide_continue) scenario_e 0).map
        (fun t => free_page_count t.mem.memory_bitmap 1024 1040) = some 13 ∧
    (process_exit (demo_oracle 1040 decide_continue) scenario_e 0).map
        (fun t => t.mem.free_memory / PAGE_SIZE)
      = some (scenario_e.mem.free_memory / PAGE_SIZE + 5) := by
  decide

/-! ## Claims about switching, failed creation and exit -/

/-- Claim C12: for a SWITCH decision naming `next`: if `next` is not the current process, then
after `schedule` the current process is `next`, `next` is RUNNING and not in the ready queue,
the outgoing process, if it was RUNNING, is READY and in the ready queue, and one call of
`context_switch` (outgoing, `next`) has been made; if `next` is the current process, the
state is unchanged, so no PCB state, queue content or statistic changes and no context
switch is made. -/
theorem schedule_switch_decision (o : ProcOracle) (s : KState) (next : Nat)
    (hact : (o.make_decision s).action = SCHEDULE_SWITCH)
    (hnext : (o.make_decision s).next_process = some next) :
    (s.current_process ≠ some next →
      (schedule o s).current_process = some next ∧
      ((schedule o s).process_table next).state = PROCESS_STATE_RUNNING ∧
      next ∉ (schedule o s).ready_queue ∧
      (∀ p, s.current_process = some p →
        (s.process_table p).state = PROCESS_STATE_RUNNING →
        ((schedule o s).process_table p).state = PROCESS_STATE_READY ∧
        p ∈ (schedule o s).ready_queue) ∧
      (schedule o s).switches = s.switches ++ [(s.current_process, next)]) ∧
    (s.current_process = some next → schedule o s = s) := by
  have hs : schedule o s = switch_to_process s next := by
    unfold schedule
    simp only [hact, hnext]
  rw [hs]
  refine ⟨fun hne => ⟨switch_to_process_current s next, ?_, ?_, ?_, ?_⟩,
    fun h => switch_to_process_same s next h⟩
  · rw [switch_to_process_state s next next hne]; simp
  · rw [switch_to_process_queue s next next hne]; simp
  · intro p hp hr
    have hpn : p ≠ next := fun e => hne (by rw [hp, e])
    constructor
    · rw [switch_to_process_state s next p hne]; simp [hpn, hp, hr]
    · rw [switch_to_process_queue s next p hne]; exact ⟨hpn, Or.inr ⟨hp, hr⟩⟩
  · exact (switch_to_process_extra s next 0).2 hne

/-- Witness of C12: the switch from the running process in slot 1 to the idle process. -/
theorem schedule_switch_decision_witness :
    ((demo_oracle 1040 (decide_switch 0)).make_decision demo_running).action = SCHEDULE_SWITCH ∧
    demo_running.current_process = some 1 ∧
    (demo_running.process_table 1).state = PROCESS_STATE_RUNNING ∧
    (schedule (demo_oracle 1040 (decide_switch 0)) demo_running).current_process = some 0 ∧
    ((schedule (demo_oracle 1040 (decide_switch 0)) demo_running).process_table 0).state
      = PROCESS_STATE_RUNNING ∧
    0 ∉ (schedule (demo_oracle 1040 (decide_switch 0)) demo_running).ready_queue ∧
    ((schedule (demo_oracle 1040 (decide_switch 0)) demo_running).process_table 1).state
      = PROCESS_STATE_READY ∧
    1 ∈ (schedule (demo_oracle 1040 (decide_switch 0)) demo_running).ready_queue ∧
    (schedule (demo_oracle 1040 (decide_switch 0)) demo_running).switches
      = demo_running.switches ++ [(some 1, 0)] := by
  have h := (schedule_switch_decision (demo_oracle 1040 (decide_switch 0)) demo_running 0 rfl
    rfl).1 (by decide)
  have h1 : demo_running.current_process = some 1 := by decide
  have h2 : (demo_running.process_table 1).state = PROCESS_STATE_RUNNING := by decide
  refine ⟨rfl, h1, h2, h.1, h.2.1, h.2.2.1, (h.2.2.2.1 1 h1 h2).1, (h.2.2.2.1 1 h1 h2).2, ?_⟩
  rw [h.2.2.2.2, h1]

theorem pmm_alloc_pages_halted_counters (o : MemOracle) (s : MemState) (n : Nat)
    (sh : MemState) (h : pmm_alloc_pages o s n = Outcome.halted sh) :
    sh.used_memory = s.used_memory ∧ sh.free_memory = s.free_memory ∧
    sh.memory_zones = s.memory_zones := by
  have hc := compact_memory_counters o (find_free_pages o s n (o.predict_allocation n)).1
  unfold pmm_alloc_pages at h
  simp only at h
  split_ifs at h with h1 h2 h3
  · simp only [Outcome.halted.injEq] at h
    rw [← h]
    exact ⟨hc.1, hc.2.1, hc.2.2.2.1⟩
  · unfold pmm_alloc_commit at h; exact Outcome.noConfusion h
  · simp only [Outcome.halted.injEq] at h
    rw [← h]
    exact ⟨hc.1, hc.2.1, hc.2.2.2.1⟩
  · unfold pmm_alloc_commit at h; exact Outcome.noConfusion h

/-- Claim C19 at a failing input: the policy predicts a stack of 6000 bytes; `process_create`
asks `pmm_alloc_pages` for `6000 / PAGE_SIZE = 1` page and sets `rsp` to the stack base plus
6000, beyond the top of the one page allocated.  `rip` is the entry point and bit 9 of
`rflags` is set. -/
theorem process_create_rsp_past_stack :
    ((sized_oracle 1040 decide_continue 0 6000).predict_resources [111]).stack_size = 6000 ∧
    odd_stack.mem.trace.getLast? = some (MemEvent.find_free_pages (6000 / PAGE_SIZE) 1028) ∧
    6000 / PAGE_SIZE = 1 ∧
    (odd_stack.process_table 1).stack = 1028 * PAGE_SIZE ∧
    (odd_stack.process_table 1).context.rip = 4096 ∧
    (odd_stack.process_table 1).context.rflags.testBit 9 = true ∧
    (odd_stack.process_table 1).context.rsp = 1028 * PAGE_SIZE + 6000 ∧
    (odd_stack.process_table 1).context.rsp
      ≠ (odd_stack.process_table 1).stack + PAGE_SIZE * (6000 / PAGE_SIZE) := by
  decide

/-- Claim C20: in every reachable state with a current process, for every exit code and every
decision returned to the `schedule` call inside `process_exit` (the functions behind IDLE
and MIGRATE leaving an exited PCB alone), the exiting PCB ends in `PROCESS_STATE_ZOMBIE` with
the exit code given, and it is not in the ready queue. -/
theorem process_exit_zombie (cfg : ProcConfig) (s : KState) (hs : ProcReachable cfg s)
    (o : ProcOracle) (exit_code : Int) (c : Nat) (hc : s.current_process = some c)
    (hk : o.idle_migrate_keep c) :
    ∃ s1, process_exit o s exit_code = some s1 ∧
      (s1.process_table c).state = PROCESS_STATE_ZOMBIE ∧
      (s1.process_table c).exit_code = exit_code ∧
      c ∉ s1.ready_queue := by
  obtain ⟨h1, h2, h3, h4⟩ := hs.queue_invariant
  have hrel := process_exit_release_eq o s c exit_code (h4 c)
  have hnq : c ∉ s.ready_queue := by
    intro hin
    have hr := (h1 c).mp hin
    rcases h3 c hc with h | h <;> rw [hr] at h <;> exact process_state_t.noConfusion h
  have hst : ((process_exit_release o s c exit_code).process_table c).state
      = PROCESS_STATE_ZOMBIE := by
    rw [hrel]; simp [KState.update_pcb]
  have hec : ((process_exit_release o s c exit_code).process_table c).exit_code = exit_code := by
    rw [hrel]; simp [KState.update_pcb]
  have hq : c ∉ (process_exit_release o s c exit_code).ready_queue := by
    rw [hrel]; exact hnq
  have hcur : (process_exit_release o s c exit_code).current_process = some c := by
    rw [hrel]; exact hc
  refine ⟨schedule o (process_exit_release o s c exit_code), ?_, ?_⟩
  · unfold process_exit; rw [hc]
  · generalize process_exit_release o s c exit_code = t at hst hec hq hcur
    unfold schedule
    simp only
    cases hact : (o.make_decision t).action with
    | SCHEDULE_SWITCH =>
      simp only
      cases (o.make_decision t).next_process with
      | none => exact ⟨hst, hec, hq⟩
      | some next =>
        simp only
        by_cases hn : t.current_process = some next
        · rw [switch_to_process_same t next hn]; exact ⟨hst, hec, hq⟩
        · have hcn : c ≠ next := fun e => hn (by rw [hcur, e])
          refine ⟨?_, ?_, ?_⟩
          · rw [switch_to_process_state t next c hn]; simp [hcn, hst]
          · rw [(switch_to_process_extra t next c).1]; exact hec
          · rw [switch_to_process_queue t next c hn]
            rintro ⟨-, h | h⟩
            · exact hq h
            · rw [hst] at h; exact process_state_t.noConfusion h.2
    | SCHEDULE_CONTINUE =>
      simp only [hcur]
      refine ⟨?_, ?_, hq⟩
      · simp [KState.update_pcb, hst]
      · simp [KState.update_pcb, hec]
    | SCHEDULE_IDLE =>
      simp only
      have := (hk t hst hq).1
      exact ⟨this.1, this.2.1.trans hec, this.2.2⟩
    | SCHEDULE_MIGRATE =>
      simp only
      have := (hk t hst hq).2 (o.make_decision t).next_process (o.make_decision t).target_cpu
      exact ⟨this.1, this.2.1.trans hec, this.2.2⟩

/-- Witness of C20: the exit of the running process in slot 1, the policy switching to the
idle process. -/
theorem process_exit_zombie_witness :
    ProcReachable demo_cfg demo_running ∧ demo_running.current_process = some 1 ∧
    (demo_oracle 1040 (decide_switch 0)).idle_migrate_keep 1 ∧
    ∃ s1, process_exit (demo_oracle 1040 (decide_switch 0)) demo_running 3 = some s1 ∧
      (s1.process_table 1).state = PROCESS_STATE_ZOMBIE ∧
      (s1.process_table 1).exit_code = 3 ∧
      1 ∉ s1.ready_queue := by
  have hk : (demo_oracle 1040 (decide_switch 0)).idle_migrate_keep 1 :=
    fun t h1 h2 => ⟨⟨h1, rfl, h2⟩, fun _ _ => ⟨h1, rfl, h2⟩⟩
  exact ⟨demo_running_reachable, by decide, hk,
    process_exit_zombie demo_cfg demo_running demo_running_reachable
      (demo_oracle 1040 (decide_switch 0)) 3 1 (by decide) hk⟩

/-! ## Exit and the current process -/

/-- Claim C21 fails as stated: the process in slot 1 is running and exits; when the policy
answers CONTINUE, SWITCH naming the exiting process itself, or SWITCH naming no process,
`current_process` after `process_exit` is still slot 1, the process that exited. -/
theorem process_exit_keeps_current :
    demo_running.current_process = some 1 ∧
    Option.map KState.current_process
      (process_exit (demo_oracle 1040 decide_continue) demo_running 3) = some (some 1) ∧
    Option.map KState.current_process
      (process_exit (demo_oracle 1040 (decide_switch 1)) demo_running 3) = some (some 1) ∧
    Option.map KState.current_process
      (process_exit (demo_oracle 1040 decide_switch_none) demo_running 3) = some (some 1) := by
  decide

/-- Claim C21, amended: in every reachable state with a current process `c`, `process_exit`
returns a state in which `current_process` is the PCB the policy named when its decision is
SWITCH naming a PCB, and is still `c`, the process that exited, when the decision is CONTINUE
or SWITCH naming no process.  So `current_process` is a process other than the one that
exited exactly when the policy answers SWITCH and names another PCB. -/
theorem process_exit_current_process (cfg : ProcConfig) (s : KState)
    (hs : ProcReachable cfg s) (o : ProcOracle) (exit_code : Int) (c : Nat)
    (hc : s.current_process = some c) :
    ∃ s1, process_exit o s exit_code = some s1 ∧
      ((o.make_decision (process_exit_release o s c exit_code)).action = SCHEDULE_CONTINUE →
        s1.current_process = some c) ∧
      ((o.make_decision (process_exit_release o s c exit_code)).action = SCHEDULE_SWITCH →
        (o.make_decision (process_exit_release o s c exit_code)).next_process = none →
        s1.current_process = some c) ∧
      (∀ next,
        (o.make_decision (process_exit_release o s c exit_code)).action = SCHEDULE_SWITCH →
        (o.make_decision (process_exit_release o s c exit_code)).next_process = some next →
        s1.current_process = some next) := by
  have hrel := process_exit_release_eq o s c exit_code (hs.queue_invariant.2.2.2 c)
  have hcur : (process_exit_release o s c exit_code).current_process = some c := by
    rw [hrel]; exact hc
  refine ⟨schedule o (process_exit_release o s c exit_code), ?_, ?_, ?_, ?_⟩
  · unfold process_exit; rw [hc]
  · intro ha
    unfold schedule
    simp only [ha, hcur, KState.update_pcb]
  · intro ha hn
    unfold schedule
    simp only [ha, hn, hcur]
  · intro next ha hn
    unfold schedule
    simp only [ha, hn]
    exact switch_to_process_current _ next

/-- Witness of C21: the running process in slot 1 exits and the policy switches to the idle
process in slot 0, which is the current process afterwards. -/
theorem process_exit_current_process_witness :
    ProcReachable demo_cfg demo_running ∧ demo_running.current_process = some 1 ∧
    ∃ s1, process_exit (demo_oracle 1040 (decide_switch 0)) demo_running 3 = some s1 ∧
      s1.current_process = some 0 := by
  obtain ⟨s1, h1, -, -, h2⟩ :=
    process_exit_current_process demo_cfg demo_running demo_running_reachable
      (demo_oracle 1040 (decide_switch 0)) 3 1 (by decide)
  exact ⟨demo_running_reachable, by decide, s1, h1, h2 0 rfl rfl⟩

/-! ## Round-robin order -/

theorem switch_to_process_ready_queue (s : KState) (next : Nat)
    (h : s.current_process ≠ some next) :
    (switch_to_process s next).ready_queue =
      (match s.current_process with
        | some p =>
          if (s.process_table p).state = PROCESS_STATE_RUNNING then s.ready_queue ++ [p]
          else s.ready_queue
        | none => s.ready_queue).filter (fun j => decide (j ≠ next)) := by
  unfold switch_to_process
  simp only [h, if_false]
  cases hc : s.current_process with
  | none => simp [KState.update_pcb, remove_from_ready_queue]
  | some p =>
    by_cases hr : (s.process_table p).state = PROCESS_STATE_RUNNING <;>
      simp [KState.update_pcb, remove_from_ready_queue, add_to_ready_queue, hr]

theorem filter_ne_cons_of_nodup (h : Nat) (r : List Nat) (hn : (h :: r).Nodup) :
    (h :: r).filter (fun j => decide (j ≠ h)) = r := by
  have hr : h ∉ r := (List.nodup_cons.mp hn).1
  simp only [List.filter_cons, ne_eq, not_true_eq_false, decide_False, Bool.false_eq_true,
    if_false]
  rw [List.filter_eq_self]
  intro a ha
  simp only [decide_eq_true_eq]
  exact fun e => hr (e ▸ ha)

theorem rotation_state_schedule (o : ProcOracle) (ho : o.round_robin) (s : KState)
    (l : List Nat) (hl : l.Nodup) (h : rotation_state s l) :
    rotation_state (schedule o s) (l.rotate 1) := by
  obtain ⟨c, hlc, hcur, hst⟩ := h
  obtain ⟨ha, hn⟩ := ho s
  unfold schedule
  simp only [ha, hn]
  cases hq : s.ready_queue with
  | nil =>
    simp only [List.head?_nil]
    rw [hq] at hlc
    refine ⟨c, ?_, hcur, hst⟩
    rw [hlc, hq]
    simp
  | cons h r =>
    simp only [List.head?_cons]
    rw [hq] at hlc
    rw [hlc] at hl
    have hhc : h ≠ c := by
      intro e
      have := (List.nodup_cons.mp hl).1
      exact this (by simp [e])
    have hne : s.current_process ≠ some h := by
      rw [hcur]; exact fun e => hhc (Option.some.inj e).symm
    refine ⟨h, ?_, switch_to_process_current s h, ?_⟩
    · rw [switch_to_process_ready_queue s h hne, hcur]
      simp only [hst, if_true, hq]
      rw [show h :: r ++ [c] = h :: (r ++ [c]) from rfl, filter_ne_cons_of_nodup h (r ++ [c]) hl,
        hlc]
      simp [List.rotate_cons_succ]
    · rw [switch_to_process_state s h h hne]
      simp

theorem rotation_state_first (o : ProcOracle) (ho : o.round_robin) (s : KState)
    (hcur : s.current_process = none) (hnd : s.ready_queue.Nodup)
    (hne : s.ready_queue ≠ []) :
    rotation_state (schedule o s) (s.ready_queue.rotate 1) := by
  obtain ⟨ha, hn⟩ := ho s
  unfold schedule
  simp only [ha, hn]
  cases hq : s.ready_queue with
  | nil => exact absurd hq hne
  | cons h r =>
    simp only [List.head?_cons]
    have hne2 : s.current_process ≠ some h := by rw [hcur]; exact fun e => Option.noConfusion e
    refine ⟨h, ?_, switch_to_process_current s h, ?_⟩
    · rw [switch_to_process_ready_queue s h hne2, hcur]
      simp only [hq]
      rw [filter_ne_cons_of_nodup h r (hq ▸ hnd)]
      simp [List.rotate_cons_succ]
    · rw [switch_to_process_state s h h hne2]
      simp

theorem rotation_state_times (o : ProcOracle) (ho : o.round_robin) (s : KState)
    (hcur : s.current_process = none) (hnd : s.ready_queue.Nodup)
    (hne : s.ready_queue ≠ []) (n : Nat) :
    rotation_state (schedule_times o (n + 1) s) (s.ready_queue.rotate (n + 1)) := by
  induction n with
  | zero => exact rotation_state_first o ho s hcur hnd hne
  | succ n ih =>
    have := rotation_state_schedule o ho _ _ (List.nodup_rotate.mpr hnd) ih
    rw [List.rotate_rotate] at this
    exact this

theorem schedule_times_empty (o : ProcOracle) (ho : o.round_robin) (s : KState)
    (hq : s.ready_queue = []) (n : Nat) : schedule_times o n s = s := by
  induction n with
  | zero => rfl
  | succ n ih =>
    obtain ⟨ha, hn⟩ := ho s
    simp only [schedule_times, ih]
    unfold schedule
    simp only [ha, hn, hq, List.head?_nil]

/-- Claim C22, amended: with a policy that always answers SWITCH to the head of the ready
queue, starting from a state in which no process is running and the ready queue has no
repeated entry, the call number `n + 1` of `schedule` makes the PCB at position
`n mod length` of the initial ready queue the current process: the PCBs of the queue run in
queue order, cyclically (none of them when the queue is empty).  The queue that
`process_init` and the creation of P1, P2, P3 leave starts with the idle process, so the
order is idle, P1, P2, P3, idle, P1, ... -/
theorem schedule_round_robin (o : ProcOracle) (ho : o.round_robin) (s : KState)
    (hcur : s.current_process = none) (hnd : s.ready_queue.Nodup) (n : Nat) :
    (schedule_times o (n + 1) s).current_process
      = s.ready_queue[n % s.ready_queue.length]? := by
  by_cases hne : s.ready_queue = []
  · rw [schedule_times_empty o ho s hne, hcur, hne]
    rfl
  · obtain ⟨c, hlc, hc, -⟩ := rotation_state_times o ho s hcur hnd hne n
    rw [hc]
    have hpos : 0 < s.ready_queue.length := List.length_pos.mpr hne
    have hlt : n % s.ready_queue.length < s.ready_queue.length := Nat.mod_lt _ hpos
    rw [← List.head?_rotate hlt, List.rotate_mod]
    rw [← List.rotate_rotate] at hlc
    cases hr : s.ready_queue.rotate n with
    | nil =>
      rw [hr] at hlc
      simp at hlc
    | cons a t =>
      rw [hr, List.rotate_cons_succ, List.rotate_zero] at hlc
      have := List.append_inj' hlc rfl
      simp only [List.head?_cons]
      exact congrArg some (List.singleton_inj.mp this.2).symm

/-- Witness of C22: after `process_init` and three creations the ready queue holds the slots
0 (idle), 1, 2, 3; the fifth call of `schedule` runs position 4 mod 4 = 0, the idle process. -/
theorem schedule_round_robin_witness :
    round_robin_oracle.round_robin ∧ demo_full.current_process = none ∧
    demo_full.ready_queue.Nodup ∧
    (schedule_times round_robin_oracle (4 + 1) demo_full).current_process
      = demo_full.ready_queue[4 % demo_full.ready_queue.length]? ∧
    demo_full.ready_queue[4 % demo_full.ready_queue.length]? = some 0 :=
  ⟨fun _ => ⟨rfl, rfl⟩, by decide, by decide,
    schedule_round_robin round_robin_oracle (fun _ => ⟨rfl, rfl⟩) demo_full (by decide)
      (by decide) 4, by decide⟩

/-- Claim C22 fails as stated: after `process_init` (which creates the idle process, slot 0)
and the creation of P1, P2, P3 (slots 1, 2, 3) the ready queue is idle, P1, P2, P3, and under
the head-of-queue policy six successive calls of `schedule` run idle, P1, P2, P3, idle, P1:
the first process to run is the idle process, and it runs again between P3 and P1. -/
theorem schedule_round_robin_runs_idle :
    demo_full.ready_queue = [0, 1, 2, 3] ∧
    (demo_full.process_table 0).name = [105, 100, 108, 101] ∧
    (demo_full.process_table 1).name = [97] ∧
    (demo_full.process_table 2).name = [98] ∧
    (demo_full.process_table 3).name = [99] ∧
    running_order round_robin_oracle demo_full 6
      = [some 0, some 1, some 2, some 3, some 0, some 1] := by
  decide

/-! ## The memory-size predictor -/

/-- Claim C23: for every process argument, `NULL` included, and every value the conversion of
the network's prediction yields, `ai_predict_memory_allocation` returns a size of at least
4096 bytes and at most 1 GiB (1024 * 1024 * 1024); for a `NULL` process it returns exactly
4096. -/
theorem ai_predict_memory_allocation_range (proc : Option process_t) (predicted_size : Nat) :
    4096 ≤ ai_predict_memory_allocation proc predicted_size ∧
    ai_predict_memory_allocation proc predicted_size ≤ 1024 * 1024 * 1024 ∧
    ai_predict_memory_allocation none predicted_size = 4096 := by
  refine ⟨?_, ?_, rfl⟩
  · cases proc with
    | none => exact le_refl _
    | some p =>
      simp only [ai_predict_memory_allocation]
      split_ifs <;> omega
  · cases proc with
    | none => simp [ai_predict_memory_allocation]
    | some p =>
      simp only [ai_predict_memory_allocation]
      split_ifs <;> omega

/-! ## The global counters -/

theorem pmm_alloc_pages_sum (o : MemOracle) (s : MemState) (n : Nat) :
    ((pmm_alloc_pages o s n).state.used_memory + (pmm_alloc_pages o s n).state.free_memory)
        % 2 ^ 32 = (s.used_memory + s.free_memory) % 2 ^ 32 ∧
    (pmm_alloc_pages o s n).state.total_memory = s.total_memory := by
  cases h : pmm_alloc_pages o s n with
  | returned s1 addr =>
    obtain ⟨-, -, ht, hu, hf⟩ := pmm_alloc_pages_counters o s s1 n addr h
    simp only [Outcome.state]
    refine ⟨?_, ht⟩
    rw [hu, hf]
    omega
  | halted sh =>
    obtain ⟨hu, hf, -⟩ := pmm_alloc_pages_halted_counters o s n sh h
    simp only [Outcome.state]
    refine ⟨by rw [hu, hf], ?_⟩
    have hc := compact_memory_counters o (find_free_pages o s n (o.predict_allocation n)).1
    unfold pmm_alloc_pages at h
    simp only at h
    split_ifs at h with h1 h2 h3
    · simp only [Outcome.halted.injEq] at h
      rw [← h]
      simpa [kernel_panic, find_free_pages] using hc.2.2.1
    · simp [pmm_alloc_commit] at h
    · simp only [Outcome.halted.injEq] at h
      rw [← h]
      simpa [kernel_panic, find_free_pages] using hc.2.2.1
    · simp [pmm_alloc_commit] at h

theorem pmm_free_pages_sum (o : MemOracle) (s : MemState) (addr n : Nat) :
    ((pmm_free_pages o s addr n).used_memory + (pmm_free_pages o s addr n).free_memory)
        % 2 ^ 32 = (s.used_memory + s.free_memory) % 2 ^ 32 ∧
    (pmm_free_pages o s addr n).total_memory = s.total_memory := by
  simp only [pmm_free_pages, and_true]
  omega

theorem MemReachable.counters_sum {s0 s : MemState} (h : MemReachable s0 s) :
    (s.used_memory + s.free_memory) % 2 ^ 32 = (s0.used_memory + s0.free_memory) % 2 ^ 32 ∧
    s.total_memory = s0.total_memory := by
  induction h with
  | init => exact ⟨rfl, rfl⟩
  | alloc o n addr s s1 _ hc ih =>
    have h1 := pmm_alloc_pages_sum o s n
    rw [hc] at h1
    simp only [Outcome.state] at h1
    exact ⟨h1.1.trans ih.1, h1.2.trans ih.2⟩
  | free o addr n s _ ih =>
    have h1 := pmm_free_pages_sum o s addr n
    exact ⟨h1.1.trans ih.1, h1.2.trans ih.2⟩

/-- Claim C25: `memory_init`, when it is defined (it is not when `init_memory_zones` writes
past the end of `memory_zones`), sets `used_memory = 0` and `free_memory = total_memory`; in
every state reachable from there through `pmm_alloc_pages` and `pmm_free_pages`,
`used_memory + free_memory` equals `total_memory` modulo 2^32, and every
call of either function preserves that sum modulo 2^32 (an allocation that halts included).
An allocation of `n` pages that returns adds `n * PAGE_SIZE` to `used_memory` and subtracts
it from `free_memory`, `pmm_free_pages` does the reverse, each in 32-bit wrap-around
arithmetic and whatever the values of the counters, the address and `n`. -/
theorem pmm_counters_sum_preserved (mark : (Nat → Nat) → Nat → Nat → (Nat → Nat))
    (raw : MemState) (mboot_info : multiboot_info_t) (s0 s : MemState)
    (hinit : memory_init mark raw mboot_info = some s0)
    (hreach : MemReachable s0 s)
    (o : MemOracle) (addr n : Nat) :
    s0.used_memory = 0 ∧ s0.free_memory = s0.total_memory ∧
    (s.used_memory + s.free_memory) % 2 ^ 32 = s.total_memory ∧
    ((pmm_alloc_pages o s n).state.used_memory + (pmm_alloc_pages o s n).state.free_memory)
        % 2 ^ 32 = (s.used_memory + s.free_memory) % 2 ^ 32 ∧
    ((pmm_free_pages o s addr n).used_memory + (pmm_free_pages o s addr n).free_memory)
        % 2 ^ 32 = (s.used_memory + s.free_memory) % 2 ^ 32 ∧
    (∀ s1 a, pmm_alloc_pages o s n = Outcome.returned s1 a →
      s1.used_memory = (s.used_memory + n * PAGE_SIZE) % 2 ^ 32 ∧
      s1.free_memory = (s.free_memory + 2 ^ 32 - (n * PAGE_SIZE) % 2 ^ 32) % 2 ^ 32) ∧
    (pmm_free_pages o s addr n).used_memory
      = (s.used_memory + 2 ^ 32 - (n * PAGE_SIZE) % 2 ^ 32) % 2 ^ 32 ∧
    (pmm_free_pages o s addr n).free_memory = (s.free_memory + n * PAGE_SIZE) % 2 ^ 32 := by
  have hi := memory_init_some mark raw s0 mboot_info hinit
  have hr := hreach.counters_sum
  refine ⟨hi.2.1, by rw [hi.2.2.1, hi.1], ?_, (pmm_alloc_pages_sum o s n).1,
    (pmm_free_pages_sum o s addr n).1, ?_, rfl, rfl⟩
  · rw [hr.1, hr.2, hi.1, hi.2.1, hi.2.2.1]
    omega
  · intro s1 a h
    exact (pmm_alloc_pages_counters o s s1 n a h).2.2.2

/-- Witness of C25: right after `memory_init` on the four-page machine nothing is allocated;
freeing one page all the same wraps `used_memory` to 2^32 - 4096 and raises `free_memory`
above `total_memory`, the sum staying `total_memory` modulo 2^32. -/
theorem pmm_counters_sum_preserved_witness :
    memory_init mark_kernel_words (boot_state (fun _ => 0)) (small_machine 4)
      = some (small_mem 4) ∧
    MemReachable (small_mem 4) (small_mem 4) ∧
    (small_mem 4).total_memory = 4210688 ∧
    (pmm_free_pages (static_oracle 1024 1028) (small_mem 4) 0 1).used_memory = 2 ^ 32 - 4096 ∧
    (pmm_free_pages (static_oracle 1024 1028) (small_mem 4) 0 1).free_memory = 4214784 ∧
    ((small_mem 4).used_memory + (small_mem 4).free_memory) % 2 ^ 32
      = (small_mem 4).total_memory :=
  ⟨memory_init_small_machine 4, MemReachable.init, by decide, by decide, by decide,
    (pmm_counters_sum_preserved mark_kernel_words (boot_state (fun _ => 0)) (small_machine 4)
      (small_mem 4) (small_mem 4) (memory_init_small_machine 4) MemReachable.init
      (static_oracle 1024 1028) 0 1).2.2.1⟩

/-! ## At most one running process -/

/-- Claim C26: in every state reachable from `process_init` through `process_create`,
`schedule` (SWITCH or CONTINUE decisions) and `process_exit`, a PCB in state
`PROCESS_STATE_RUNNING` is `current_process`, and any other PCB in that state is the same
PCB: at most one PCB is running. -/
theorem at_most_one_running (cfg : ProcConfig) (s : KState) (h : ProcReachable cfg s)
    (i j : Nat) (hi : (s.process_table i).state = PROCESS_STATE_RUNNING) :
    s.current_process = some i ∧
    ((s.process_table j).state = PROCESS_STATE_RUNNING → j = i) := by
  have hq := (ProcReachable.queue_invariant h).2.1
  refine ⟨hq i hi, fun hj => ?_⟩
  have h1 := hq i hi
  have h2 := hq j hj
  rw [h1] at h2
  exact (Option.some.inj h2).symm

/-- Witness of C26: in `demo_running` slot 1 is running and is the current process; the idle
process in slot 0 is not running. -/
theorem at_most_one_running_witness :
    ProcReachable demo_cfg demo_running ∧
    (demo_running.process_table 1).state = PROCESS_STATE_RUNNING ∧
    demo_running.current_process = some 1 ∧
    ((demo_running.process_table 0).state = PROCESS_STATE_RUNNING → 0 = 1) :=
  ⟨demo_running_reachable, by decide,
    at_most_one_running demo_cfg demo_running demo_running_reachable 1 0 (by decide)⟩

/-! ## The first context switch -/

theorem process_create_current (cfg : ProcConfig) (o : ProcOracle) (s s1 : KState)
    (name : List Nat) (entry priority : Nat) (r : Option Nat)
    (h : process_create cfg o s name entry priority = Outcome.returned s1 r) :
    s1.current_process = s.current_process ∧ s1.switches = s.switches := by
  cases r with
  | none =>
    rw [(process_create_returned_none cfg o s s1 name entry priority h).1]
    exact ⟨rfl, rfl⟩
  | some i =>
    obtain ⟨-, -, pd, stack, m, he⟩ :=
      process_create_returned_some cfg o s s1 name entry priority i h
    rw [he]
    exact ⟨rfl, rfl⟩

theorem create_kernel_threads_current (cfg : ProcConfig) :
    ∀ (threads : List KernelThread) (s s1 : KState),
      create_kernel_threads cfg threads s = Outcome.returned s1 () →
      s1.current_process = s.current_process ∧ s1.switches = s.switches := by
  intro threads
  induction threads with
  | nil =>
    intro s s1 h
    simp only [create_kernel_threads, Outcome.returned.injEq, and_true] at h
    rw [← h]; exact ⟨rfl, rfl⟩
  | cons t rest ih =>
    intro s s1 h
    simp only [create_kernel_threads] at h
    cases hc : process_create cfg t.oracle s t.name t.entry t.priority with
    | halted sh => rw [hc] at h; exact Outcome.noConfusion h
    | returned s2 r =>
      rw [hc] at h
      have h1 := process_create_current cfg _ s s2 _ _ _ r hc
      have h2 := ih s2 s1 h
      exact ⟨h2.1.trans h1.1, h2.2.trans h1.2⟩

theorem process_init_current (cfg : ProcConfig) (o : ProcOracle) (idle : Nat)
    (threads : List KernelThread) (m : MemState) (s : KState)
    (h : process_init cfg o idle threads (kernel_boot_state m) = some (Outcome.returned s ())) :
    s.current_process = none ∧ s.switches = [] := by
  unfold process_init create_idle_process at h
  cases hc : process_create cfg o (process_init_clear (kernel_boot_state m)) [105, 100, 108, 101]
      idle 0 with
  | halted sh => rw [hc] at h; simp at h
  | returned s1 r =>
    rw [hc] at h
    cases r with
    | none => simp at h
    | some i =>
      simp only [Option.some.injEq] at h
      have h1 := process_create_current cfg o _ s1 _ _ _ _ hc
      have h2 := create_kernel_threads_current cfg threads _ s h
      exact ⟨h2.1.trans h1.1, h2.2.trans h1.2⟩

/-- Claim C27 against the code: in the state a successful `process_init` leaves, which is
reachable, `current_process` is `NULL`, so the first `switch_to_process(next)` has
`prev == NULL` and the one call of `context_switch` it makes is
`context_switch(&prev->context, &next->context)` with that null `prev`. -/
theorem switch_to_process_null_prev (cfg : ProcConfig) (o : ProcOracle)
    (idle_process_entry : Nat) (threads : List KernelThread) (mem : MemState) (s : KState)
    (hinit : process_init cfg o idle_process_entry threads (kernel_boot_state mem)
      = some (Outcome.returned s ()))
    (next : Nat) :
    ProcReachable cfg s ∧ s.current_process = none ∧
    (switch_to_process s next).switches = [(none, next)] := by
  obtain ⟨hc, hsw⟩ := process_init_current cfg o idle_process_entry threads mem s hinit
  refine ⟨ProcReachable.init o idle_process_entry threads mem s hinit, hc, ?_⟩
  unfold switch_to_process
  simp [hc, hsw, KState.update_pcb, remove_from_ready_queue]

/-- Witness of C27: the first switch after `process_init` on the demo machine, to the idle
process in slot 0, calls `context_switch` with a null outgoing PCB. -/
theorem switch_to_process_null_prev_witness :
    process_init demo_cfg (demo_oracle 1040 decide_continue) 0 [] (kernel_boot_state (small_mem 16))
      = some (Outcome.returned demo_boot ()) ∧
    ProcReachable demo_cfg demo_boot ∧ demo_boot.current_process = none ∧
    (switch_to_process demo_boot 0).switches = [(none, 0)] :=
  ⟨eq_started_state _ _ (by decide),
    switch_to_process_null_prev demo_cfg (demo_oracle 1040 decide_continue) 0 []
      (small_mem 16) demo_boot (eq_started_state _ _ (by decide)) 0⟩

/-! ## The bitmap after memory_init -/

/-- Claim C28 against the code: on a machine of 8192 pages (32 MiB) whose bitmap memory holds
all ones before `memory_init`, `bitmap_size` is 256 bytes, the `memset` clears the bits of
the pages 0 .. 2047 only, and every page from 2048 up to 8191 is reported used after
`memory_init`, whatever `mark_memory_used` does as long as it only marks pages used. -/
theorem memory_init_leaves_stale_bits
    (mark_memory_used : (Nat → Nat) → Nat → Nat → (Nat → Nat))
    (hmark : ∀ bm, used_stay_used bm (mark_memory_used bm 0 KERNEL_SIZE)) :
    ∃ m, memory_init mark_memory_used (boot_state (fun _ => 0xFFFFFFFF))
        (small_machine 7168) = some m ∧
      m.total_memory / PAGE_SIZE = 8192 ∧
      m.total_memory / (PAGE_SIZE * 32) = 256 ∧
      ∀ p, 2048 ≤ p → p < 8192 → is_page_free m.memory_bitmap p = false := by
  have hs : (memory_init mark_memory_used (boot_state (fun _ => 0xFFFFFFFF))
      (small_machine 7168)).isSome = true := by
    simp [memory_init, init_memory_zones, init_memory_zones_loop, small_machine, boot_state,
      MAX_MEMORY_ZONES]
  obtain ⟨m, hm⟩ := Option.isSome_iff_exists.mp hs
  obtain ⟨ht, -, -, hb, -, -⟩ := memory_init_some mark_memory_used _ m _ hm
  have ht1 : m.total_memory = 33554432 := by
    rw [ht]; simp [small_machine, KERNEL_SIZE, PAGE_SIZE]
  have hb1 : m.memory_bitmap
      = mark_memory_used (memset_bitmap (fun _ => 0xFFFFFFFF) 256) 0 KERNEL_SIZE := by
    rw [hb]
    have h256 : ((small_machine 7168).mem_upper * 1024) % 2 ^ 32 / (PAGE_SIZE * 32) = 256 := by
      simp [small_machine, KERNEL_SIZE, PAGE_SIZE]
    rw [h256]
    rfl
  refine ⟨m, hm, by rw [ht1]; rfl, by rw [ht1]; rfl, fun p h1 h2 => ?_⟩
  rw [hb1]
  apply hmark
  have hw : 64 ≤ p / 32 := by omega
  have hk : min 4 (256 - 4 * (p / 32)) = 0 := by omega
  rw [is_page_free_eq_testBit]
  simp only [memset_bitmap, hk]
  have hv : (4294967295 / 2 ^ (8 * 0)) * 2 ^ (8 * 0) % 2 ^ 32 = 2 ^ 32 - 1 := by norm_num
  rw [hv, Nat.testBit_two_pow_sub_one]
  have hlt : p % 32 < 32 := Nat.mod_lt _ (by norm_num)
  simp [hlt]

/-- Witness of C28: with `mark_kernel_words` for `mark_memory_used`, page 2047 is free after
`memory_init` and page 2048 is not. -/
theorem memory_init_leaves_stale_bits_witness :
    (∀ bm, used_stay_used bm (mark_kernel_words bm 0 KERNEL_SIZE)) ∧
    ∃ m, memory_init mark_kernel_words (boot_state (fun _ => 0xFFFFFFFF))
        (small_machine 7168) = some m ∧
      is_page_free m.memory_bitmap 2047 = true ∧
      is_page_free m.memory_bitmap 2048 = false := by
  have hmark : ∀ bm, used_stay_used bm (mark_kernel_words bm 0 KERNEL_SIZE) := by
    intro bm p hp
    rw [is_page_free_eq_testBit] at hp ⊢
    unfold mark_kernel_words
    by_cases hw : p / 32 < 32
    · simp only [hw, if_true]
      have hv : (4294967295 : Nat) = 2 ^ 32 - 1 := by norm_num
      have hlt : p % 32 < 32 := Nat.mod_lt _ (by norm_num)
      rw [hv, Nat.testBit_two_pow_sub_one]
      simp [hlt]
    · simp only [hw, if_false]
      exact hp
  obtain ⟨m, hm, -, -, h⟩ := memory_init_leaves_stale_bits mark_kernel_words hmark
  refine ⟨hmark, m, hm, ?_, h 2048 (by decide) (by decide)⟩
  have hd : Option.map (fun k => is_page_free k.memory_bitmap 2047)
      (memory_init mark_kernel_words (boot_state (fun _ => 0xFFFFFFFF)) (small_machine 7168))
      = some true := by decide
  rw [hm] at hd
  simpa using hd

/-! ## Addresses and page numbers -/

/-- Claim C29: when `pmm_alloc_pages(n)` returns, the address is `start * PAGE_SIZE` modulo
2^32 for the start page the search returned, the bits of the pages `start + i`, `i < n`,
are set, and `address / PAGE_SIZE = start` if and only if `start < 2^20`.  If
`start < 2^20`, `pmm_free_pages` of that address and `n` frees exactly those pages (a
`coalesce_free_blocks` that leaves the bitmap alone being assumed); if `start >= 2^20` and
`0 < n <= 2^20` it leaves page `start` marked used and frees page `start mod 2^20`, which
is not among the pages the allocation marked. -/
theorem pmm_address_page_round_trip (o o1 : MemOracle) (s s1 : MemState) (n addr : Nat)
    (h : pmm_alloc_pages o s n = Outcome.returned s1 addr)
    (hco : ∀ bm a k, o1.coalesce_free_blocks bm a k = bm) :
    ∃ (sf : MemState) (start : Nat),
      start = o.find_free_pages sf n (o.predict_allocation n) % 2 ^ 32 ∧
      addr = (start * PAGE_SIZE) % 2 ^ 32 ∧
      (∀ i, i < n → is_page_free s1.memory_bitmap ((start + i) % 2 ^ 32) = false) ∧
      (addr / PAGE_SIZE = start ↔ start < 2 ^ 20) ∧
      (start < 2 ^ 20 → ∀ q,
        is_page_free (pmm_free_pages o1 s1 addr n).memory_bitmap q = true ↔
          is_page_free s1.memory_bitmap q = true ∨ ∃ i, i < n ∧ q = (start + i) % 2 ^ 32) ∧
      (2 ^ 20 ≤ start → 0 < n → n ≤ 2 ^ 20 →
        is_page_free (pmm_free_pages o1 s1 addr n).memory_bitmap start = false ∧
        is_page_free (pmm_free_pages o1 s1 addr n).memory_bitmap (start % 2 ^ 20) = true ∧
        ∀ i, i < n → start % 2 ^ 20 ≠ (start + i) % 2 ^ 32) := by
  obtain ⟨sf, sb, start, hs, -, hbm, -, -, -, -, -, -, hc⟩ :=
    pmm_alloc_pages_returned o s s1 n addr h
  have hlt : start < 2 ^ 32 := by rw [hs]; exact Nat.mod_lt _ (by norm_num)
  unfold pmm_alloc_commit at hc
  simp only [Outcome.returned.injEq] at hc
  obtain ⟨hs1, haddr⟩ := hc
  have hb1 : s1.memory_bitmap = mark_pages_used sb.memory_bitmap start n := by rw [← hs1]
  have hfree : (pmm_free_pages o1 s1 addr n).memory_bitmap
      = mark_pages_free s1.memory_bitmap (addr % 2 ^ 32 / PAGE_SIZE) n := by
    simp only [pmm_free_pages, hco]
  have hrec : addr % 2 ^ 32 / PAGE_SIZE = start % 2 ^ 20 := by
    rw [← haddr]; unfold PAGE_SIZE; omega
  have hset : ∀ i, i < n → is_page_free s1.memory_bitmap ((start + i) % 2 ^ 32) = false := by
    rw [hb1]; exact (mark_pages_used_frame sb.memory_bitmap start n).1
  refine ⟨sf, start, hs, haddr.symm, hset, ?_, ?_, ?_⟩
  · rw [← haddr]; unfold PAGE_SIZE; omega
  · intro hs20 q
    rw [hfree, hrec, Nat.mod_eq_of_lt hs20, is_page_free_mark_pages_free]
  · intro hs20 hn0 hn
    rw [hfree, hrec]
    have hnotin : ∀ i, i < n → start % 2 ^ 20 ≠ (start + i) % 2 ^ 32 := by
      intro i hi; omega
    refine ⟨?_, ?_, hnotin⟩
    · rw [Bool.eq_false_iff, Ne, is_page_free_mark_pages_free]
      rintro (hf | ⟨i, hi, hq⟩)
      · have := hset 0 hn0
        rw [Nat.add_zero, Nat.mod_eq_of_lt hlt] at this
        rw [this] at hf
        exact Bool.noConfusion hf
      · omega
    · have := (mark_pages_free_frame s1.memory_bitmap (start % 2 ^ 20) n).1 0 hn0
      have h20 : start % 2 ^ 20 % 2 ^ 32 = start % 2 ^ 20 := by omega
      rw [Nat.add_zero, h20] at this
      exact this

/-- Witness of C29: two pages allocated on the four-page machine start at page 1024, address
0x400000; a search answering page 2^20 yields the address 0. -/
theorem pmm_address_page_round_trip_witness :
    (∀ bm a k, (static_oracle 1024 1028).coalesce_free_blocks bm a k = bm) ∧
    (pmm_alloc_pages (static_oracle 1024 1028) (small_mem 4) 2).value = some 4194304 ∧
    (pmm_alloc_pages (static_oracle 1048576 1048580) (small_mem 4) 2).value = some 0 ∧
    ∃ s1 addr, pmm_alloc_pages (static_oracle 1024 1028) (small_mem 4) 2
        = Outcome.returned s1 addr ∧
      ∃ start, addr = (start * PAGE_SIZE) % 2 ^ 32 ∧
        (addr / PAGE_SIZE = start ↔ start < 2 ^ 20) := by
  obtain ⟨s1, addr, h⟩ := Outcome.exists_of_is_returned
    (pmm_alloc_pages (static_oracle 1024 1028) (small_mem 4) 2) (by decide)
  obtain ⟨-, start, -, h1, -, h2, -⟩ :=
    pmm_address_page_round_trip (static_oracle 1024 1028) (static_oracle 1024 1028)
      (small_mem 4) s1 2 addr h (fun _ _ _ => rfl)
  exact ⟨fun _ _ _ => rfl, by decide, by decide, s1, addr, h, start, h1, h2⟩

/-! ## The zone table -/

/-- Claim C30 against the code: `init_memory_zones`, entered with `num_memory_zones = 0`,
stays inside the 16-entry array `memory_zones` only for a boot map with at most
`MAX_MEMORY_ZONES` available entries, where it creates one zone per available entry and
leaves the other entries alone; for a map with more available entries it reaches
`memory_zones[num_memory_zones++]` with `num_memory_zones = MAX_MEMORY_ZONES`, a write past
the end of the array, and nothing is defined. -/
theorem init_memory_zones_past_the_array (s : MemState) (mboot_info : multiboot_info_t)
    (h0 : s.num_memory_zones = 0) :
    ((available_entries mboot_info.mmap).length ≤ MAX_MEMORY_ZONES →
      ∃ s1, init_memory_zones s mboot_info = some s1 ∧
        s1.num_memory_zones = (available_entries mboot_info.mmap).length ∧
        (∀ i, (available_entries mboot_info.mmap).length ≤ i →
          s1.memory_zones i = s.memory_zones i) ∧
        (∀ i e, (available_entries mboot_info.mmap)[i]? = some e →
          (s1.memory_zones i).start_addr = e.addr ∧
          (s1.memory_zones i).size = e.len ∧
          (s1.memory_zones i).end_addr = (e.addr + e.len) % 2 ^ 64 ∧
          (s1.memory_zones i).free_pages = (e.len / PAGE_SIZE) % 2 ^ 32 ∧
          (s1.memory_zones i).used_pages = 0)) ∧
    (MAX_MEMORY_ZONES < (available_entries mboot_info.mmap).length →
      init_memory_zones s mboot_info = none) := by
  constructor
  · intro hn
    obtain ⟨r, hr, h1, h2, h3⟩ :=
      init_memory_zones_loop_some mboot_info.mmap s.memory_zones 0 (by omega)
    simp only [Nat.zero_add] at h1 h2 h3
    refine ⟨{ s with memory_zones := r.1, num_memory_zones := r.2 }, ?_, h1,
      fun i hi => h2 i (Or.inr hi), fun i e he => ?_⟩
    · simp only [init_memory_zones, h0, hr]
    · simp only [h3 i e he, and_self]
  · intro hn
    simp only [init_memory_zones, h0,
      init_memory_zones_loop_none mboot_info.mmap s.memory_zones 0 (Nat.zero_le _) (by omega)]

/-- Witness of C30: a map of 16 available regions fills the 16 zones; with a 17th region the
loop writes `memory_zones[16]`, past the end of the array. -/
theorem init_memory_zones_past_the_array_witness :
    (boot_state (fun _ => 0)).num_memory_zones = 0 ∧
    (available_entries (many_regions_machine 16).mmap).length = 16 ∧
    (init_memory_zones (boot_state (fun _ => 0)) (many_regions_machine 16)).isSome = true ∧
    (available_entries (many_regions_machine 17).mmap).length = 17 ∧
    init_memory_zones (boot_state (fun _ => 0)) (many_regions_machine 17) = none :=
  ⟨rfl, by decide, by decide, by decide,
    (init_memory_zones_past_the_array (boot_state (fun _ => 0)) (many_regions_machine 17)
      rfl).2 (by decide)⟩

end AION
